import Mathlib

/-!
# Buffer manager (assign2/buffer_mgr.c): a shallow embedding

The C translation unit keeps its bookkeeping in two places: the caller's
`BM_BufferPool` record (whose `mgmtData` is the frame array) and the global
`BufferPoolMgm_Info *bmi`.  Both are fields of `World`, together with the
process memory that the frames' `data` pointers point into and the page file
on disk.

Conventions of the embedding:

* C `int` is `Int`.  The counters that only ever grow or shrink by one per call
  (`pinCount`, `numRead`, `numWrite`) are incremented and decremented through
  `wrapInt`, the 32-bit two's-complement result of the C operation.  `frameCnt`,
  `front` and `rear` stay between `-1` and `capacity`, and page numbers are
  below `INT_MAX`, so the arithmetic on them is exact.
* A `Frame*` is the index of the frame in the frame array; `NULL` is `none`.
* A `char*` page buffer is an address `Ptr`; its content is `World.mem` at it.
* An operation whose C execution dereferences `NULL`, indexes the frame array
  out of bounds or does not leave its loop has no result: `none`.
* `bm` and `page` are never `NULL` (they are values here), so the `== NULL`
  tests on them are always false and are not written down.
-/

namespace BufferMgr

/-! ## Data model (buffer_mgr.h, dberror.h) -/

/-- Content of one page-sized block: its bytes. -/
abbrev Buffer := List Nat

/-- Address of a page-sized buffer in process memory (`char *`). -/
abbrev Ptr := Nat

/-- Block size of the page file (`#define PAGE_SIZE 4096`). -/
def PAGE_SIZE : Nat := 4096

/-- Page number of an empty frame (`#define NO_PAGE -1`). -/
def NO_PAGE : Int := -1

/-- A zero-filled block, as produced by `calloc(PAGE_SIZE, 1)`. -/
def zeroPage : Buffer := List.replicate PAGE_SIZE 0

/-- Return codes of dberror.h that the buffer manager uses. -/
inductive RC where
  | RC_OK
  | RC_FILE_NOT_FOUND
  | RC_READ_NON_EXISTING_PAGE
  | RC_READ_PAGE_FALIED
  | RC_WRITE_PAGE_FAILED
  | RC_PARAMS_ERROR
  | RC_NOT_SUPPORT_STRATEGY
  | RC_PAGE_NOT_EXIST
  | RC_BUFFER_EMPTY
  | RC_NO_FREE_PIN_PAGE
  | RC_BUFFER_NOT_INIT
deriving DecidableEq, Repr

open RC

/-- Replacement strategies (`enum ReplacementStrategy`). -/
inductive ReplacementStrategy where
  | RS_FIFO
  | RS_LRU
  | RS_CLOCK
  | RS_LFU
  | RS_LRU_K
deriving DecidableEq, Repr

open ReplacementStrategy

/-- Largest value of a C `int`. -/
def INT_MAX : Int := 2147483647

/-- Smallest value of a C `int`. -/
def INT_MIN : Int := -2147483648

/-- The 32-bit two's-complement value of an arithmetic result: what `x++` and
`x--` leave in an `int`. -/
def wrapInt (x : Int) : Int := (x + 2147483648) % 4294967296 - 2147483648

/-- One page frame (`struct Frame`). -/
structure Frame where
  pageNum : Int
  pinCount : Int
  dirtyBit : Int
  data : Ptr
deriving DecidableEq, Repr

/-- The caller's page handle (`struct BM_PageHandle`). -/
structure BM_PageHandle where
  pageNum : Int
  data : Ptr
deriving DecidableEq, Repr

/-- The pool record (`struct BM_BufferPool`); `mgmtData` is the frame array. -/
structure BM_BufferPool where
  pageFile : Option String
  numPages : Int
  strategy : ReplacementStrategy
  mgmtData : List Frame
deriving DecidableEq, Repr

/-- The global bookkeeping record (`struct BufferPoolMgm_Info`, `bmi`).  `arr`
is only allocated for `RS_LRU`; for the other strategies it is never read. -/
structure BufferPoolMgm_Info where
  front : Int
  rear : Int
  frameCnt : Int
  capacity : Int
  numRead : Int
  numWrite : Int
  arr : List Int
deriving DecidableEq, Repr

/-! ## Page store (storage_mgr.h, not part of this translation unit) -/

/-- Modelled from the spec: the page file behind the storage manager
(`openPageFile`, `ensureCapacity`, `readBlock`, `writeBlock`, whose source is
not in the repository excerpt).  Section 6 of the specification gives each
call an `Ok` and a failure result without saying when it fails, so the file
carries one fault predicate per call; `blocks` is the content of the file,
block `k` at index `k`. -/
structure PageStore where
  blocks : List Buffer
  ensureFault : Int → Bool
  readFault : Int → Bool
  writeFault : Int → Bool

/-- Modelled from the spec: `ensureCapacity(minPages, handle) -> Ok | IoError`
"guarantees the backing file holds at least `minPages` fixed-size blocks,
extending with zeroed blocks if needed".  `none` is `IoError`. -/
def ensureCapacity (minPages : Int) (st : PageStore) : Option PageStore :=
  if st.ensureFault minPages then none
  else some { st with
    blocks := st.blocks ++ List.replicate (minPages.toNat - st.blocks.length) zeroPage }

/-- Modelled from the spec: `readBlock(pageNum, handle, outBuffer) -> Ok |
ReadFailed`.  `none` is `ReadFailed`; a block that is not in the file cannot
be read. -/
def readBlock (pageNum : Int) (st : PageStore) : Option Buffer :=
  if pageNum < 0 ∨ st.readFault pageNum then none
  else st.blocks[pageNum.toNat]?

/-- Modelled from the spec: `writeBlock(pageNum, handle, inBuffer) -> Ok |
WriteFailed`.  `none` is `WriteFailed`; a block that is not in the file cannot
be written. -/
def writeBlock (pageNum : Int) (buf : Buffer) (st : PageStore) : Option PageStore :=
  if pageNum < 0 ∨ st.writeFault pageNum ∨ st.blocks.length ≤ pageNum.toNat then none
  else some { st with blocks := st.blocks.set pageNum.toNat buf }

/-! ## Program state -/

/-- Everything the functions of buffer_mgr.c read or write. -/
structure World where
  bm : BM_BufferPool
  bmi : BufferPoolMgm_Info
  mem : Ptr → Buffer
  store : PageStore

/-- The frame array with entry `i` replaced (a write through `frames[i]`). -/
def World.setFrame (s : World) (i : Nat) (f : Frame) : World :=
  { s with bm := { s.bm with mgmtData := s.bm.mgmtData.set i f } }

/-- Array read `frames[i]` for a C `int` index; `none` when out of bounds. -/
def frameAt (frames : List Frame) (i : Int) : Option Frame :=
  if i < 0 then none else frames[i.toNat]?

/-! ## initBufferPool (buffer_mgr.c 18-71) -/

/-- The frames built by the allocation loop: frame `i` is empty and owns the
fresh zeroed buffer at address `i`. -/
def initFrames (numPages : Nat) : List Frame :=
  (List.range numPages).map
    (fun i => { pageNum := NO_PAGE, pinCount := 0, dirtyBit := 0, data := i })

/-- Function `initBufferPool`.  `mem` is the process memory before the call
and `store` the page file named by `pageFileName` (`none` when `fopen` fails).
The frame buffers are the addresses below `numPages`. -/
def initBufferPool (mem : Ptr → Buffer) (store : Option PageStore)
    (pageFileName : Option String) (numPages : Int) (strategy : ReplacementStrategy) :
    RC × Option World :=
  match pageFileName with
  | none => (RC_PARAMS_ERROR, none)
  | some name =>
    if numPages ≤ 0 then (RC_PARAMS_ERROR, none)
    else
      match store with
      | none => (RC_FILE_NOT_FOUND, none)
      | some st =>
        (RC_OK, some
          { bm := { pageFile := some name, numPages := numPages, strategy := strategy,
                    mgmtData := initFrames numPages.toNat }
            bmi := { front := 0, rear := -1, frameCnt := 0, capacity := numPages,
                     numRead := 0, numWrite := 0,
                     arr := if strategy = RS_LRU then List.replicate numPages.toNat (-1)
                            else [] }
            mem := fun q => if q < numPages.toNat then zeroPage else mem q
            store := st })

/-! ## Helpers (buffer_mgr.c 479-489, 541-550) -/

/-- Function `isFull`: `bmi->frameCnt == bmi->capacity`. -/
def isFull (s : World) : Bool := s.bmi.frameCnt == s.bmi.capacity

/-- Function `isEmpty`: `bmi->frameCnt == 0`. -/
def isEmpty (s : World) : Bool := s.bmi.frameCnt == 0

/-- Index of the first frame of `frames` whose page number is `pageNum`. -/
def searchFrames (pageNum : Int) : List Frame → Option Nat
  | [] => none
  | f :: fs =>
    if f.pageNum = pageNum then some 0
    else (searchFrames pageNum fs).map (· + 1)

/-- Function `searchPageFromBuffer`: scan `frames[0 .. capacity-1]` for the
first frame holding `pageNum`; `none` is `NULL`. -/
def searchPageFromBuffer (s : World) (pageNum : Int) : Option Nat :=
  searchFrames pageNum (s.bm.mgmtData.take s.bmi.capacity.toNat)

/-- The loop `for (i < capacity) if (frames[i]->pinCount == 0) cnt++` of both
`removePage...` functions. -/
def countUnpinned (s : World) : Nat :=
  (s.bm.mgmtData.take s.bmi.capacity.toNat).countP (fun f => f.pinCount == 0)

/-! ## forcePage (buffer_mgr.c 240-272) -/

/-- Function `forcePage`: look the handle's page number up, extend the file to
`page->pageNum + 1` blocks (result ignored) and write the frame's buffer to
block `frame->pageNum`.  No counter and no dirty bit is touched. -/
def forcePage (s : World) (page : BM_PageHandle) : RC × World :=
  match searchPageFromBuffer s page.pageNum with
  | none => (RC_PAGE_NOT_EXIST, s)
  | some i =>
    match s.bm.mgmtData[i]? with
    | none => (RC_PAGE_NOT_EXIST, s)
    | some frame =>
      let st1 := (ensureCapacity (page.pageNum + 1) s.store).getD s.store
      match writeBlock frame.pageNum (s.mem frame.data) st1 with
      | none => (RC_WRITE_PAGE_FAILED, { s with store := st1 })
      | some st2 => (RC_OK, { s with store := st2 })

/-! ## FIFO (buffer_mgr.c 274-330, 492-539) -/

/-- The loop `while (frame->pinCount > 0) { front = (front + 1) % capacity;
frame = frames[front]; }` of `removePageWithFIFO`, started with `frame =
frames[front]`.  The first argument bounds the number of advances; the result
is the final `front`, and `none` when the bound is used up or `frames[front]`
is out of bounds. -/
def skipPinned (frames : List Frame) (capacity : Int) : Nat → Int → Option Int
  | 0, front =>
    match frameAt frames front with
    | none => none
    | some frame => if frame.pinCount > 0 then none else some front
  | fuel + 1, front =>
    match frameAt frames front with
    | none => none
    | some frame =>
      if frame.pinCount > 0 then skipPinned frames capacity fuel ((front + 1).tmod capacity)
      else some front

/-- Function `removePageWithFIFO`: take the frame at `front` (after skipping
pinned frames) out of the queue.  `page` is the handle that was passed to
`pinPage`; it is what `forcePage` is called with. -/
def removePageWithFIFO (s : World) (page : BM_PageHandle) : Option (RC × World) :=
  if isEmpty s then some (RC_BUFFER_EMPTY, s)
  else if countUnpinned s = 0 then some (RC_NO_FREE_PIN_PAGE, s)
  else
    match skipPinned s.bm.mgmtData s.bmi.capacity s.bmi.capacity.toNat s.bmi.front with
    | none => none
    | some front =>
      match frameAt s.bm.mgmtData front with
      | none => none
      | some frame =>
        let rear := if front = 0 then s.bmi.capacity - 1 else front - 1
        let s1 : World := { s with bmi := { s.bmi with front := front, rear := rear } }
        let s2 : World :=
          if frame.pinCount = 0 ∧ frame.dirtyBit = 1 then
            let s1f := (forcePage s1 page).2
            { s1f with bmi := { s1f.bmi with numWrite := wrapInt (s1f.bmi.numWrite + 1) } }
          else s1
        let s3 : World :=
          { s2 with bmi := { s2.bmi with front := (s2.bmi.front + 1).tmod s2.bmi.capacity,
                                         frameCnt := s2.bmi.frameCnt - 1 } }
        some (RC_OK, s3.setFrame front.toNat
          { frame with pageNum := NO_PAGE, pinCount := 0, dirtyBit := 0 })

/-- Function `pinPageWithFIFO`.  The result is the return code, the handle
after the call and the state after the call. -/
def pinPageWithFIFO (s : World) (page : BM_PageHandle) (pageNum : Int) :
    Option (RC × BM_PageHandle × World) :=
  if pageNum < 0 then some (RC_PARAMS_ERROR, page, s)
  else
    match searchPageFromBuffer s pageNum with
    | some i =>
      match s.bm.mgmtData[i]? with
      | none => none
      | some frame =>
        some (RC_OK, { pageNum := pageNum, data := frame.data },
          s.setFrame i { frame with pinCount := wrapInt (frame.pinCount + 1) })
    | none =>
      let removed : Option (RC × World) :=
        if isFull s then removePageWithFIFO s page else some (RC_OK, s)
      match removed with
      | none => none
      | some (rc, s1) =>
        if rc ≠ RC_OK then some (RC_NO_FREE_PIN_PAGE, page, s1)
        else
          let rear := (s1.bmi.rear + 1).tmod s1.bmi.capacity
          let s2 : World := { s1 with bmi := { s1.bmi with rear := rear } }
          match frameAt s2.bm.mgmtData rear with
          | none => none
          | some frame =>
            match ensureCapacity (pageNum + 1) s2.store with
            | none => some (RC_READ_NON_EXISTING_PAGE, page, s2)
            | some st1 =>
              match readBlock pageNum st1 with
              | none => some (RC_READ_PAGE_FALIED, page, { s2 with store := st1 })
              | some content =>
                let s3 : World :=
                  { s2 with store := st1
                            mem := Function.update s2.mem frame.data content
                            bmi := { s2.bmi with numRead := wrapInt (s2.bmi.numRead + 1),
                                                 frameCnt := s2.bmi.frameCnt + 1 } }
                some (RC_OK, { pageNum := pageNum, data := frame.data },
                  s3.setFrame rear.toNat
                    { frame with pageNum := pageNum, pinCount := 1, dirtyBit := 0 })

/-! ## LRU (buffer_mgr.c 332-476) -/

/-- Index of the first entry of `arr` equal to `v`. -/
def firstIndexOf (v : Int) : List Int → Option Nat
  | [] => none
  | a :: as => if a = v then some 0 else (firstIndexOf v as).map (· + 1)

/-- The loop `for (i = from; i < capacity - 1; i++) arr[i] = arr[i + 1];`:
`count` iterations starting at index `i`. -/
def shiftLeft (arr : List Int) : Nat → Nat → List Int
  | _, 0 => arr
  | i, count + 1 => shiftLeft (arr.set i (arr.getD (i + 1) 0)) (i + 1) count

/-- Function `updateLRUOrder`: move the first occurrence of `pageNum` among
`arr[0 .. capacity-1]` to index `capacity - 1`, shifting the entries behind it
one place to the left.  Returns the return code and the new `arr`. -/
def updateLRUOrder (capacity : Int) (arr : List Int) (pageNum : Int) : RC × List Int :=
  match firstIndexOf pageNum (arr.take capacity.toNat) with
  | none => (RC_PAGE_NOT_EXIST, arr)
  | some index =>
    let updatePageNum := arr.getD index 0
    let arr1 := shiftLeft arr index ((capacity - 1).toNat - index)
    (RC_OK, arr1.set (capacity - 1).toNat updatePageNum)

/-- Function `removePageWithLRU`: empty the frame that holds `leastUsedPage`.
The result is the frame (`none` is `NULL`) and the state after the call. -/
def removePageWithLRU (s : World) (page : BM_PageHandle) (leastUsedPage : Int) :
    Option Nat × World :=
  if isEmpty s then (none, s)
  else if countUnpinned s = 0 then (none, s)
  else
    match searchPageFromBuffer s leastUsedPage with
    | none => (none, s)
    | some i =>
      match s.bm.mgmtData[i]? with
      | none => (none, s)
      | some frame =>
        let s1 : World :=
          if frame.pinCount = 0 ∧ frame.dirtyBit = 1 then
            let sf := (forcePage s page).2
            { sf with bmi := { sf.bmi with numWrite := wrapInt (sf.bmi.numWrite + 1) } }
          else s
        let s2 : World := { s1 with bmi := { s1.bmi with frameCnt := s1.bmi.frameCnt - 1 } }
        (some i, s2.setFrame i { frame with pageNum := NO_PAGE, pinCount := 0, dirtyBit := 0 })

/-- Function `pinPageWithLRU`.  The result is the return code, the handle
after the call and the state after the call; `none` when the call reads
through a `NULL` frame or indexes out of bounds. -/
def pinPageWithLRU (s : World) (page : BM_PageHandle) (pageNum : Int) :
    Option (RC × BM_PageHandle × World) :=
  if pageNum < 0 then some (RC_PARAMS_ERROR, page, s)
  else
    match searchPageFromBuffer s pageNum with
    | some i =>
      match s.bm.mgmtData[i]? with
      | none => none
      | some frame =>
        let s1 := s.setFrame i { frame with pinCount := wrapInt (frame.pinCount + 1) }
        some (RC_OK, { pageNum := pageNum, data := frame.data },
          { s1 with bmi := { s1.bmi with
              arr := (updateLRUOrder s1.bmi.capacity s1.bmi.arr pageNum).2 } })
    | none =>
      -- `chosen` is `(frame, frameIndex, state)`; the outer `none` is a return or a fault
      let chosen : Except (Option (RC × BM_PageHandle × World)) (Option Nat × Int × World) :=
        if isFull s then
          match s.bmi.arr[0]? with
          | none => .error none
          | some leastUsedPageNum =>
            let r := removePageWithLRU s page leastUsedPageNum
            .ok (r.1, -1, r.2)
        else
          match firstIndexOf (-1) (s.bmi.arr.take s.bm.numPages.toNat) with
          | none => .error (some (RC_PAGE_NOT_EXIST, page, s))
          | some frameIndex =>
            if frameIndex < s.bm.mgmtData.length then .ok (some frameIndex, frameIndex, s)
            else .error none
      match chosen with
      | .error r => r
      | .ok (frameOpt, frameIndex, s1) =>
        let fullFlag := isFull s
        match ensureCapacity (pageNum + 1) s1.store with
        | none => some (RC_READ_NON_EXISTING_PAGE, page, s1)
        | some st1 =>
          match frameOpt with
          | none => none
          | some fi =>
            match s1.bm.mgmtData[fi]? with
            | none => none
            | some frame =>
              match readBlock pageNum st1 with
              | none => some (RC_READ_PAGE_FALIED, page, { s1 with store := st1 })
              | some content =>
                let arr1 :=
                  if fullFlag then
                    (shiftLeft s1.bmi.arr 0 (s1.bmi.capacity - 1).toNat).set
                      (s1.bmi.capacity - 1).toNat pageNum
                  else s1.bmi.arr.set frameIndex.toNat pageNum
                let s2 : World :=
                  { s1 with store := st1
                            mem := Function.update s1.mem frame.data content
                            bmi := { s1.bmi with numRead := wrapInt (s1.bmi.numRead + 1),
                                                 frameCnt := s1.bmi.frameCnt + 1,
                                                 arr := arr1 } }
                some (RC_OK, { pageNum := pageNum, data := frame.data },
                  s2.setFrame fi { frame with pageNum := pageNum, pinCount := 1, dirtyBit := 0 })

/-! ## pinPage, unpinPage, markDirty, forceFlushPool (buffer_mgr.c 122-237) -/

/-- Function `pinPage`: parameter and initialisation checks, then dispatch on
the strategy. -/
def pinPage (s : World) (page : BM_PageHandle) (pageNum : Int) :
    Option (RC × BM_PageHandle × World) :=
  if pageNum < 0 then some (RC_PARAMS_ERROR, page, s)
  else if s.bm.pageFile = none then some (RC_BUFFER_NOT_INIT, page, s)
  else if s.bm.strategy = RS_FIFO then pinPageWithFIFO s page pageNum
  else if s.bm.strategy = RS_LRU then pinPageWithLRU s page pageNum
  else some (RC_NOT_SUPPORT_STRATEGY, page, s)

/-- Function `unpinPage`: decrement the pin count of the frame holding the
handle's page; under LRU on a full pool also move the page to the end of
`arr`; write the frame out through `forcePage` when it became unpinned and is
dirty. -/
def unpinPage (s : World) (page : BM_PageHandle) : RC × World :=
  match searchPageFromBuffer s page.pageNum with
  | none => (RC_PAGE_NOT_EXIST, s)
  | some i =>
    match s.bm.mgmtData[i]? with
    | none => (RC_PAGE_NOT_EXIST, s)
    | some frame0 =>
      let frame : Frame := { frame0 with pinCount := wrapInt (frame0.pinCount - 1) }
      let s1 := s.setFrame i frame
      let s2 : World :=
        if s1.bm.strategy = RS_LRU ∧ s1.bmi.frameCnt = s1.bmi.capacity then
          { s1 with bmi := { s1.bmi with
              arr := (updateLRUOrder s1.bmi.capacity s1.bmi.arr page.pageNum).2 } }
        else s1
      let s3 : World :=
        if frame.pinCount = 0 ∧ frame.dirtyBit = 1 then (forcePage s2 page).2 else s2
      (RC_OK, s3)

/-- Function `markDirty`: set the dirty bit of the frame holding the handle's
page and make the frame's `data` pointer the handle's. -/
def markDirty (s : World) (page : BM_PageHandle) : RC × World :=
  match searchPageFromBuffer s page.pageNum with
  | none => (RC_PAGE_NOT_EXIST, s)
  | some i =>
    match s.bm.mgmtData[i]? with
    | none => (RC_PAGE_NOT_EXIST, s)
    | some frame => (RC_OK, s.setFrame i { frame with dirtyBit := 1, data := page.data })

/-- Body of the loop of `forceFlushPool` for the frames from index `i` on:
`rest` is `frames[i ..]`. -/
def flushFrames (s : World) : Nat → List Frame → World
  | _, [] => s
  | i, frame :: rest =>
    if frame.pinCount = 0 ∧ frame.dirtyBit = 1 then
      let st1 := (ensureCapacity (frame.pageNum + 1) s.store).getD s.store
      let st2 := (writeBlock frame.pageNum (s.mem frame.data) st1).getD st1
      let s1 : World := { s with store := st2 }
      let s2 := s1.setFrame i { frame with dirtyBit := 0 }
      flushFrames { s2 with bmi := { s2.bmi with numWrite := wrapInt (s2.bmi.numWrite + 1) } }
        (i + 1) rest
    else flushFrames s (i + 1) rest

/-- Function `forceFlushPool`: write every unpinned dirty frame among
`frames[0 .. numPages-1]` to the page file, clear its dirty bit and count the
write. -/
def forceFlushPool (s : World) : RC × World :=
  if s.bm.pageFile = none then (RC_BUFFER_NOT_INIT, s)
  else (RC_OK, flushFrames s 0 (s.bm.mgmtData.take s.bm.numPages.toNat))

/-! ## Statistics interface (buffer_mgr.c 552-609) -/

/-- Function `getFrameContents`: the page number of each of the first
`numPages` frames. -/
def getFrameContents (s : World) : List Int :=
  (s.bm.mgmtData.take s.bm.numPages.toNat).map (fun f => f.pageNum)

/-- Function `getDirtyFlags`: the dirty bit of each of the first `numPages`
frames. -/
def getDirtyFlags (s : World) : List Int :=
  (s.bm.mgmtData.take s.bm.numPages.toNat).map (fun f => f.dirtyBit)

/-- Function `getFixCounts`: the pin count of each of the first `numPages`
frames. -/
def getFixCounts (s : World) : List Int :=
  (s.bm.mgmtData.take s.bm.numPages.toNat).map (fun f => f.pinCount)

/-! ## Pool shape, residency, reads -/

/-- Shape of a pool that `initBufferPool` built: as many frames (and, under
LRU, recency slots) as `capacity`, which is positive and equal to `numPages`,
an attached page file, and queue indices inside the frame array (`rear` is
`-1` before the first load). -/
structure Shaped (s : World) : Prop where
  attached : s.bm.pageFile ≠ none
  capacity_pos : 0 < s.bmi.capacity
  numPages_eq : s.bm.numPages = s.bmi.capacity
  frames_length : s.bm.mgmtData.length = s.bmi.capacity.toNat
  arr_length : s.bm.strategy = RS_LRU → s.bmi.arr.length = s.bmi.capacity.toNat
  front_range : 0 ≤ s.bmi.front ∧ s.bmi.front < s.bmi.capacity
  rear_range : -1 ≤ s.bmi.rear ∧ s.bmi.rear < s.bmi.capacity

/-- The two worlds belong to the same pool over the same device: same page
file name, size, strategy and capacity, and the same fault behaviour. -/
structure SameSetup (s s1 : World) : Prop where
  pageFile : s1.bm.pageFile = s.bm.pageFile
  numPages : s1.bm.numPages = s.bm.numPages
  strategy : s1.bm.strategy = s.bm.strategy
  capacity : s1.bmi.capacity = s.bmi.capacity
  ensureFault : s1.store.ensureFault = s.store.ensureFault
  readFault : s1.store.readFault = s.store.readFault

/-- The page number held by each frame. -/
def pageNums (s : World) : List Int := s.bm.mgmtData.map (fun f => f.pageNum)

/-- Page `p` is cached: the residency lookup `searchPageFromBuffer` finds a
frame for it. -/
def resident (s : World) (p : Int) : Bool := (searchPageFromBuffer s p).isSome

/-- The read of page `pageNum` that a load performs goes through: neither
`ensureCapacity(pageNum + 1)` nor `readBlock(pageNum)` reports a failure. -/
def ReadSucceeds (st : PageStore) (pageNum : Int) : Prop :=
  st.ensureFault (pageNum + 1) = false ∧ st.readFault pageNum = false

/-- Whether a read succeeds can be computed from the fault predicates. -/
instance (st : PageStore) (pageNum : Int) : Decidable (ReadSucceeds st pageNum) := by
  unfold ReadSucceeds
  infer_instance

/-! ## Call sequences -/

/-- One call of the access interface, with its arguments. -/
inductive Call where
  | pin (page : BM_PageHandle) (pageNum : Int)
  | unpin (page : BM_PageHandle)
  | dirty (page : BM_PageHandle)
  | force (page : BM_PageHandle)
  | flush
deriving DecidableEq, Repr

/-- State after one call, whatever it returned; `none` when the call has no
result. -/
def Call.run (s : World) : Call → Option World
  | .pin page pageNum => (pinPage s page pageNum).map (fun r => r.2.2)
  | .unpin page => some (unpinPage s page).2
  | .dirty page => some (markDirty s page).2
  | .force page => some (forcePage s page).2
  | .flush => some (forceFlushPool s).2

/-- State after a sequence of calls. -/
def runCalls : List Call → World → Option World
  | [], s => some s
  | c :: cs, s => (c.run s).bind (runCalls cs)

/-- The states a pool can be in: those that some successful `initBufferPool`
followed by some sequence of calls produces. -/
def Reachable (s : World) : Prop :=
  ∃ (mem : Ptr → Buffer) (st : PageStore) (name : String) (n : Int)
    (strat : ReplacementStrategy) (s0 : World) (calls : List Call),
    initBufferPool mem (some st) (some name) n strat = (RC_OK, some s0) ∧
    runCalls calls s0 = some s

/-- The `unpinPage` call with handle `page` releases a pin that is held: the
frame the residency lookup finds, if any, has a positive pin count. -/
def heldPin (s : World) (page : BM_PageHandle) : Bool :=
  match searchPageFromBuffer s page.pageNum with
  | none => true
  | some i =>
    match s.bm.mgmtData[i]? with
    | none => true
    | some frame => decide (0 < frame.pinCount)

/-- Every `unpinPage` of `calls`, run from `s`, releases a pin that is held. -/
def balanced : World → List Call → Bool
  | _, [] => true
  | s, c :: cs =>
    (match c with
      | .unpin page => heldPin s page
      | _ => true) &&
    (match c.run s with
      | none => true
      | some s1 => balanced s1 cs)

/-- Position of the last `pinPage` of page `p` in a call sequence whose first
call has position `k`. -/
def lastPinFrom (p : Int) : Nat → List Call → Option Nat
  | _, [] => none
  | k, c :: cs =>
    match lastPinFrom p (k + 1) cs with
    | some j => some j
    | none =>
      match c with
      | .pin _ q => if q = p then some k else none
      | _ => none

/-! ## Rounds of pin and unpin, with their load history -/

/-- One round of the FIFO-order scenario: `pinPage` of `pageNum`, then
`unpinPage` on the handle that `pinPage` handed back.  The result is the state
after the round. -/
def pinUnpin (s : World) (page : BM_PageHandle) (pageNum : Int) : Option World :=
  match pinPage s page pageNum with
  | none => none
  | some (_, page1, s1) => some (unpinPage s1 page1).2

/-- Load history after a round that pinned `pageNum` and led from `s` to `s1`:
`log` lists the resident pages, earliest load first.  A hit loads nothing; a
miss drops the pages that are no longer resident and appends the page that
was loaded. -/
def loadLog (s s1 : World) (pageNum : Int) (log : List Int) : List Int :=
  if resident s pageNum then log
  else log.filter (fun q => resident s1 q) ++ [pageNum]

/-- Run the rounds `rounds` (handle passed to `pinPage`, page number) from `s`,
keeping the load history.  The result is the final state and history. -/
def pinUnpinAll : World → List Int → List (BM_PageHandle × Int) → Option (World × List Int)
  | s, log, [] => some (s, log)
  | s, log, r :: rest =>
    match pinUnpin s r.1 r.2 with
    | none => none
    | some s1 => pinUnpinAll s1 (loadLog s s1 r.2 log) rest

/-- State of a FIFO pool between the rounds of the FIFO-order scenario, with
its load history `log`: no frame is pinned or dirty, `frameCnt` is the number
of loaded pages, and the frame array holds the pages of `log` in queue order:
while the pool fills up, `log` followed by empty frames; once it is full, the
frames from `front` on hold the beginning of `log` and the frames before
`front` the rest. -/
structure FifoOrdered (st : PageStore) (s : World) (log : List Int) : Prop where
  shaped : Shaped s
  fifo : s.bm.strategy = RS_FIFO
  ensureFault : s.store.ensureFault = st.ensureFault
  readFault : s.store.readFault = st.readFault
  clean : ∀ f ∈ s.bm.mgmtData, f.pinCount = 0 ∧ f.dirtyBit = 0
  count : s.bmi.frameCnt = log.length
  nonneg : ∀ q ∈ log, 0 ≤ q
  nodup : log.Nodup
  layout :
    (s.bmi.front = 0 ∧ s.bmi.rear = log.length - 1 ∧ (log.length : Int) < s.bmi.capacity ∧
      pageNums s = log ++ List.replicate (s.bmi.capacity.toNat - log.length) NO_PAGE) ∨
    (∃ A B : List Int, pageNums s = A ++ B ∧ log = B ++ A ∧ B ≠ [] ∧
      s.bmi.front = A.length ∧
      s.bmi.rear = (if s.bmi.front = 0 then s.bmi.capacity - 1 else s.bmi.front - 1))

/-! ## Example pools -/

/-- A block filled with the byte `b`. -/
def blockOf (b : Nat) : Buffer := List.replicate PAGE_SIZE b

/-- A page file of five blocks, block `k` filled with `10 + k`, on a device
that never fails. -/
def exStore : PageStore :=
  { blocks := [blockOf 10, blockOf 11, blockOf 12, blockOf 13, blockOf 14]
    ensureFault := fun _ => false
    readFault := fun _ => false
    writeFault := fun _ => false }

/-- The page file of `exStore` on a device that cannot read block 2. -/
def flakyStore : PageStore :=
  { blocks := [blockOf 10, blockOf 11, blockOf 12, blockOf 13, blockOf 14]
    ensureFault := fun _ => false
    readFault := fun p => p == 2
    writeFault := fun _ => false }

/-- Process memory in which the caller's buffer at address `q` is filled with
`100 + q`. -/
def exMem : Ptr → Buffer := fun q => blockOf (100 + q)

/-- An uninitialised pool: no page file attached and no frames. -/
def noPool : World :=
  { bm := { pageFile := none, numPages := 0, strategy := RS_FIFO, mgmtData := [] }
    bmi := { front := 0, rear := -1, frameCnt := 0, capacity := 0, numRead := 0, numWrite := 0,
             arr := [] }
    mem := exMem
    store := exStore }

/-- A handle that has not been used yet. -/
def freshHandle : BM_PageHandle := { pageNum := 0, data := 0 }

/-- The handle `pinPage` returns for page `p` held in frame buffer `d`. -/
def handleOf (p : Int) (d : Ptr) : BM_PageHandle := { pageNum := p, data := d }

/-- The pool `initBufferPool` builds over `exStore` with `n` frames, after the
calls `calls`. -/
def runFromInit (n : Int) (strat : ReplacementStrategy) (calls : List Call) : Option World :=
  (initBufferPool exMem (some exStore) (some "pages.bin") n strat).2.bind (runCalls calls)

/-- The pool `initBufferPool` builds over `exStore` with `n` frames. -/
def exInit (n : Int) (strat : ReplacementStrategy) : World :=
  (initBufferPool exMem (some exStore) (some "pages.bin") n strat).2.getD noPool

/-- The state `runFromInit` ends in. -/
def exAfter (n : Int) (strat : ReplacementStrategy) (calls : List Call) : World :=
  (runFromInit n strat calls).getD noPool

/-- The FIFO pool of one frame after `pinPage` of page 1: page 1 is resident
and pinned once. -/
def exFifoPinned : World := exAfter 1 RS_FIFO [.pin freshHandle 1]

/-- Three pages pinned in the order 1, 2, 3 and released in the order 3, 1, 2. -/
def lruCalls : List Call :=
  [.pin freshHandle 1, .pin freshHandle 2, .pin freshHandle 3,
    .unpin (handleOf 3 2), .unpin (handleOf 1 0), .unpin (handleOf 2 1)]

/-- The scenario of the LRU-order property: pin and unpin pages 1, 2, 3, then
pin and unpin page 2 again. -/
def lruWitnessCalls : List Call :=
  [.pin freshHandle 1, .unpin (handleOf 1 0), .pin (handleOf 1 0) 2, .unpin (handleOf 2 1),
    .pin (handleOf 2 1) 3, .unpin (handleOf 3 2), .pin (handleOf 3 2) 2, .unpin (handleOf 2 1)]

/-- The rounds of the FIFO-order scenario: pin and unpin pages 1, 2, 3. -/
def fifoRounds : List (BM_PageHandle × Int) :=
  [(freshHandle, 1), (handleOf 1 0, 2), (handleOf 2 1, 3)]

/-- The page file of `exStore` on a device that cannot write. -/
def roStore : PageStore :=
  { blocks := [blockOf 10, blockOf 11, blockOf 12, blockOf 13, blockOf 14]
    ensureFault := fun _ => false
    readFault := fun _ => false
    writeFault := fun _ => true }

/-- The frame is one that `forceFlushPool` writes out: unpinned and dirty
(`pinCount == 0 && dirtyBit == 1`). -/
def needsFlush (f : Frame) : Bool := decide (f.pinCount = 0 ∧ f.dirtyBit = 1)

/-- The frame as `forceFlushPool` leaves it: dirty bit cleared when it was
written out, untouched otherwise. -/
def cleared (f : Frame) : Frame := if needsFlush f then { f with dirtyBit := 0 } else f

/-- The write of page `pageNum` that a write-back performs goes through: the
page number is a block number and neither `ensureCapacity(pageNum + 1)` nor
`writeBlock(pageNum)` reports a failure. -/
def WriteSucceeds (st : PageStore) (pageNum : Int) : Prop :=
  0 ≤ pageNum ∧ st.ensureFault (pageNum + 1) = false ∧ st.writeFault pageNum = false

/-- Whether a write succeeds can be computed from the fault predicates. -/
instance (st : PageStore) (pageNum : Int) : Decidable (WriteSucceeds st pageNum) := by
  unfold WriteSucceeds
  infer_instance

/-- A FIFO pool of two frames: frame 0 holds page 1, unpinned and marked dirty
with the caller's buffer at address 50; frame 1 holds page 2, still pinned and
marked dirty with the buffer at address 51. -/
def exFlushPool : World :=
  exAfter 2 RS_FIFO [.pin freshHandle 1, .unpin (handleOf 1 0), .dirty (handleOf 1 50),
    .pin (handleOf 1 50) 2, .dirty (handleOf 2 51)]

/-- The frame array `mid` is `fs` with at most one frame reset to the empty
frame (what `removePageWithFIFO` and `removePageWithLRU` do to a victim). -/
def Evicted (fs mid : List Frame) : Prop :=
  mid = fs ∨
  ∃ (i : Nat) (f : Frame), fs[i]? = some f ∧
    mid = fs.set i { f with pageNum := NO_PAGE, pinCount := 0, dirtyBit := 0 }

/-- The frame array `fs1` is `mid` after the second half of a `pinPage` of
page `p`: nothing (an error return), one more pin on a frame that holds `p`
(a hit), or `p` loaded with pin count 1 and dirty bit 0 into one frame while
no frame of `mid` held `p` (a miss). -/
def Admitted (p : Int) (mid fs1 : List Frame) : Prop :=
  fs1 = mid ∨
  (∃ (i : Nat) (f : Frame), 0 ≤ p ∧ mid[i]? = some f ∧ f.pageNum = p ∧
    fs1 = mid.set i { f with pinCount := wrapInt (f.pinCount + 1) }) ∨
  (∃ (k : Nat) (f : Frame), 0 ≤ p ∧ (∀ g ∈ mid, g.pageNum ≠ p) ∧ mid[k]? = some f ∧
    fs1 = mid.set k { f with pageNum := p, pinCount := 1, dirtyBit := 0 })

/-- The state `s2` is the full pool `s` after a victim was removed: same pool
and device, one frame reset to the empty frame, `frameCnt` one less. -/
structure Removed (s s2 : World) : Prop where
  setup : SameSetup s s2
  frames : ∃ (i : Nat) (f : Frame), s.bm.mgmtData[i]? = some f ∧
    s2.bm.mgmtData = s.bm.mgmtData.set i
      { f with pageNum := NO_PAGE, pinCount := 0, dirtyBit := 0 }
  full : s.bmi.frameCnt = s.bmi.capacity
  nonempty : s.bmi.frameCnt ≠ 0
  count : s2.bmi.frameCnt = s.bmi.frameCnt - 1

/-- What a `pinPage` of page `p` that led from `s` to `s1` did: pool and
device are the same, the frame array lost at most one page and was then
`Admitted`, and `frameCnt` stayed, grew by one on a pool that was not full, or
shrank by one on a full pool. -/
structure PinStep (p : Int) (s s1 : World) : Prop where
  setup : SameSetup s s1
  frames : ∃ mid, Evicted s.bm.mgmtData mid ∧ Admitted p mid s1.bm.mgmtData
  count : s1.bmi.frameCnt = s.bmi.frameCnt ∨
    (s.bmi.frameCnt ≠ s.bmi.capacity ∧ s1.bmi.frameCnt = s.bmi.frameCnt + 1) ∨
    (s.bmi.frameCnt = s.bmi.capacity ∧ s.bmi.frameCnt ≠ 0 ∧
      s1.bmi.frameCnt = s.bmi.frameCnt - 1)

/-- What a call other than `pinPage` that led from `s` to `s1` keeps: the pool
parameters, the page number of every frame, the queue indices, `frameCnt` and
the fault behaviour of the device. -/
structure Kept (s s1 : World) : Prop where
  pageFile : s1.bm.pageFile = s.bm.pageFile
  numPages : s1.bm.numPages = s.bm.numPages
  strategy : s1.bm.strategy = s.bm.strategy
  pageNums : pageNums s1 = pageNums s
  front : s1.bmi.front = s.bmi.front
  rear : s1.bmi.rear = s.bmi.rear
  frameCnt : s1.bmi.frameCnt = s.bmi.frameCnt
  capacity : s1.bmi.capacity = s.bmi.capacity
  ensureFault : s1.store.ensureFault = s.store.ensureFault
  readFault : s1.store.readFault = s.store.readFault
  writeFault : s1.store.writeFault = s.store.writeFault

/-- The pool has as many frames as its capacity says. -/
def Sized (s : World) : Prop := s.bm.mgmtData.length = s.bmi.capacity.toNat

/-- No page other than `NO_PAGE` occurs at two positions of `l`. -/
def NoDupPages (l : List Int) : Prop :=
  ∀ (i j : Nat) (v : Int), l[i]? = some v → l[j]? = some v → v ≠ NO_PAGE → i = j

/-- Every empty frame (resident page `NO_PAGE`) of `fs` has pin count 0 and a
clear dirty bit. -/
def EmptyClean (fs : List Frame) : Prop :=
  ∀ f ∈ fs, f.pageNum = NO_PAGE → f.pinCount = 0 ∧ f.dirtyBit = 0

/-- The page number of a `pinPage` call and the handle page number of an
`unpinPage`, `markDirty` or `forcePage` call is not negative. -/
def Call.nonneg : Call → Bool
  | .pin _ pageNum => decide (0 ≤ pageNum)
  | .unpin page => decide (0 ≤ page.pageNum)
  | .dirty page => decide (0 ≤ page.pageNum)
  | .force page => decide (0 ≤ page.pageNum)
  | .flush => true

/-- Load history after the call `c` led from `s` to `s1`: a `pinPage` that
missed drops the pages that are no longer resident and appends the page it
loaded; every other call leaves the history alone. -/
def callLog (s s1 : World) (log : List Int) : Call → List Int
  | .pin _ pageNum =>
    if resident s pageNum then log
    else
      let kept := log.filter (fun q => resident s1 q)
      if resident s1 pageNum then kept ++ [pageNum] else kept
  | _ => log

/-- State and load history after a sequence of calls. -/
def runCallsLog : List Call → World → List Int → Option (World × List Int)
  | [], s, log => some (s, log)
  | c :: cs, s, log =>
    match c.run s with
    | none => none
    | some s1 => runCallsLog cs s1 (callLog s s1 log c)

/-- Page 0 is pinned and stays pinned while pages 1 and 2 are pinned and
released. -/
def fifoPinnedCalls : List Call :=
  [.pin freshHandle 0, .pin (handleOf 0 0) 1, .unpin (handleOf 1 1), .pin (handleOf 1 1) 2,
    .unpin (handleOf 2 2)]

/-- After `fifoPinnedCalls`, `pinPage 3` has to skip the frame of the pinned
page 0; then pages 0 and 3 are released. -/
def fifoSkipCalls : List Call :=
  fifoPinnedCalls ++ [.pin (handleOf 2 2) 3, .unpin (handleOf 0 0), .unpin (handleOf 3 1)]

/-- The read that the call performs, if it is a `pinPage` of a page number
`>= 0`, succeeds on the device `st`. -/
def Call.readsSucceed (st : PageStore) : Call → Bool
  | .pin _ pageNum => decide (pageNum < 0 ∨ ReadSucceeds st pageNum)
  | _ => true

/-- State of a FIFO pool over the device `st` all of whose loads succeeded:
while the pool fills up, the loaded pages `L` sit in the first frames, the
other frames are empty, and `rear` is the index of the last loaded frame;
once `frameCnt` has reached the capacity no frame is empty. -/
structure FifoFill (st : PageStore) (s : World) : Prop where
  attached : s.bm.pageFile ≠ none
  capacity_pos : 0 < s.bmi.capacity
  sized : Sized s
  fifo : s.bm.strategy = RS_FIFO
  ensureFault : s.store.ensureFault = st.ensureFault
  readFault : s.store.readFault = st.readFault
  layout :
    (∃ L : List Int, (∀ q ∈ L, q ≠ NO_PAGE) ∧ s.bmi.frameCnt = L.length ∧
      (L.length : Int) < s.bmi.capacity ∧ s.bmi.rear = L.length - 1 ∧
      pageNums s = L ++ List.replicate (s.bmi.capacity.toNat - L.length) NO_PAGE) ∨
    (s.bmi.frameCnt = s.bmi.capacity ∧ ∀ q ∈ pageNums s, q ≠ NO_PAGE)

/-- Pages 1 and 2 are loaded into a FIFO pool; page 1 is marked dirty,
released and flushed, page 2 stays pinned. -/
def fifoAdmitCalls : List Call :=
  [.pin freshHandle 1, .pin (handleOf 1 0) 2, .dirty (handleOf 1 0), .unpin (handleOf 1 0),
    .flush]

/-- The recency array after an access to `p` as the specification words it:
the first occurrence of `p` is removed and `p` is placed at the end. -/
def movedToEnd (p : Int) (arr : List Int) : List Int := arr.erase p ++ [p]

/-- Every pin count of `fs` lies between 0 and `b`. -/
def PinsWithin (b : Int) (fs : List Frame) : Prop :=
  ∀ f ∈ fs, 0 ≤ f.pinCount ∧ f.pinCount ≤ b

/-- Recency order after an access to page `p` that led to the state `s1`: the
pages of `log` other than `p` that are still resident, in their order,
followed by `p`. -/
def touch (s1 : World) (p : Int) (log : List Int) : List Int :=
  log.filter (fun q => decide (q ≠ p) && resident s1 q) ++ [p]

/-- State after a sequence of calls together with the recency order of the
resident pages, least recently accessed first.  An access is a `pinPage` that
returns `RC_OK`, or an `unpinPage` that returns `RC_OK` on a full pool; no
other call is an access. -/
def runCallsRecency : List Call → World → List Int → Option (World × List Int)
  | [], s, log => some (s, log)
  | .pin page pageNum :: cs, s, log =>
    match pinPage s page pageNum with
    | none => none
    | some (rc, _, s1) =>
      runCallsRecency cs s1 (if rc = RC_OK then touch s1 pageNum log else log)
  | .unpin page :: cs, s, log =>
    runCallsRecency cs (unpinPage s page).2
      (if (unpinPage s page).1 = RC_OK ∧ isFull s = true
        then touch (unpinPage s page).2 page.pageNum log else log)
  | .dirty page :: cs, s, log => runCallsRecency cs (markDirty s page).2 log
  | .force page :: cs, s, log => runCallsRecency cs (forcePage s page).2 log
  | .flush :: cs, s, log => runCallsRecency cs (forceFlushPool s).2 log

/-- The pool is filled by loads: every `pinPage` of `calls`, run from `s`, that
names a resident page is made on a full pool. -/
def hitsOnlyWhenFull : World → List Call → Bool
  | _, [] => true
  | s, c :: cs =>
    (match c with
      | .pin _ pageNum => decide (pageNum < 0) || !(resident s pageNum) || isFull s
      | _ => true) &&
    (match c.run s with
      | none => true
      | some s1 => hitsOnlyWhenFull s1 cs)

/-- State of an LRU pool over the device `st` that was filled by loads, all of
which succeeded, with the recency order `log` of its pages: while the pool
fills up, frames and recency array both hold `log` followed by empty slots;
once it is full, the recency array is `log` and the frames hold the pages of
`log` in some order. -/
structure LruSync (st : PageStore) (s : World) (log : List Int) : Prop where
  attached : s.bm.pageFile ≠ none
  capacity_pos : 0 < s.bmi.capacity
  numPages_eq : s.bm.numPages = s.bmi.capacity
  sized : Sized s
  lru : s.bm.strategy = RS_LRU
  ensureFault : s.store.ensureFault = st.ensureFault
  readFault : s.store.readFault = st.readFault
  nonneg : ∀ q ∈ log, 0 ≤ q
  nodup : log.Nodup
  layout :
    (s.bmi.frameCnt = log.length ∧ (log.length : Int) < s.bmi.capacity ∧
      pageNums s = log ++ List.replicate (s.bmi.capacity.toNat - log.length) NO_PAGE ∧
      s.bmi.arr = log ++ List.replicate (s.bmi.capacity.toNat - log.length) (-1)) ∨
    (s.bmi.frameCnt = s.bmi.capacity ∧ s.bmi.arr = log ∧ (pageNums s).Perm log)

/-! # Lemmas -/

/-! ## Lists and integers -/

theorem getElem?_of_take {α : Type} {l : List α} {n i : Nat} {a : α}
    (h : (l.take n)[i]? = some a) : l[i]? = some a := by
  rw [List.getElem?_take] at h
  split at h
  · exact h
  · cases h

theorem getElem?_lt {α : Type} {l : List α} {i : Nat} {a : α} (h : l[i]? = some a) :
    i < l.length := by
  rcases Nat.lt_or_ge i l.length with h1 | h1
  · exact h1
  · rw [List.getElem?_eq_none h1] at h; cases h

theorem set_getElem?_self {α : Type} {l : List α} {i : Nat} {a : α} (h : l[i]? = some a) :
    l.set i a = l := by
  induction l generalizing i with
  | nil => rfl
  | cons b l ih =>
    cases i with
    | zero => simp at h; simp [h]
    | succ i => simp at h; simp [ih h]

theorem set_append_cons {α : Type} (A B : List α) (b p : α) :
    (A ++ b :: B).set A.length p = A ++ p :: B := by
  induction A with
  | nil => rfl
  | cons a A ih => simp [ih]

theorem filter_keep_all {l : List Int} {r : Int → Bool} (h : ∀ q ∈ l, r q = true) :
    l.filter r = l :=
  List.filter_eq_self.2 h

theorem wrapInt_of_range {x : Int} (h0 : INT_MIN ≤ x) (h1 : x ≤ INT_MAX) : wrapInt x = x := by
  unfold wrapInt
  unfold INT_MIN at h0
  unfold INT_MAX at h1
  omega

@[simp] theorem wrapInt_zero : wrapInt 0 = 0 := rfl

theorem wrapInt_range (x : Int) : INT_MIN ≤ wrapInt x ∧ wrapInt x ≤ INT_MAX := by
  unfold wrapInt INT_MIN INT_MAX
  omega

theorem tmod_range {a n : Int} (ha : 0 ≤ a) (hn : 0 < n) :
    0 ≤ a.tmod n ∧ a.tmod n < n := by
  rw [Int.tmod_eq_emod ha (le_of_lt hn)]
  exact ⟨Int.emod_nonneg _ (by omega), Int.emod_lt_of_pos _ hn⟩

theorem tmod_small {a n : Int} (h0 : 0 ≤ a) (hlt : a < n) : a.tmod n = a := by
  rw [Int.tmod_eq_emod h0 (by omega), Int.emod_eq_of_lt h0 hlt]

theorem tmod_succ_pred {front capacity : Int} (hf : 0 ≤ front) (hlt : front < capacity) :
    ((if front = 0 then capacity - 1 else front - 1) + 1).tmod capacity = front := by
  split
  · rename_i h0
    rw [h0, Int.sub_add_cancel, Int.tmod_self]
  · rw [Int.sub_add_cancel, Int.tmod_eq_emod hf (by omega), Int.emod_eq_of_lt hf hlt]

theorem firstIndexOf_some {v : Int} {l : List Int} {i : Nat}
    (h : firstIndexOf v l = some i) : l[i]? = some v := by
  induction l generalizing i with
  | nil => simp [firstIndexOf] at h
  | cons a l ih =>
    unfold firstIndexOf at h
    split at h
    · cases h; simp; assumption
    · cases hs : firstIndexOf v l with
      | none => simp [hs] at h
      | some j =>
        simp [hs] at h
        subst h
        simpa using ih hs

theorem firstIndexOf_of_mem {v : Int} {l : List Int} (h : v ∈ l) :
    ∃ i, firstIndexOf v l = some i := by
  induction l with
  | nil => cases h
  | cons a l ih =>
    unfold firstIndexOf
    by_cases ha : a = v
    · exact ⟨0, by simp [ha]⟩
    · have hm : v ∈ l := by
        rcases List.mem_cons.1 h with h1 | h1
        · exact absurd h1.symm ha
        · exact h1
      obtain ⟨i, hi⟩ := ih hm
      exact ⟨i + 1, by simp [ha, hi]⟩

theorem firstIndexOf_none {v : Int} {l : List Int} : firstIndexOf v l = none ↔ v ∉ l := by
  induction l with
  | nil => simp [firstIndexOf]
  | cons a l ih =>
    unfold firstIndexOf
    by_cases ha : a = v
    · simp [ha]
    · simp [ha, ih, Ne.symm ha]

theorem firstIndexOf_append_cons {v : Int} {A B : List Int} (h : v ∉ A) :
    firstIndexOf v (A ++ v :: B) = some A.length := by
  induction A with
  | nil => simp [firstIndexOf]
  | cons a A ih =>
    have ha : a ≠ v := fun e => h (by simp [e])
    have hA : v ∉ A := fun e => h (by simp [e])
    simp [firstIndexOf, ha, ih hA]

theorem firstIndexOf_set_new {v : Int} {l : List Int} {k : Nat} (h : v ∉ l) (hk : k < l.length) :
    firstIndexOf v (l.set k v) = some k := by
  rw [List.set_eq_take_append_cons_drop, if_pos hk]
  have hA : v ∉ l.take k := fun e => h (List.mem_of_mem_take e)
  have := firstIndexOf_append_cons (B := l.drop (k + 1)) hA
  rw [List.length_take, Nat.min_eq_left (le_of_lt hk)] at this
  exact this

theorem shiftLeft_length (count : Nat) : ∀ (arr : List Int) (i : Nat),
    (shiftLeft arr i count).length = arr.length := by
  induction count with
  | zero => intro arr i; rfl
  | succ c ih => intro arr i; simp [shiftLeft, ih]

theorem shiftLeft_getElem? (count : Nat) : ∀ (arr : List Int) (i : Nat),
    i + count < arr.length → ∀ j : Nat,
      (shiftLeft arr i count)[j]? = if i ≤ j ∧ j < i + count then arr[j + 1]? else arr[j]? := by
  induction count with
  | zero =>
    intro arr i _ j
    have : ¬ (i ≤ j ∧ j < i + 0) := by omega
    rw [if_neg this]
    rfl
  | succ c ih =>
    intro arr i h j
    have hlen : i + 1 + c < (arr.set i (arr.getD (i + 1) 0)).length := by
      rw [List.length_set]; omega
    simp only [shiftLeft]
    rw [ih _ (i + 1) hlen j]
    by_cases h1 : i + 1 ≤ j ∧ j < i + 1 + c
    · have h2 : i ≤ j ∧ j < i + (c + 1) := by omega
      rw [if_pos h1, if_pos h2, List.getElem?_set_ne (by omega)]
    · rw [if_neg h1]
      by_cases h3 : j = i
      · subst h3
        have h2 : j ≤ j ∧ j < j + (c + 1) := by omega
        rw [if_pos h2, List.getElem?_set_self (by omega)]
        have hj1 : j + 1 < arr.length := by omega
        rw [List.getD_eq_getElem?_getD, List.getElem?_eq_getElem hj1]
        rfl
      · have h2 : ¬ (i ≤ j ∧ j < i + (c + 1)) := by omega
        rw [if_neg h2, List.getElem?_set_ne (by omega)]

theorem shiftLeft_all_set {arr : List Int} {k : Nat} (p : Int) (h : arr.length = k + 1) :
    (shiftLeft arr 0 k).set k p = arr.tail ++ [p] := by
  apply List.ext_getElem?
  intro j
  have hl : (shiftLeft arr 0 k).length = k + 1 := by rw [shiftLeft_length, h]
  have ht : arr.tail.length = k := by simp [h]
  by_cases hj : j = k
  · subst hj
    rw [List.getElem?_set_self (by omega), List.getElem?_append_right (by omega)]
    simp [ht]
  · rw [List.getElem?_set_ne (fun h => hj h.symm), shiftLeft_getElem? k arr 0 (by omega) j]
    by_cases hlt : j < k
    · have : 0 ≤ j ∧ j < 0 + k := by omega
      rw [if_pos this, List.getElem?_append_left (by omega), List.getElem?_tail]
    · have : ¬ (0 ≤ j ∧ j < 0 + k) := by omega
      rw [if_neg this, List.getElem?_eq_none (by omega),
        List.getElem?_eq_none (by simp [ht]; omega)]

/-! ## Residency lookup and frame scans -/

theorem searchFrames_some {p : Int} {l : List Frame} {i : Nat}
    (h : searchFrames p l = some i) : ∃ f, l[i]? = some f ∧ f.pageNum = p := by
  induction l generalizing i with
  | nil => simp [searchFrames] at h
  | cons a l ih =>
    unfold searchFrames at h
    split at h
    · cases h; exact ⟨a, by simp, by assumption⟩
    · cases hs : searchFrames p l with
      | none => simp [hs] at h
      | some j =>
        simp [hs] at h
        subst h
        obtain ⟨f, hf, hp⟩ := ih hs
        exact ⟨f, by simpa using hf, hp⟩

theorem searchFrames_none {p : Int} {l : List Frame} :
    searchFrames p l = none ↔ ∀ f ∈ l, f.pageNum ≠ p := by
  induction l with
  | nil => simp [searchFrames]
  | cons a l ih =>
    unfold searchFrames
    by_cases ha : a.pageNum = p
    · simp [ha]
    · simp [ha, ih]

theorem searchFrames_eq_firstIndexOf (p : Int) (l : List Frame) :
    searchFrames p l = firstIndexOf p (l.map (fun f => f.pageNum)) := by
  induction l with
  | nil => rfl
  | cons a l ih => simp [searchFrames, firstIndexOf, ih]

theorem searchPage_some {s : World} {p : Int} {i : Nat}
    (h : searchPageFromBuffer s p = some i) :
    ∃ f, s.bm.mgmtData[i]? = some f ∧ f.pageNum = p := by
  obtain ⟨f, hf, hp⟩ := searchFrames_some h
  exact ⟨f, getElem?_of_take hf, hp⟩

theorem searchPage_none_all {s : World} {p : Int}
    (hlen : s.bm.mgmtData.length = s.bmi.capacity.toNat)
    (h : searchPageFromBuffer s p = none) : ∀ g ∈ s.bm.mgmtData, g.pageNum ≠ p := by
  unfold searchPageFromBuffer at h
  rw [← hlen, List.take_length] at h
  exact searchFrames_none.1 h

theorem searchPage_eq_firstIndexOf {s : World}
    (hlen : s.bm.mgmtData.length = s.bmi.capacity.toNat) (p : Int) :
    searchPageFromBuffer s p = firstIndexOf p (pageNums s) := by
  unfold searchPageFromBuffer pageNums
  rw [← hlen, List.take_length, searchFrames_eq_firstIndexOf]

theorem resident_iff {s : World} (hlen : s.bm.mgmtData.length = s.bmi.capacity.toNat) (p : Int) :
    resident s p = true ↔ ∃ g ∈ s.bm.mgmtData, g.pageNum = p := by
  unfold resident searchPageFromBuffer
  rw [← hlen, List.take_length]
  constructor
  · intro h
    by_contra hne
    have : searchFrames p s.bm.mgmtData = none :=
      searchFrames_none.2 (fun g hg hp => hne ⟨g, hg, hp⟩)
    rw [this] at h
    cases h
  · rintro ⟨g, hg, hp⟩
    cases hs : searchFrames p s.bm.mgmtData with
    | none => exact absurd hp (searchFrames_none.1 hs g hg)
    | some j => rfl

theorem resident_iff_mem {s : World}
    (hlen : s.bm.mgmtData.length = s.bmi.capacity.toNat) (p : Int) :
    resident s p = true ↔ p ∈ pageNums s := by
  unfold resident
  rw [searchPage_eq_firstIndexOf hlen]
  cases h : firstIndexOf p (pageNums s) with
  | none => simpa using firstIndexOf_none.1 h
  | some i =>
    have := List.getElem?_mem (firstIndexOf_some h)
    simpa using this

theorem pageNums_set {s s1 : World} {k : Nat} {g : Frame}
    (h : s1.bm.mgmtData = s.bm.mgmtData.set k g) :
    pageNums s1 = (pageNums s).set k g.pageNum := by
  unfold pageNums
  rw [h, List.map_set]

theorem set_unique_holder {frames : List Frame} {p : Int} {k : Nat} {f : Frame}
    (hnone : ∀ g ∈ frames, g.pageNum ≠ p) {j : Nat} {g : Frame}
    (hj : (frames.set k f)[j]? = some g) (hg : g.pageNum = p) : j = k := by
  by_contra hne
  rw [List.getElem?_set_ne (fun h => hne h.symm)] at hj
  exact hnone g (List.getElem?_mem hj) hg

theorem countUnpinned_eq_zero (s : World) (h : ∀ f ∈ s.bm.mgmtData, 0 < f.pinCount) :
    countUnpinned s = 0 := by
  unfold countUnpinned
  rw [List.countP_eq_zero]
  intro f hf
  have := h f (List.mem_of_mem_take hf)
  simp
  omega

theorem countUnpinned_ne_zero {s : World} {p : Int} {i : Nat} {f : Frame}
    (hi : searchPageFromBuffer s p = some i) (hf : s.bm.mgmtData[i]? = some f)
    (h0 : f.pinCount = 0) : countUnpinned s ≠ 0 := by
  obtain ⟨g, hg, -⟩ := searchFrames_some hi
  have hgf : g = f := by
    have := getElem?_of_take hg
    rw [hf] at this
    exact (Option.some.inj this).symm
  subst hgf
  have hpos : 0 < countUnpinned s :=
    List.countP_pos_iff.2 ⟨g, List.getElem?_mem hg, by simp [h0]⟩
  omega

theorem frameAt_some {frames : List Frame} {i : Int} (h0 : 0 ≤ i)
    (h1 : i.toNat < frames.length) :
    ∃ f, frameAt frames i = some f ∧ frames[i.toNat]? = some f := by
  have hneg : ¬ i < 0 := by omega
  exact ⟨frames[i.toNat], by simp [frameAt, hneg, List.getElem?_eq_getElem h1],
    List.getElem?_eq_getElem h1⟩

theorem skipPinned_here {frames : List Frame} {capacity front : Int} {f : Frame} (fuel : Nat)
    (hf : frameAt frames front = some f) (hp : ¬ f.pinCount > 0) :
    skipPinned frames capacity fuel front = some front := by
  cases fuel <;> simp [skipPinned, hf, hp]

/-! ## Page store and forcePage -/

theorem readSucceeds_load {st : PageStore} {p : Int} (hp : 0 ≤ p) (h : ReadSucceeds st p) :
    ∃ st1 content, ensureCapacity (p + 1) st = some st1 ∧ readBlock p st1 = some content ∧
      st1.blocks[p.toNat]? = some content ∧
      st1.ensureFault = st.ensureFault ∧ st1.readFault = st.readFault ∧
      st1.writeFault = st.writeFault := by
  obtain ⟨h1, h2⟩ := h
  have hlen : p.toNat < (st.blocks ++
      List.replicate ((p + 1).toNat - st.blocks.length) zeroPage).length := by
    simp only [List.length_append, List.length_replicate]
    omega
  refine ⟨{ st with blocks := st.blocks ++
      List.replicate ((p + 1).toNat - st.blocks.length) zeroPage },
    (st.blocks ++ List.replicate ((p + 1).toNat - st.blocks.length) zeroPage)[p.toNat],
    by simp [ensureCapacity, h1], ?_, ?_, rfl, rfl, rfl⟩
  · have hneg : ¬ p < 0 := by omega
    simp only [readBlock, hneg, h2, false_or, Bool.false_eq_true, if_false]
    exact List.getElem?_eq_getElem hlen
  · exact List.getElem?_eq_getElem hlen

theorem forcePage_bm (s : World) (page : BM_PageHandle) : (forcePage s page).2.bm = s.bm := by
  unfold forcePage
  split
  · rfl
  · split
    · rfl
    · dsimp only
      split <;> rfl

theorem forcePage_bmi (s : World) (page : BM_PageHandle) : (forcePage s page).2.bmi = s.bmi := by
  unfold forcePage
  split
  · rfl
  · split
    · rfl
    · dsimp only
      split <;> rfl

theorem forcePage_mem (s : World) (page : BM_PageHandle) : (forcePage s page).2.mem = s.mem := by
  unfold forcePage
  split
  · rfl
  · split
    · rfl
    · dsimp only
      split <;> rfl

theorem forcePage_faults (s : World) (page : BM_PageHandle) :
    (forcePage s page).2.store.ensureFault = s.store.ensureFault ∧
    (forcePage s page).2.store.readFault = s.store.readFault ∧
    (forcePage s page).2.store.writeFault = s.store.writeFault := by
  have he : ∀ (n : Int) (st : PageStore),
      ((ensureCapacity n st).getD st).ensureFault = st.ensureFault ∧
      ((ensureCapacity n st).getD st).readFault = st.readFault ∧
      ((ensureCapacity n st).getD st).writeFault = st.writeFault := by
    intro n st
    unfold ensureCapacity
    split <;> exact ⟨rfl, rfl, rfl⟩
  have hw : ∀ (n : Int) (b : Buffer) (st st2 : PageStore), writeBlock n b st = some st2 →
      st2.ensureFault = st.ensureFault ∧ st2.readFault = st.readFault ∧
      st2.writeFault = st.writeFault := by
    intro n b st st2 h
    unfold writeBlock at h
    split at h
    · cases h
    · cases h; exact ⟨rfl, rfl, rfl⟩
  unfold forcePage
  split
  · exact ⟨rfl, rfl, rfl⟩
  · split
    · exact ⟨rfl, rfl, rfl⟩
    · dsimp only
      split
      · exact he _ _
      · rename_i st2 hst2
        obtain ⟨h1, h2, h3⟩ := hw _ _ _ _ hst2
        obtain ⟨h4, h5, h6⟩ := he (page.pageNum + 1) s.store
        exact ⟨h1.trans h4, h2.trans h5, h3.trans h6⟩

/-! ## pinPage and unpinPage, path by path -/

theorem pinPage_eq_FIFO {s : World} (page : BM_PageHandle) {pageNum : Int}
    (hfile : s.bm.pageFile ≠ none) (hs : s.bm.strategy = RS_FIFO) (hp : 0 ≤ pageNum) :
    pinPage s page pageNum = pinPageWithFIFO s page pageNum := by
  have hneg : ¬ pageNum < 0 := by omega
  simp only [pinPage, hneg, hfile, hs, if_true, if_false]

theorem pinPage_eq_LRU {s : World} (page : BM_PageHandle) {pageNum : Int}
    (hfile : s.bm.pageFile ≠ none) (hs : s.bm.strategy = RS_LRU) (hp : 0 ≤ pageNum) :
    pinPage s page pageNum = pinPageWithLRU s page pageNum := by
  have hneg : ¬ pageNum < 0 := by omega
  simp [pinPage, hneg, hfile, hs]

theorem pinPageWithFIFO_hit {s : World} {pageNum : Int} {i : Nat} {f : Frame}
    (page : BM_PageHandle) (hp : 0 ≤ pageNum)
    (hres : searchPageFromBuffer s pageNum = some i) (hf : s.bm.mgmtData[i]? = some f) :
    pinPageWithFIFO s page pageNum =
      some (RC_OK, { pageNum := pageNum, data := f.data },
        s.setFrame i { f with pinCount := wrapInt (f.pinCount + 1) }) := by
  have hneg : ¬ pageNum < 0 := by omega
  simp only [pinPageWithFIFO, hneg, hres, hf, if_false]

theorem pinPageWithLRU_hit {s : World} {pageNum : Int} {i : Nat} {f : Frame}
    (page : BM_PageHandle) (hp : 0 ≤ pageNum)
    (hres : searchPageFromBuffer s pageNum = some i) (hf : s.bm.mgmtData[i]? = some f) :
    pinPageWithLRU s page pageNum =
      some (RC_OK, { pageNum := pageNum, data := f.data },
        { s.setFrame i { f with pinCount := wrapInt (f.pinCount + 1) } with
          bmi := { s.bmi with arr := (updateLRUOrder s.bmi.capacity s.bmi.arr pageNum).2 } }) := by
  have hneg : ¬ pageNum < 0 := by omega
  simp only [pinPageWithLRU, hneg, hres, hf, if_false]
  rfl

theorem pinPageWithFIFO_miss_room {s : World} {pageNum : Int} {frame : Frame}
    {st1 : PageStore} {content : Buffer}
    (page : BM_PageHandle) (hp : 0 ≤ pageNum)
    (hmiss : searchPageFromBuffer s pageNum = none) (hroom : isFull s = false)
    (hframe : frameAt s.bm.mgmtData ((s.bmi.rear + 1).tmod s.bmi.capacity) = some frame)
    (hens : ensureCapacity (pageNum + 1) s.store = some st1)
    (hrd : readBlock pageNum st1 = some content) :
    pinPageWithFIFO s page pageNum =
      some (RC_OK, { pageNum := pageNum, data := frame.data },
        ({ s with store := st1
                  mem := Function.update s.mem frame.data content
                  bmi := { s.bmi with rear := (s.bmi.rear + 1).tmod s.bmi.capacity,
                                      numRead := wrapInt (s.bmi.numRead + 1),
                                      frameCnt := s.bmi.frameCnt + 1 } } : World).setFrame
          ((s.bmi.rear + 1).tmod s.bmi.capacity).toNat
          { frame with pageNum := pageNum, pinCount := 1, dirtyBit := 0 }) := by
  have hneg : ¬ pageNum < 0 := by omega
  simp only [pinPageWithFIFO, hneg, hmiss, hroom, if_false]
  simp [hframe, hens, hrd]

theorem pinPageWithLRU_miss_room {s : World} {pageNum : Int} {k : Nat} {frame : Frame}
    {st1 : PageStore} {content : Buffer}
    (page : BM_PageHandle) (hp : 0 ≤ pageNum)
    (hmiss : searchPageFromBuffer s pageNum = none) (hroom : isFull s = false)
    (hslot : firstIndexOf (-1) (s.bmi.arr.take s.bm.numPages.toNat) = some k)
    (hframe : s.bm.mgmtData[k]? = some frame)
    (hens : ensureCapacity (pageNum + 1) s.store = some st1)
    (hrd : readBlock pageNum st1 = some content) :
    pinPageWithLRU s page pageNum =
      some (RC_OK, { pageNum := pageNum, data := frame.data },
        ({ s with store := st1
                  mem := Function.update s.mem frame.data content
                  bmi := { s.bmi with numRead := wrapInt (s.bmi.numRead + 1),
                                      frameCnt := s.bmi.frameCnt + 1,
                                      arr := s.bmi.arr.set k pageNum } } : World).setFrame k
          { frame with pageNum := pageNum, pinCount := 1, dirtyBit := 0 }) := by
  have hneg : ¬ pageNum < 0 := by omega
  have hk : k < s.bm.mgmtData.length := by
    rcases Nat.lt_or_ge k s.bm.mgmtData.length with h | h
    · exact h
    · rw [List.getElem?_eq_none h] at hframe; cases hframe
  simp only [pinPageWithLRU, hneg, hmiss, hroom, if_false]
  simp [hslot, hk, hframe, hens, hrd]

theorem pinPageWithFIFO_miss_full_clean {s : World} {pageNum : Int} {fv : Frame}
    {st1 : PageStore} {content : Buffer}
    (page : BM_PageHandle) (hshape : Shaped s) (hp : 0 ≤ pageNum)
    (hmiss : searchPageFromBuffer s pageNum = none) (hfull : isFull s = true)
    (hcnt : countUnpinned s ≠ 0)
    (hfv : frameAt s.bm.mgmtData s.bmi.front = some fv)
    (hpin : fv.pinCount = 0) (hclean : fv.dirtyBit = 0)
    (hens : ensureCapacity (pageNum + 1) s.store = some st1)
    (hrd : readBlock pageNum st1 = some content) :
    pinPageWithFIFO s page pageNum =
      some (RC_OK, { pageNum := pageNum, data := fv.data },
        { bm := { s.bm with
            mgmtData := s.bm.mgmtData.set s.bmi.front.toNat
              { fv with pageNum := pageNum, pinCount := 1, dirtyBit := 0 } }
          bmi := { s.bmi with
            front := (s.bmi.front + 1).tmod s.bmi.capacity
            rear := s.bmi.front
            numRead := wrapInt (s.bmi.numRead + 1) }
          mem := Function.update s.mem fv.data content
          store := st1 }) := by
  have hneg : ¬ pageNum < 0 := by omega
  have hcap := hshape.capacity_pos
  have hfc : s.bmi.frameCnt = s.bmi.capacity := by simpa [isFull] using hfull
  have hne : isEmpty s = false := by simp [isEmpty]; omega
  have hnp : ¬ fv.pinCount > 0 := by omega
  have hnd : ¬ (fv.pinCount = 0 ∧ fv.dirtyBit = 1) := by omega
  have hskip : skipPinned s.bm.mgmtData s.bmi.capacity s.bmi.capacity.toNat s.bmi.front
      = some s.bmi.front := skipPinned_here _ hfv hnp
  have hrear := tmod_succ_pred hshape.front_range.1 hshape.front_range.2
  have hlt : s.bmi.front.toNat < s.bm.mgmtData.length := by
    rw [hshape.frames_length]
    have := hshape.front_range
    omega
  have hfneg : ¬ s.bmi.front < 0 := by have := hshape.front_range; omega
  have hrem : removePageWithFIFO s page = some (RC_OK,
      ({ s with bmi := { s.bmi with
            rear := (if s.bmi.front = 0 then s.bmi.capacity - 1 else s.bmi.front - 1)
            front := (s.bmi.front + 1).tmod s.bmi.capacity
            frameCnt := s.bmi.frameCnt - 1 } } : World).setFrame s.bmi.front.toNat
        { fv with pageNum := NO_PAGE, pinCount := 0, dirtyBit := 0 }) := by
    simp only [removePageWithFIFO, hne, hcnt, hskip, hfv, hnd, if_false, Bool.false_eq_true]
  simp only [pinPageWithFIFO, hneg, hmiss, hfull, hrem, if_false, if_true]
  simp only [World.setFrame, hrear, frameAt, hfneg, if_false, List.getElem?_set_self hlt, hens,
    hrd, List.set_set, ne_eq, not_true_eq_false, if_false]
  simp

theorem pinPageWithLRU_miss_full {s : World} {pageNum victim : Int} {i : Nat} {frame : Frame}
    (page : BM_PageHandle) (hcap : 0 < s.bmi.capacity)
    (harrlen : s.bmi.arr.length = s.bmi.capacity.toNat)
    (hfull : isFull s = true) (hhead : s.bmi.arr[0]? = some victim)
    (hvic : searchPageFromBuffer s victim = some i) (hframe : s.bm.mgmtData[i]? = some frame)
    (hcnt : countUnpinned s ≠ 0)
    (hp : 0 ≤ pageNum) (hmiss : searchPageFromBuffer s pageNum = none)
    (hread : ReadSucceeds s.store pageNum) :
    ∃ (s1 : World),
      pinPageWithLRU s page pageNum
        = some (RC_OK, { pageNum := pageNum, data := frame.data }, s1) ∧
      s1.bm.mgmtData
        = s.bm.mgmtData.set i { frame with pageNum := pageNum, pinCount := 1, dirtyBit := 0 } ∧
      s1.bmi.arr = s.bmi.arr.tail ++ [pageNum] ∧
      s1.bmi.frameCnt = s.bmi.frameCnt ∧
      s1.bmi.numRead = wrapInt (s.bmi.numRead + 1) ∧
      s1.bmi.capacity = s.bmi.capacity ∧ SameSetup s s1 := by
  have hneg : ¬ pageNum < 0 := by omega
  have hfc : s.bmi.frameCnt = s.bmi.capacity := by simpa [isFull] using hfull
  have hne : isEmpty s = false := by simp [isEmpty]; omega
  have hlt : i < s.bm.mgmtData.length := by
    rcases Nat.lt_or_ge i s.bm.mgmtData.length with h | h
    · exact h
    · rw [List.getElem?_eq_none h] at hframe; cases hframe
  have harr : s.bmi.arr.length = (s.bmi.capacity - 1).toNat + 1 := by
    rw [harrlen]; omega
  -- the state after the victim was written back (or not)
  obtain ⟨sv, hsv, hbm, hbmi, hmem, hfaults, hesv0, hrsv0⟩ : ∃ sv : World,
      sv = (if frame.pinCount = 0 ∧ frame.dirtyBit = 1 then
              { (forcePage s page).2 with
                bmi := { (forcePage s page).2.bmi with
                  numWrite := wrapInt ((forcePage s page).2.bmi.numWrite + 1) } }
            else s) ∧ sv.bm = s.bm ∧
      (sv.bmi.frameCnt = s.bmi.frameCnt ∧ sv.bmi.capacity = s.bmi.capacity ∧
        sv.bmi.arr = s.bmi.arr ∧ sv.bmi.numRead = s.bmi.numRead) ∧ sv.mem = s.mem ∧
      ReadSucceeds sv.store pageNum ∧ sv.store.ensureFault = s.store.ensureFault ∧
      sv.store.readFault = s.store.readFault := by
    refine ⟨_, rfl, ?_⟩
    split
    · obtain ⟨h1, h2, -⟩ := forcePage_faults s page
      refine ⟨forcePage_bm s page, ?_, forcePage_mem s page, ?_, h1, h2⟩
      · simp [forcePage_bmi]
      · unfold ReadSucceeds
        dsimp only
        rw [h1, h2]
        exact hread
    · exact ⟨rfl, ⟨rfl, rfl, rfl, rfl⟩, rfl, hread, rfl, rfl⟩
  obtain ⟨st1, content, hens, hrd, -, e1, e2, -⟩ := readSucceeds_load hp hfaults
  have hrem : removePageWithLRU s page victim
      = (some i,
        ({ sv with bmi := { sv.bmi with frameCnt := sv.bmi.frameCnt - 1 } } : World).setFrame
          i { frame with pageNum := NO_PAGE, pinCount := 0, dirtyBit := 0 }) := by
    simp only [removePageWithLRU, hne, hcnt, hvic, hframe, if_false, Bool.false_eq_true]
    rw [hsv]
  have hpin : pinPageWithLRU s page pageNum
      = some (RC_OK, { pageNum := pageNum, data := frame.data },
          { bm := { sv.bm with
              mgmtData := (sv.bm.mgmtData.set i
                  { frame with pageNum := NO_PAGE, pinCount := 0, dirtyBit := 0 }).set i
                { frame with pageNum := pageNum, pinCount := 1, dirtyBit := 0 } }
            bmi := { sv.bmi with
              frameCnt := sv.bmi.frameCnt - 1 + 1, numRead := wrapInt (sv.bmi.numRead + 1),
              arr := (shiftLeft sv.bmi.arr 0 (sv.bmi.capacity - 1).toNat).set
                (sv.bmi.capacity - 1).toNat pageNum }
            mem := Function.update sv.mem frame.data content
            store := st1 }) := by
    simp only [pinPageWithLRU, hneg, hmiss, hfull, hhead, hrem, if_false, if_true]
    simp only [World.setFrame, hens, List.getElem?_set_self (hbm ▸ hlt), hrd]
  refine ⟨_, hpin, ?_, ?_, ?_, ?_, ?_, ?_⟩
  · simp [hbm]
  · simp only [hbmi.2.1, hbmi.2.2.1]
    exact shiftLeft_all_set pageNum harr
  · simp [hbmi.1]
  · simp [hbmi.2.2.2]
  · simp [hbmi.2.1]
  · exact ⟨by simp [hbm], by simp [hbm], by simp [hbm], by simp [hbmi.2.1], e1.trans hesv0,
      e2.trans hrsv0⟩

theorem unpinPage_clean {s : World} {page : BM_PageHandle} {k : Nat} {g : Frame}
    (hfifo : s.bm.strategy = RS_FIFO)
    (hk : searchPageFromBuffer s page.pageNum = some k) (hg : s.bm.mgmtData[k]? = some g)
    (hclean : g.dirtyBit = 0) :
    unpinPage s page = (RC_OK, s.setFrame k { g with pinCount := wrapInt (g.pinCount - 1) }) := by
  have h1 : ¬ (wrapInt (g.pinCount - 1) = 0 ∧ g.dirtyBit = 1) := by omega
  simp only [unpinPage, hk, hg]
  simp [World.setFrame, hfifo, h1]

theorem unpinPage_at_zero {s : World} {page : BM_PageHandle} {i : Nat} {f : Frame}
    (hi : searchPageFromBuffer s page.pageNum = some i) (hf : s.bm.mgmtData[i]? = some f)
    (h0 : f.pinCount = 0) :
    (unpinPage s page).1 = RC_OK ∧
      ∃ f1, (unpinPage s page).2.bm.mgmtData[i]? = some f1 ∧ f1.pinCount = -1 := by
  have hlt : i < s.bm.mgmtData.length := by
    rcases Nat.lt_or_ge i s.bm.mgmtData.length with h | h
    · exact h
    · rw [List.getElem?_eq_none h] at hf; cases hf
  have hw : wrapInt (f.pinCount - 1) = -1 := by rw [h0]; rfl
  refine ⟨by simp only [unpinPage, hi, hf], { f with pinCount := wrapInt (f.pinCount - 1) }, ?_,
    hw⟩
  have hne : ¬ (wrapInt (f.pinCount - 1) = 0 ∧ f.dirtyBit = 1) := by rw [hw]; omega
  simp only [unpinPage, hi, hf, hne, if_false]
  split
  · simp [World.setFrame, hlt]
  · simp [World.setFrame, hlt]

/-! ## FIFO order: the frame array is the load history -/

theorem unpin_after_load {s1 : World} {frames : List Frame} {k : Nat} {g : Frame} (d : Ptr)
    (hfifo : s1.bm.strategy = RS_FIFO)
    (hfr : s1.bm.mgmtData = frames.set k g) (hk : k < frames.length)
    (hlen : frames.length = s1.bmi.capacity.toNat)
    (hnew : ∀ f ∈ frames, f.pageNum ≠ g.pageNum) (hclean : g.dirtyBit = 0) :
    unpinPage s1 { pageNum := g.pageNum, data := d }
      = (RC_OK, s1.setFrame k { g with pinCount := wrapInt (g.pinCount - 1) }) := by
  have hlen1 : s1.bm.mgmtData.length = s1.bmi.capacity.toNat := by
    rw [hfr, List.length_set]; exact hlen
  have hsearch : searchPageFromBuffer s1 g.pageNum = some k := by
    rw [searchPage_eq_firstIndexOf hlen1]
    unfold pageNums
    rw [hfr, List.map_set]
    apply firstIndexOf_set_new
    · intro hmem
      obtain ⟨f, hf, hfp⟩ := List.mem_map.1 hmem
      exact hnew f hf hfp
    · simpa using hk
  have hg : s1.bm.mgmtData[k]? = some g := by
    rw [hfr, List.getElem?_set_self hk]
  exact unpinPage_clean hfifo hsearch hg hclean

theorem pinUnpin_eq {s s1 : World} {page page1 : BM_PageHandle} {p : Int} {rc : RC} {w : World}
    (h : pinPage s page p = some (rc, page1, s1)) (hu : unpinPage s1 page1 = (RC_OK, w)) :
    pinUnpin s page p = some w := by
  simp only [pinUnpin, h, hu]

theorem round_hit {s : World} {pageNum : Int} {i : Nat} (page : BM_PageHandle)
    (hshape : Shaped s) (hfifo : s.bm.strategy = RS_FIFO)
    (hclean : ∀ f ∈ s.bm.mgmtData, f.pinCount = 0 ∧ f.dirtyBit = 0)
    (hp : 0 ≤ pageNum) (hres : searchPageFromBuffer s pageNum = some i) :
    ∃ s2 g, pinUnpin s page pageNum = some s2 ∧ SameSetup s s2 ∧
      s2.bmi.front = s.bmi.front ∧ s2.bmi.rear = s.bmi.rear ∧
      s2.bmi.frameCnt = s.bmi.frameCnt ∧
      s2.bm.mgmtData = s.bm.mgmtData.set i g ∧ s.bm.mgmtData[i]? = some g := by
  obtain ⟨f, hf, hfp⟩ := searchPage_some hres
  have hpin := (pinPage_eq_FIFO page hshape.attached hfifo hp).trans
    (pinPageWithFIFO_hit page hp hres hf)
  have hlt := getElem?_lt hf
  obtain ⟨hf0, hfd⟩ := hclean f (List.getElem?_mem hf)
  have hs1 : searchPageFromBuffer
      (s.setFrame i { f with pinCount := wrapInt (f.pinCount + 1) }) pageNum = some i := by
    have hlen1 :
        (s.setFrame i { f with pinCount := wrapInt (f.pinCount + 1) }).bm.mgmtData.length
        = (s.setFrame i { f with pinCount := wrapInt (f.pinCount + 1) }).bmi.capacity.toNat := by
      simp only [World.setFrame, List.length_set]; exact hshape.frames_length
    rw [searchPage_eq_firstIndexOf hlen1]
    have hpn : pageNums (s.setFrame i { f with pinCount := wrapInt (f.pinCount + 1) })
        = pageNums s := by
      rw [pageNums_set (s := s) (k := i) rfl]
      apply set_getElem?_self
      unfold pageNums
      rw [List.getElem?_map, hf]
      rfl
    rw [hpn, ← searchPage_eq_firstIndexOf hshape.frames_length]
    exact hres
  have hun := @unpinPage_clean (s.setFrame i { f with pinCount := wrapInt (f.pinCount + 1) })
    { pageNum := pageNum, data := f.data } i { f with pinCount := wrapInt (f.pinCount + 1) }
    hfifo hs1
    (by simp [World.setFrame, hlt]) hfd
  refine ⟨_, f, pinUnpin_eq hpin hun, ⟨rfl, rfl, rfl, rfl, rfl, rfl⟩, rfl, rfl, rfl,
    ?_, hf⟩
  simp only [World.setFrame, List.set_set]
  congr 1
  cases f
  simp only [Frame.mk.injEq, true_and, and_true]
  simp only at hf0
  rw [hf0]
  rfl

theorem round_miss_room {s : World} {pageNum : Int} (page : BM_PageHandle)
    (hshape : Shaped s) (hfifo : s.bm.strategy = RS_FIFO)
    (hp : 0 ≤ pageNum) (hmiss : searchPageFromBuffer s pageNum = none)
    (hroom : isFull s = false) (hread : ReadSucceeds s.store pageNum) :
    ∃ s2 g, pinUnpin s page pageNum = some s2 ∧ SameSetup s s2 ∧
      s2.bmi.front = s.bmi.front ∧ s2.bmi.rear = (s.bmi.rear + 1).tmod s.bmi.capacity ∧
      s2.bmi.frameCnt = s.bmi.frameCnt + 1 ∧
      s2.bm.mgmtData = s.bm.mgmtData.set ((s.bmi.rear + 1).tmod s.bmi.capacity).toNat g ∧
      g.pageNum = pageNum ∧ g.pinCount = 0 ∧ g.dirtyBit = 0 := by
  obtain ⟨st1, content, hens, hrd, -, hf1, hf2, -⟩ := readSucceeds_load hp hread
  have hall := searchPage_none_all hshape.frames_length hmiss
  have hr := tmod_range (a := s.bmi.rear + 1) (by have := hshape.rear_range.1; omega)
    hshape.capacity_pos
  have hlt : ((s.bmi.rear + 1).tmod s.bmi.capacity).toNat < s.bm.mgmtData.length := by
    rw [hshape.frames_length]; omega
  obtain ⟨f, hf, -⟩ := frameAt_some hr.1 hlt
  have hpin := (pinPage_eq_FIFO page hshape.attached hfifo hp).trans
    (pinPageWithFIFO_miss_room page hp hmiss hroom hf hens hrd)
  have hun := @unpin_after_load
    (({ s with store := st1
               mem := Function.update s.mem f.data content
               bmi := { s.bmi with rear := (s.bmi.rear + 1).tmod s.bmi.capacity,
                                   numRead := wrapInt (s.bmi.numRead + 1),
                                   frameCnt := s.bmi.frameCnt + 1 } } : World).setFrame
      ((s.bmi.rear + 1).tmod s.bmi.capacity).toNat
      { f with pageNum := pageNum, pinCount := 1, dirtyBit := 0 })
    s.bm.mgmtData ((s.bmi.rear + 1).tmod s.bmi.capacity).toNat
    { f with pageNum := pageNum, pinCount := 1, dirtyBit := 0 } f.data
    hfifo rfl hlt hshape.frames_length hall rfl
  refine ⟨_, { f with pageNum := pageNum, pinCount := 0, dirtyBit := 0 },
    pinUnpin_eq hpin hun, ⟨rfl, rfl, rfl, rfl, hf1, hf2⟩, rfl, rfl, rfl, ?_,
    rfl, rfl, rfl⟩
  simp [World.setFrame, List.set_set]

theorem round_miss_full {s : World} {pageNum : Int} (page : BM_PageHandle)
    (hshape : Shaped s) (hfifo : s.bm.strategy = RS_FIFO)
    (hclean : ∀ f ∈ s.bm.mgmtData, f.pinCount = 0 ∧ f.dirtyBit = 0)
    (hp : 0 ≤ pageNum) (hmiss : searchPageFromBuffer s pageNum = none)
    (hfull : isFull s = true) (hread : ReadSucceeds s.store pageNum) :
    ∃ s1 s2 g page1, pinPage s page pageNum = some (RC_OK, page1, s1) ∧
      s1.bm.mgmtData = s.bm.mgmtData.set s.bmi.front.toNat { g with pinCount := 1 } ∧
      s1.bmi.capacity = s.bmi.capacity ∧
      pinUnpin s page pageNum = some s2 ∧ SameSetup s s2 ∧
      s2.bmi.front = (s.bmi.front + 1).tmod s.bmi.capacity ∧ s2.bmi.rear = s.bmi.front ∧
      s2.bmi.frameCnt = s.bmi.frameCnt ∧
      s2.bm.mgmtData = s.bm.mgmtData.set s.bmi.front.toNat g ∧
      g.pageNum = pageNum ∧ g.pinCount = 0 ∧ g.dirtyBit = 0 := by
  obtain ⟨st1, content, hens, hrd, -, hf1, hf2, -⟩ := readSucceeds_load hp hread
  have hall := searchPage_none_all hshape.frames_length hmiss
  have hlt : s.bmi.front.toNat < s.bm.mgmtData.length := by
    rw [hshape.frames_length]
    have := hshape.front_range
    omega
  obtain ⟨fv, hfv, hfv2⟩ := frameAt_some hshape.front_range.1 hlt
  obtain ⟨hv0, hvd⟩ := hclean fv (List.getElem?_mem hfv2)
  have hcnt : countUnpinned s ≠ 0 := by
    have hpos : 0 < countUnpinned s := by
      unfold countUnpinned
      rw [← hshape.frames_length, List.take_length]
      exact List.countP_pos_iff.2 ⟨fv, List.getElem?_mem hfv2, by simp [hv0]⟩
    omega
  have hpin := (pinPage_eq_FIFO page hshape.attached hfifo hp).trans
    (pinPageWithFIFO_miss_full_clean page hshape hp hmiss hfull hcnt hfv hv0 hvd hens hrd)
  have hun := @unpin_after_load
    { bm := { s.bm with
        mgmtData := s.bm.mgmtData.set s.bmi.front.toNat
          { fv with pageNum := pageNum, pinCount := 1, dirtyBit := 0 } }
      bmi := { s.bmi with
        front := (s.bmi.front + 1).tmod s.bmi.capacity
        rear := s.bmi.front
        numRead := wrapInt (s.bmi.numRead + 1) }
      mem := Function.update s.mem fv.data content
      store := st1 }
    s.bm.mgmtData s.bmi.front.toNat
    { fv with pageNum := pageNum, pinCount := 1, dirtyBit := 0 } fv.data
    hfifo rfl hlt hshape.frames_length hall rfl
  refine ⟨_, _, { fv with pageNum := pageNum, pinCount := 0, dirtyBit := 0 }, _, hpin, rfl, rfl,
    pinUnpin_eq hpin hun, ⟨rfl, rfl, rfl, rfl, hf1, hf2⟩, rfl, rfl, rfl, ?_,
    rfl, rfl, rfl⟩
  simp [World.setFrame, List.set_set]

theorem shaped_of_set {s s2 : World} {k : Nat} {g : Frame} (hshape : Shaped s)
    (hfifo : s.bm.strategy = RS_FIFO) (hsame : SameSetup s s2)
    (hfr : s2.bm.mgmtData = s.bm.mgmtData.set k g)
    (hfront : 0 ≤ s2.bmi.front ∧ s2.bmi.front < s.bmi.capacity)
    (hrear : -1 ≤ s2.bmi.rear ∧ s2.bmi.rear < s.bmi.capacity) : Shaped s2 where
  attached := by rw [hsame.pageFile]; exact hshape.attached
  capacity_pos := by rw [hsame.capacity]; exact hshape.capacity_pos
  numPages_eq := by rw [hsame.numPages, hsame.capacity]; exact hshape.numPages_eq
  frames_length := by rw [hfr, List.length_set, hsame.capacity]; exact hshape.frames_length
  arr_length := by
    intro h
    rw [hsame.strategy, hfifo] at h
    cases h
  front_range := by rw [hsame.capacity]; exact hfront
  rear_range := by rw [hsame.capacity]; exact hrear

theorem clean_of_set {s s2 : World} {k : Nat} {g : Frame}
    (hclean : ∀ f ∈ s.bm.mgmtData, f.pinCount = 0 ∧ f.dirtyBit = 0)
    (hfr : s2.bm.mgmtData = s.bm.mgmtData.set k g) (hg : g.pinCount = 0 ∧ g.dirtyBit = 0) :
    ∀ f ∈ s2.bm.mgmtData, f.pinCount = 0 ∧ f.dirtyBit = 0 := by
  intro f hf
  rw [hfr] at hf
  rcases List.mem_or_eq_of_mem_set hf with h | h
  · exact hclean f h
  · rw [h]; exact hg

theorem fifoOrdered_full_length {st : PageStore} {s : World} {log A B : List Int}
    (h : FifoOrdered st s log) (hpn : pageNums s = A ++ B) (hlog : log = B ++ A) :
    (log.length : Int) = s.bmi.capacity := by
  have h1 : (pageNums s).length = s.bmi.capacity.toNat := by
    unfold pageNums
    rw [List.length_map]; exact h.shaped.frames_length
  have h2 : log.length = (pageNums s).length := by
    rw [hlog, hpn, List.length_append, List.length_append, Nat.add_comm]
  have := h.shaped.capacity_pos
  omega

theorem fifoOrdered_step {st : PageStore} {s : World} {log : List Int} {pageNum : Int}
    (page : BM_PageHandle) (h : FifoOrdered st s log) (hp : 0 ≤ pageNum)
    (hread : ReadSucceeds st pageNum) :
    ∃ s2, pinUnpin s page pageNum = some s2 ∧ FifoOrdered st s2 (loadLog s s2 pageNum log) := by
  have hread1 : ReadSucceeds s.store pageNum := by
    unfold ReadSucceeds
    rw [h.ensureFault, h.readFault]
    exact hread
  have hlen := h.shaped.frames_length
  have hcap := h.shaped.capacity_pos
  cases hres : searchPageFromBuffer s pageNum with
  | some i =>
    obtain ⟨s2, g, hpu, hsame, hfront, hrear, hcnt, hfr, hg⟩ :=
      round_hit page h.shaped h.fifo h.clean hp hres
    rw [set_getElem?_self hg] at hfr
    have hpn : pageNums s2 = pageNums s := by unfold pageNums; rw [hfr]
    have hlog : loadLog s s2 pageNum log = log := by
      simp [loadLog, resident, hres]
    refine ⟨s2, hpu, ?_⟩
    rw [hlog]
    exact {
      shaped := shaped_of_set (k := i) (g := g) h.shaped h.fifo hsame
        (by rw [hfr, set_getElem?_self hg]) (by rw [hfront]; exact h.shaped.front_range)
        (by rw [hrear]; exact h.shaped.rear_range)
      fifo := by rw [hsame.strategy]; exact h.fifo
      ensureFault := by rw [hsame.ensureFault]; exact h.ensureFault
      readFault := by rw [hsame.readFault]; exact h.readFault
      clean := by rw [hfr]; exact h.clean
      count := by rw [hcnt]; exact h.count
      nonneg := h.nonneg
      nodup := h.nodup
      layout := by rw [hfront, hrear, hsame.capacity, hpn]; exact h.layout }
  | none =>
    have hnotin : pageNum ∉ pageNums s := by
      intro hmem
      have := (resident_iff_mem hlen pageNum).2 hmem
      simp [resident, hres] at this
    have hnr : resident s pageNum = false := by simp [resident, hres]
    cases hfull : isFull s with
    | false =>
      have hfc : s.bmi.frameCnt ≠ s.bmi.capacity := by simpa [isFull] using hfull
      obtain ⟨s2, g, hpu, hsame, hfront, hrear, hcnt, hfr, hgp, hg0, hgd⟩ :=
        round_miss_room page h.shaped h.fifo hp hres hfull hread1
      rcases h.layout with ⟨hf0, hr0, hlt, hpn⟩ | ⟨A, B, hpn, hlogAB, -, -, -⟩
      · have hk : (s.bmi.rear + 1).tmod s.bmi.capacity = (log.length : Int) := by
          rw [hr0, Int.sub_add_cancel]
          exact tmod_small (by omega) hlt
        rw [hk] at hfr hrear
        rw [Int.toNat_ofNat] at hfr
        obtain ⟨m, hm⟩ : ∃ m, s.bmi.capacity.toNat - log.length = m + 1 :=
          ⟨s.bmi.capacity.toNat - log.length - 1, by omega⟩
        have hpn2 : pageNums s2 = log ++ pageNum :: List.replicate m NO_PAGE := by
          rw [pageNums_set hfr, hpn, hm, hgp, List.replicate_succ, set_append_cons]
        have hlen2 : s2.bm.mgmtData.length = s2.bmi.capacity.toNat := by
          rw [hfr, List.length_set, hsame.capacity]; exact hlen
        have hlog : loadLog s s2 pageNum log = log ++ [pageNum] := by
          simp only [loadLog, hnr, Bool.false_eq_true, if_false]
          rw [filter_keep_all]
          intro q hq
          rw [resident_iff_mem hlen2, hpn2]
          simp [hq]
        have hnotlog : pageNum ∉ log := fun hmem => hnotin (by rw [hpn]; simp [hmem])
        refine ⟨s2, hpu, ?_⟩
        rw [hlog]
        exact {
          shaped := shaped_of_set h.shaped h.fifo hsame hfr
            (by rw [hfront]; exact h.shaped.front_range) (by rw [hrear]; omega)
          fifo := by rw [hsame.strategy]; exact h.fifo
          ensureFault := by rw [hsame.ensureFault]; exact h.ensureFault
          readFault := by rw [hsame.readFault]; exact h.readFault
          clean := clean_of_set h.clean hfr ⟨hg0, hgd⟩
          count := by rw [hcnt, h.count]; simp
          nonneg := by
            intro q hq
            rcases List.mem_append.1 hq with h1 | h1
            · exact h.nonneg q h1
            · simp at h1; omega
          nodup := by
            rw [List.nodup_append]
            refine ⟨h.nodup, List.nodup_singleton _, ?_⟩
            intro a ha hb
            simp at hb
            exact hnotlog (hb ▸ ha)
          layout := by
            rw [hfront, hrear, hsame.capacity, hpn2]
            by_cases hm0 : m = 0
            · right
              refine ⟨[], log ++ [pageNum], ?_, by simp, by simp, by simp [hf0], ?_⟩
              · simp [hm0]
              · rw [if_pos hf0]; omega
            · left
              refine ⟨hf0, by simp, by simp; omega, ?_⟩
              have : s.bmi.capacity.toNat - (log ++ [pageNum]).length = m := by
                simp; omega
              rw [this]
              simp }
      · exact absurd (h.count.trans (fifoOrdered_full_length h hpn hlogAB)) hfc
    | true =>
      have hfc : s.bmi.frameCnt = s.bmi.capacity := by simpa [isFull] using hfull
      obtain ⟨s1, s2, g, page1, -, -, -, hpu, hsame, hfront, hrear, hcnt, hfr, hgp, hg0, hgd⟩ :=
        round_miss_full page h.shaped h.fifo h.clean hp hres hfull hread1
      rcases h.layout with ⟨-, -, hlt, -⟩ | ⟨A, B, hpn, hlogAB, hB, hfA, -⟩
      · rw [← h.count] at hlt; omega
      · obtain ⟨v, B1, rfl⟩ : ∃ v B1, B = v :: B1 := by
          cases B with
          | nil => exact absurd rfl hB
          | cons v B1 => exact ⟨v, B1, rfl⟩
        have hcapAB : s.bmi.capacity = (A.length : Int) + 1 + B1.length := by
          have := fifoOrdered_full_length h hpn hlogAB
          rw [hlogAB] at this
          simp at this
          omega
        rw [hfA, Int.toNat_ofNat] at hfr
        have hpn2 : pageNums s2 = A ++ pageNum :: B1 := by
          rw [pageNums_set hfr, hpn, hgp, set_append_cons]
        have hlen2 : s2.bm.mgmtData.length = s2.bmi.capacity.toNat := by
          rw [hfr, List.length_set, hsame.capacity]; exact hlen
        have hnd := h.nodup
        rw [hlogAB] at hnd
        have hnd2 : (v :: (B1 ++ A)).Nodup := hnd
        have hvne : v ≠ pageNum := by
          intro e; exact hnotin (by rw [hpn, e]; simp)
        have hv : v ∉ B1 ++ A := (List.nodup_cons.1 hnd2).1
        have hlog : loadLog s s2 pageNum log = B1 ++ A ++ [pageNum] := by
          simp only [loadLog, hnr, Bool.false_eq_true, if_false, hlogAB]
          rw [List.cons_append, List.filter_cons_of_neg, filter_keep_all]
          · intro q hq
            rw [resident_iff_mem hlen2, hpn2]
            rcases List.mem_append.1 hq with h1 | h1
            · simp [h1]
            · simp [h1]
          · rw [Bool.not_eq_true]
            cases hr : resident s2 v with
            | false => rfl
            | true =>
              rw [resident_iff_mem hlen2, hpn2] at hr
              exfalso
              rcases List.mem_append.1 hr with h1 | h1
              · exact hv (List.mem_append_right _ h1)
              · rcases List.mem_cons.1 h1 with h2 | h2
                · exact hvne h2
                · exact hv (List.mem_append_left _ h2)
        have hnotlog : pageNum ∉ B1 ++ A := by
          intro hmem
          apply hnotin
          rw [hpn]
          rcases List.mem_append.1 hmem with h1 | h1
          · simp [h1]
          · simp [h1]
        have hfr0 : 0 ≤ s.bmi.front + 1 := by have := h.shaped.front_range; omega
        have hfrange := tmod_range hfr0 hcap
        refine ⟨s2, hpu, ?_⟩
        rw [hlog]
        exact {
          shaped := shaped_of_set (k := A.length) h.shaped h.fifo hsame hfr
            (by rw [hfront]; exact hfrange)
            (by rw [hrear]; have := h.shaped.front_range; omega)
          fifo := by rw [hsame.strategy]; exact h.fifo
          ensureFault := by rw [hsame.ensureFault]; exact h.ensureFault
          readFault := by rw [hsame.readFault]; exact h.readFault
          clean := clean_of_set h.clean hfr ⟨hg0, hgd⟩
          count := by
            rw [hcnt, hfc, hcapAB]
            simp
            omega
          nonneg := by
            intro q hq
            rcases List.mem_append.1 hq with h1 | h1
            · exact h.nonneg q (by rw [hlogAB]; exact List.mem_cons_of_mem _ h1)
            · simp at h1; omega
          nodup := by
            rw [List.nodup_append]
            refine ⟨(List.nodup_cons.1 hnd2).2, List.nodup_singleton _, ?_⟩
            intro a ha hb
            simp at hb
            exact hnotlog (hb ▸ ha)
          layout := by
            right
            rw [hfront, hrear, hsame.capacity, hpn2, hfA]
            by_cases hB1 : B1 = []
            · subst hB1
              have hz : ((A.length : Int) + 1).tmod s.bmi.capacity = 0 := by
                rw [hcapAB]; simp [Int.tmod_self]
              refine ⟨[], A ++ [pageNum], by simp, by simp, by simp, by simp [hz], ?_⟩
              rw [hz, if_pos rfl, hcapAB]
              simp
            · have hB1len : 0 < B1.length := List.length_pos.2 hB1
              have hz : ((A.length : Int) + 1).tmod s.bmi.capacity = (A.length : Int) + 1 :=
                tmod_small (by omega) (by omega)
              refine ⟨A ++ [pageNum], B1, by simp, by simp, hB1, by simp [hz], ?_⟩
              rw [hz, if_neg (by omega)]
              omega }

theorem fifoOrdered_init {mem : Ptr → Buffer} {st : PageStore} {name : String} {n : Int}
    {s0 : World}
    (hinit : initBufferPool mem (some st) (some name) n RS_FIFO = (RC_OK, some s0)) :
    FifoOrdered st s0 [] := by
  unfold initBufferPool at hinit
  simp only at hinit
  split at hinit
  · cases hinit
  · rename_i hn
    cases hinit
    have hpos : 0 < n := by omega
    exact {
      shaped := {
        attached := by simp
        capacity_pos := hpos
        numPages_eq := rfl
        frames_length := by simp [initFrames]
        arr_length := by intro h; cases h
        front_range := ⟨le_refl _, hpos⟩
        rear_range := ⟨le_refl _, by show (-1 : Int) < n; omega⟩ }
      fifo := rfl
      ensureFault := rfl
      readFault := rfl
      clean := by
        intro f hf
        simp only [initFrames, List.mem_map] at hf
        obtain ⟨i, -, rfl⟩ := hf
        exact ⟨rfl, rfl⟩
      count := rfl
      nonneg := by intro q hq; cases hq
      nodup := List.nodup_nil
      layout := by
        left
        refine ⟨rfl, rfl, hpos, ?_⟩
        simp only [pageNums, initFrames, List.map_map, List.length_nil, Nat.sub_zero,
          List.nil_append]
        apply List.ext_getElem?
        intro j
        by_cases hj : j < n.toNat
        · simp [hj, List.getElem?_replicate]
        · simp [hj, List.getElem?_replicate]
          omega }

theorem fifoOrdered_run {st : PageStore} (rounds : List (BM_PageHandle × Int)) :
    ∀ (s : World) (log : List Int), FifoOrdered st s log →
      (∀ r ∈ rounds, 0 ≤ r.2 ∧ ReadSucceeds st r.2) →
      ∃ s1 log1, pinUnpinAll s log rounds = some (s1, log1) ∧ FifoOrdered st s1 log1 := by
  induction rounds with
  | nil => intro s log h _; exact ⟨s, log, rfl, h⟩
  | cons r rest ih =>
    intro s log h hr
    obtain ⟨hp, hread⟩ := hr r (List.mem_cons_self _ _)
    obtain ⟨s2, hpu, h2⟩ := fifoOrdered_step r.1 h hp hread
    obtain ⟨s1, log1, hrun, h1⟩ := ih s2 _ h2 (fun x hx => hr x (List.mem_cons_of_mem _ hx))
    exact ⟨s1, log1, by simp only [pinUnpinAll, hpu, hrun], h1⟩

theorem fifoOrdered_log_iff {st : PageStore} {s : World} {log : List Int}
    (h : FifoOrdered st s log) (q : Int) :
    q ∈ log ↔ (resident s q = true ∧ q ≠ NO_PAGE) := by
  rw [resident_iff_mem h.shaped.frames_length]
  have hne : q ∈ log → q ≠ NO_PAGE := by
    intro hq e
    have := h.nonneg q hq
    rw [e] at this
    exact absurd this (by decide)
  rcases h.layout with ⟨-, -, -, hpn⟩ | ⟨A, B, hpn, hlog, -, -, -⟩
  · rw [hpn]
    constructor
    · intro hq
      exact ⟨List.mem_append_left _ hq, hne hq⟩
    · rintro ⟨hq, hq1⟩
      rcases List.mem_append.1 hq with h1 | h1
      · exact h1
      · exact absurd (List.eq_of_mem_replicate h1) hq1
  · rw [hpn, hlog]
    constructor
    · intro hq
      refine ⟨?_, hne (hlog ▸ hq)⟩
      rcases List.mem_append.1 hq with h1 | h1
      · exact List.mem_append_right _ h1
      · exact List.mem_append_left _ h1
    · rintro ⟨hq, -⟩
      rcases List.mem_append.1 hq with h1 | h1
      · exact List.mem_append_right _ h1
      · exact List.mem_append_left _ h1

theorem fifoOrdered_evict {st : PageStore} {s : World} {log : List Int} {pageNum : Int}
    (page : BM_PageHandle) (h : FifoOrdered st s log) (hp : 0 ≤ pageNum)
    (hread : ReadSucceeds st pageNum) (hfull : isFull s = true)
    (hmiss : resident s pageNum = false) :
    ∃ (victim : Int) (rest : List Int) (page1 : BM_PageHandle) (s1 : World),
      log = victim :: rest ∧ pinPage s page pageNum = some (RC_OK, page1, s1) ∧
      resident s1 victim = false ∧ resident s1 pageNum = true ∧
      ∀ q ∈ rest, resident s1 q = true := by
  have hread1 : ReadSucceeds s.store pageNum := by
    unfold ReadSucceeds
    rw [h.ensureFault, h.readFault]
    exact hread
  have hlen := h.shaped.frames_length
  have hres : searchPageFromBuffer s pageNum = none := by
    cases hs : searchPageFromBuffer s pageNum with
    | none => rfl
    | some i => simp [resident, hs] at hmiss
  have hnotin : pageNum ∉ pageNums s := by
    intro hmem
    rw [(resident_iff_mem hlen pageNum).2 hmem] at hmiss
    cases hmiss
  have hfc : s.bmi.frameCnt = s.bmi.capacity := by simpa [isFull] using hfull
  obtain ⟨s1, s2, g, page1, hpin, hfr1, hcap1, -, -, -, -, -, -, hgp, -, -⟩ :=
    round_miss_full page h.shaped h.fifo h.clean hp hres hfull hread1
  rcases h.layout with ⟨-, -, hlt, -⟩ | ⟨A, B, hpn, hlogAB, hB, hfA, -⟩
  · rw [← h.count] at hlt; omega
  · obtain ⟨v, B1, rfl⟩ : ∃ v B1, B = v :: B1 := by
      cases B with
      | nil => exact absurd rfl hB
      | cons v B1 => exact ⟨v, B1, rfl⟩
    rw [hfA, Int.toNat_ofNat] at hfr1
    have hpn1 : pageNums s1 = A ++ pageNum :: B1 := by
      rw [pageNums_set hfr1, hpn]
      show (A ++ v :: B1).set A.length g.pageNum = _
      rw [hgp, set_append_cons]
    have hlen1 : s1.bm.mgmtData.length = s1.bmi.capacity.toNat := by
      rw [hfr1, List.length_set, hcap1]; exact hlen
    have hnd : (v :: (B1 ++ A)).Nodup := by
      have := h.nodup
      rw [hlogAB] at this
      exact this
    have hvne : v ≠ pageNum := by
      intro e; exact hnotin (by rw [hpn, e]; simp)
    have hv : v ∉ B1 ++ A := (List.nodup_cons.1 hnd).1
    refine ⟨v, B1 ++ A, page1, s1, hlogAB, hpin, ?_, ?_, ?_⟩
    · cases hr : resident s1 v with
      | false => rfl
      | true =>
        rw [resident_iff_mem hlen1, hpn1] at hr
        exfalso
        rcases List.mem_append.1 hr with h1 | h1
        · exact hv (List.mem_append_right _ h1)
        · rcases List.mem_cons.1 h1 with h2 | h2
          · exact hvne h2
          · exact hv (List.mem_append_left _ h2)
    · rw [resident_iff_mem hlen1, hpn1]; simp
    · intro q hq
      rw [resident_iff_mem hlen1, hpn1]
      rcases List.mem_append.1 hq with h1 | h1
      · simp [h1]
      · simp [h1]

/-! ## LRU on a pool of pinned frames; the write-back of unpinPage -/

/-- With every frame pinned, `removePageWithLRU` returns `NULL` and changes
nothing. -/
theorem removePageWithLRU_all_pinned (s : World) (page : BM_PageHandle) (least : Int)
    (hpinned : ∀ f ∈ s.bm.mgmtData, 0 < f.pinCount) :
    removePageWithLRU s page least = (none, s) := by
  have hc := countUnpinned_eq_zero s hpinned
  unfold removePageWithLRU
  split
  · rfl
  · simp [hc]

/-- Under LRU, on a full pool in which every frame is pinned, `pinPage` of a
page that is not resident never returns `RC_NO_FREE_PIN_PAGE`: it returns
`RC_READ_NON_EXISTING_PAGE` when `ensureCapacity` fails and otherwise reads
through the `NULL` frame. -/
theorem pinPageWithLRU_all_pinned (s : World) (page : BM_PageHandle) (pageNum least : Int)
    (hfile : s.bm.pageFile ≠ none) (hstrat : s.bm.strategy = RS_LRU)
    (hp : 0 ≤ pageNum) (hmiss : searchPageFromBuffer s pageNum = none)
    (hfull : isFull s = true) (hhead : s.bmi.arr[0]? = some least)
    (hpinned : ∀ f ∈ s.bm.mgmtData, 0 < f.pinCount) :
    pinPage s page pageNum =
      match ensureCapacity (pageNum + 1) s.store with
      | none => some (RC_READ_NON_EXISTING_PAGE, page, s)
      | some _ => none := by
  have hneg : ¬ pageNum < 0 := by omega
  rw [pinPage_eq_LRU page hfile hstrat hp]
  simp only [pinPageWithLRU, hneg, hmiss, hfull, hhead, if_false, if_true,
    removePageWithLRU_all_pinned s page least hpinned]

/-- `unpinPage` never counts a write, whether or not it wrote the frame out. -/
theorem unpinPage_numWrite (s : World) (page : BM_PageHandle) :
    (unpinPage s page).2.bmi.numWrite = s.bmi.numWrite := by
  unfold unpinPage
  split
  · rfl
  · split
    · rfl
    · dsimp only
      split
      · rw [forcePage_bmi]
        split <;> rfl
      · split <;> rfl

/-- `unpinPage` never changes a dirty bit, whether or not it wrote the frame
out. -/
theorem unpinPage_dirtyBits (s : World) (page : BM_PageHandle) :
    (unpinPage s page).2.bm.mgmtData.map (fun f => f.dirtyBit)
      = s.bm.mgmtData.map (fun f => f.dirtyBit) := by
  have hset : ∀ (i : Nat) (f : Frame), s.bm.mgmtData[i]? = some f →
      (s.bm.mgmtData.set i { f with pinCount := wrapInt (f.pinCount - 1) }).map
        (fun f => f.dirtyBit)
        = s.bm.mgmtData.map (fun f => f.dirtyBit) := by
    intro i f hf
    rw [List.map_set]
    apply set_getElem?_self
    rw [List.getElem?_map, hf]
    rfl
  unfold unpinPage
  split
  · rfl
  · split
    · rfl
    · rename_i f hf
      dsimp only
      split
      · rw [forcePage_bm]
        split
        · exact hset _ f hf
        · exact hset _ f hf
      · split
        · exact hset _ f hf
        · exact hset _ f hf

/-! ## forceFlushPool, frame by frame -/

theorem writeSucceeds_store {st : PageStore} {p : Int} (buf : Buffer) (h : WriteSucceeds st p) :
    ∃ st2, writeBlock p buf ((ensureCapacity (p + 1) st).getD st) = some st2 ∧
      st2.blocks[p.toNat]? = some buf ∧
      st2.ensureFault = st.ensureFault ∧ st2.writeFault = st.writeFault ∧
      st2.readFault = st.readFault ∧
      st.blocks.length ≤ st2.blocks.length ∧
      ∀ q : Nat, q < st.blocks.length → q ≠ p.toNat → st2.blocks[q]? = st.blocks[q]? := by
  obtain ⟨h0, h1, h2⟩ := h
  have hneg : ¬ p < 0 := by omega
  have hlen : p.toNat < (st.blocks ++
      List.replicate ((p + 1).toNat - st.blocks.length) zeroPage).length := by
    simp only [List.length_append, List.length_replicate]
    omega
  refine ⟨{ st with blocks := (st.blocks ++
      List.replicate ((p + 1).toNat - st.blocks.length) zeroPage).set p.toNat buf }, ?_, ?_,
    rfl, rfl, rfl, ?_, ?_⟩
  · simp only [ensureCapacity, h1, Bool.false_eq_true, if_false, Option.getD_some, writeBlock,
      hneg, h2, false_or]
    rw [if_neg (by omega)]
  · exact List.getElem?_set_self hlen
  · simp only [List.length_set, List.length_append]
    omega
  · intro q hq hne
    show ((st.blocks ++ _).set p.toNat buf)[q]? = _
    rw [List.getElem?_set_ne (fun h => hne h.symm), List.getElem?_append_left hq]

theorem flushFrames_frames (rest : List Frame) :
    ∀ (s : World) (i : Nat) (pre tail : List Frame),
      s.bm.mgmtData = pre ++ rest ++ tail → pre.length = i →
      (flushFrames s i rest).bm.mgmtData = pre ++ rest.map cleared ++ tail := by
  induction rest with
  | nil => intro s i pre tail h _; simpa [flushFrames] using h
  | cons frame rest ih =>
    intro s i pre tail h hi
    unfold flushFrames
    split
    · rename_i hc
      have hcl : cleared frame = { frame with dirtyBit := 0 } := by
        simp [cleared, needsFlush, hc]
      rw [ih _ (i + 1) (pre ++ [cleared frame]) tail]
      · simp
      · simp only [World.setFrame, h, hcl]
        rw [List.append_assoc, List.cons_append, ← hi, set_append_cons]
        simp
      · simp [hi]
    · rename_i hc
      have hcl : cleared frame = frame := by
        simp only [cleared, needsFlush, hc, decide_False, Bool.false_eq_true, if_false]
      rw [ih s (i + 1) (pre ++ [cleared frame]) tail]
      · simp
      · rw [h, hcl]; simp
      · simp [hi]

theorem flushFrames_cons_pos (s : World) (i : Nat) (frame : Frame) (rest : List Frame)
    (h : frame.pinCount = 0 ∧ frame.dirtyBit = 1) :
    flushFrames s i (frame :: rest) =
      flushFrames
        { bm := { s.bm with mgmtData := s.bm.mgmtData.set i { frame with dirtyBit := 0 } }
          bmi := { s.bmi with numWrite := wrapInt (s.bmi.numWrite + 1) }
          mem := s.mem
          store := (writeBlock frame.pageNum (s.mem frame.data)
              ((ensureCapacity (frame.pageNum + 1) s.store).getD s.store)).getD
            ((ensureCapacity (frame.pageNum + 1) s.store).getD s.store) }
        (i + 1) rest := by
  simp only [flushFrames, h, and_self, if_true]
  rfl

theorem flushFrames_cons_neg (s : World) (i : Nat) (frame : Frame) (rest : List Frame)
    (h : ¬ (frame.pinCount = 0 ∧ frame.dirtyBit = 1)) :
    flushFrames s i (frame :: rest) = flushFrames s (i + 1) rest := by
  simp only [flushFrames, h, if_false]

theorem flushFrames_numWrite (rest : List Frame) :
    ∀ (s : World) (i : Nat), INT_MIN ≤ s.bmi.numWrite →
      s.bmi.numWrite + (rest.countP needsFlush : Nat) ≤ INT_MAX →
      (flushFrames s i rest).bmi.numWrite = s.bmi.numWrite + (rest.countP needsFlush : Nat) := by
  induction rest with
  | nil => intro s i _ _; simp [flushFrames]
  | cons frame rest ih =>
    intro s i hlow hhigh
    by_cases hc : frame.pinCount = 0 ∧ frame.dirtyBit = 1
    · have hnf : needsFlush frame = true := by simp [needsFlush, hc]
      rw [List.countP_cons_of_pos _ _ hnf] at hhigh ⊢
      push_cast at hhigh ⊢
      have hw : wrapInt (s.bmi.numWrite + 1) = s.bmi.numWrite + 1 :=
        wrapInt_of_range (by omega) (by omega)
      rw [flushFrames_cons_pos s i frame rest hc, ih _ (i + 1)]
      · show wrapInt (s.bmi.numWrite + 1) + _ = _
        rw [hw]
        omega
      · show INT_MIN ≤ wrapInt (s.bmi.numWrite + 1)
        rw [hw]
        omega
      · show wrapInt (s.bmi.numWrite + 1) + _ ≤ INT_MAX
        rw [hw]
        omega
    · have hnf : ¬ needsFlush frame = true := by simp [needsFlush, hc]
      rw [List.countP_cons_of_neg _ _ hnf] at hhigh ⊢
      rw [flushFrames_cons_neg s i frame rest hc]
      exact ih s (i + 1) hlow hhigh

theorem flushFrames_mem (rest : List Frame) :
    ∀ (s : World) (i : Nat), (flushFrames s i rest).mem = s.mem := by
  induction rest with
  | nil => intro s i; rfl
  | cons frame rest ih =>
    intro s i
    unfold flushFrames
    split
    · rw [ih]; rfl
    · rw [ih]

theorem flushFrames_store (rest : List Frame) :
    ∀ (s : World) (i : Nat),
      (∀ f ∈ rest, needsFlush f = true → WriteSucceeds s.store f.pageNum) →
      rest.Pairwise (fun f g => needsFlush f = true → needsFlush g = true →
        f.pageNum ≠ g.pageNum) →
      (∀ f ∈ rest, needsFlush f = true →
        (flushFrames s i rest).store.blocks[f.pageNum.toNat]? = some (s.mem f.data)) ∧
      (flushFrames s i rest).store.ensureFault = s.store.ensureFault ∧
      (flushFrames s i rest).store.writeFault = s.store.writeFault ∧
      (flushFrames s i rest).store.readFault = s.store.readFault ∧
      s.store.blocks.length ≤ (flushFrames s i rest).store.blocks.length ∧
      ∀ q : Nat, q < s.store.blocks.length →
        (∀ f ∈ rest, needsFlush f = true → f.pageNum.toNat ≠ q) →
        (flushFrames s i rest).store.blocks[q]? = s.store.blocks[q]? := by
  induction rest with
  | nil =>
    intro s i _ _
    exact ⟨fun f hf => absurd hf (List.not_mem_nil f), rfl, rfl, rfl, le_refl _,
      fun _ _ _ => rfl⟩
  | cons frame rest ih =>
    intro s i hw hd
    obtain ⟨hd1, hd2⟩ := List.pairwise_cons.1 hd
    by_cases hc : frame.pinCount = 0 ∧ frame.dirtyBit = 1
    · have hnf : needsFlush frame = true := by simp [needsFlush, hc]
      have hws := hw frame (List.mem_cons_self _ _) hnf
      obtain ⟨st2, hst2, hblk, he, hwf, hrf, hlen, hkeep⟩ :=
        writeSucceeds_store (s.mem frame.data) hws
      rw [flushFrames_cons_pos s i frame rest hc, hst2, Option.getD_some]
      obtain ⟨g1, g2, g3, g4, g5, g6⟩ := ih
        { bm := { s.bm with mgmtData := s.bm.mgmtData.set i { frame with dirtyBit := 0 } }
          bmi := { s.bmi with numWrite := wrapInt (s.bmi.numWrite + 1) }
          mem := s.mem
          store := st2 } (i + 1)
        (fun f hf hn => by
          obtain ⟨a, b, c⟩ := hw f (List.mem_cons_of_mem _ hf) hn
          exact ⟨a, by show st2.ensureFault _ = false; rw [he]; exact b,
            by show st2.writeFault _ = false; rw [hwf]; exact c⟩) hd2
      have hplt : frame.pageNum.toNat < st2.blocks.length := by
        rcases Nat.lt_or_ge frame.pageNum.toNat st2.blocks.length with h | h
        · exact h
        · rw [List.getElem?_eq_none h] at hblk; cases hblk
      refine ⟨?_, g2.trans he, g3.trans hwf, g4.trans hrf, le_trans hlen g5, ?_⟩
      · intro f hf hn
        rcases List.mem_cons.1 hf with h1 | h1
        · subst h1
          rw [g6 f.pageNum.toNat hplt]
          · exact hblk
          · intro g hg hgn heq
            have hg0 := (hw g (List.mem_cons_of_mem _ hg) hgn).1
            have hf0 := hws.1
            exact hd1 g hg hnf hgn (by omega)
        · exact g1 f h1 hn
      · intro q hq hnot
        rw [g6 q (by show q < st2.blocks.length; omega)
          (fun f hf hn => hnot f (List.mem_cons_of_mem _ hf) hn)]
        exact hkeep q hq (fun h => hnot frame (List.mem_cons_self _ _) hnf h.symm)
    · have hnf : ¬ needsFlush frame = true := by simp [needsFlush, hc]
      rw [flushFrames_cons_neg s i frame rest hc]
      obtain ⟨g1, g2, g3, g4, g5, g6⟩ :=
        ih s (i + 1) (fun f hf hn => hw f (List.mem_cons_of_mem _ hf) hn) hd2
      refine ⟨?_, g2, g3, g4, g5, ?_⟩
      · intro f hf hn
        rcases List.mem_cons.1 hf with h1 | h1
        · subst h1; exact absurd hn hnf
        · exact g1 f h1 hn
      · intro q hq hnot
        exact g6 q hq (fun f hf hn => hnot f (List.mem_cons_of_mem _ hf) hn)

/-! ## What each call keeps and changes -/

theorem getD_ensure_faults (n : Int) (st : PageStore) :
    ((ensureCapacity n st).getD st).ensureFault = st.ensureFault ∧
    ((ensureCapacity n st).getD st).readFault = st.readFault ∧
    ((ensureCapacity n st).getD st).writeFault = st.writeFault := by
  unfold ensureCapacity
  split <;> exact ⟨rfl, rfl, rfl⟩

theorem ensure_faults {n : Int} {st st1 : PageStore} (h : ensureCapacity n st = some st1) :
    st1.ensureFault = st.ensureFault ∧ st1.readFault = st.readFault ∧
    st1.writeFault = st.writeFault := by
  have := getD_ensure_faults n st
  rw [h] at this
  exact this

theorem getD_write_faults (n : Int) (b : Buffer) (st : PageStore) :
    ((writeBlock n b st).getD st).ensureFault = st.ensureFault ∧
    ((writeBlock n b st).getD st).readFault = st.readFault ∧
    ((writeBlock n b st).getD st).writeFault = st.writeFault := by
  unfold writeBlock
  split <;> exact ⟨rfl, rfl, rfl⟩

theorem kept_refl (s : World) : Kept s s :=
  ⟨rfl, rfl, rfl, rfl, rfl, rfl, rfl, rfl, rfl, rfl, rfl⟩

theorem kept_trans {s s1 s2 : World} (h1 : Kept s s1) (h2 : Kept s1 s2) : Kept s s2 :=
  ⟨h2.pageFile.trans h1.pageFile, h2.numPages.trans h1.numPages,
    h2.strategy.trans h1.strategy, h2.pageNums.trans h1.pageNums, h2.front.trans h1.front,
    h2.rear.trans h1.rear, h2.frameCnt.trans h1.frameCnt, h2.capacity.trans h1.capacity,
    h2.ensureFault.trans h1.ensureFault, h2.readFault.trans h1.readFault,
    h2.writeFault.trans h1.writeFault⟩

theorem kept_setFrame {s : World} {i : Nat} {f g : Frame} (hf : s.bm.mgmtData[i]? = some f)
    (hg : g.pageNum = f.pageNum) : Kept s (s.setFrame i g) := by
  refine ⟨rfl, rfl, rfl, ?_, rfl, rfl, rfl, rfl, rfl, rfl, rfl⟩
  rw [pageNums_set (s := s) (k := i) (g := g) rfl, hg]
  unfold pageNums
  apply set_getElem?_self
  rw [List.getElem?_map, hf]
  rfl

theorem forcePage_kept (s : World) (page : BM_PageHandle) : Kept s (forcePage s page).2 := by
  obtain ⟨h1, h2, h3⟩ := forcePage_faults s page
  have hbm := forcePage_bm s page
  have hbmi := forcePage_bmi s page
  exact ⟨by rw [hbm], by rw [hbm], by rw [hbm], by unfold pageNums; rw [hbm], by rw [hbmi],
    by rw [hbmi], by rw [hbmi], by rw [hbmi], h1, h2, h3⟩

theorem markDirty_kept (s : World) (page : BM_PageHandle) : Kept s (markDirty s page).2 := by
  unfold markDirty
  split
  · exact kept_refl s
  · split
    · exact kept_refl s
    · rename_i frame hfr
      exact kept_setFrame hfr rfl

theorem unpinPage_kept (s : World) (page : BM_PageHandle) : Kept s (unpinPage s page).2 := by
  unfold unpinPage
  split
  · exact kept_refl s
  · rename_i i hi
    split
    · exact kept_refl s
    · rename_i frame hfr
      have h1 : Kept s (s.setFrame i { frame with pinCount := wrapInt (frame.pinCount - 1) }) :=
        kept_setFrame hfr rfl
      dsimp only
      have h2 : ∀ s2 : World, Kept s s2 →
          Kept s (if wrapInt (frame.pinCount - 1) = 0 ∧ frame.dirtyBit = 1
            then (forcePage s2 page).2 else s2) := by
        intro s2 hs2
        split
        · exact kept_trans hs2 (forcePage_kept s2 page)
        · exact hs2
      apply h2
      split
      · exact kept_trans h1 ⟨rfl, rfl, rfl, rfl, rfl, rfl, rfl, rfl, rfl, rfl, rfl⟩
      · exact h1

theorem flushFrames_kept (rest : List Frame) :
    ∀ (s : World) (i : Nat) (pre tail : List Frame),
      s.bm.mgmtData = pre ++ rest ++ tail → pre.length = i → Kept s (flushFrames s i rest) := by
  induction rest with
  | nil => intro s i _ _ _ _; exact kept_refl s
  | cons frame rest ih =>
    intro s i pre tail hfr hlen
    by_cases hc : frame.pinCount = 0 ∧ frame.dirtyBit = 1
    · rw [flushFrames_cons_pos s i frame rest hc]
      have hi : s.bm.mgmtData[i]? = some frame := by
        rw [hfr, ← hlen, List.append_assoc, List.getElem?_append_right (le_refl _),
          Nat.sub_self]
        simp
      have hset : s.bm.mgmtData.set i { frame with dirtyBit := 0 }
          = (pre ++ [{ frame with dirtyBit := 0 }]) ++ rest ++ tail := by
        rw [hfr, ← hlen]
        simp
      obtain ⟨e1, e2, e3⟩ := getD_ensure_faults (frame.pageNum + 1) s.store
      obtain ⟨w1, w2, w3⟩ := getD_write_faults frame.pageNum (s.mem frame.data)
        ((ensureCapacity (frame.pageNum + 1) s.store).getD s.store)
      have hk := kept_setFrame (g := { frame with dirtyBit := 0 }) hi rfl
      refine kept_trans ?_ (ih _ (i + 1) (pre ++ [{ frame with dirtyBit := 0 }]) tail hset
        (by simp [hlen]))
      exact ⟨rfl, rfl, rfl, hk.pageNums, rfl, rfl, rfl, rfl, w1.trans e1, w2.trans e2,
        w3.trans e3⟩
    · rw [flushFrames_cons_neg s i frame rest hc]
      exact ih s (i + 1) (pre ++ [frame]) tail (by simp [hfr]) (by simp [hlen])

theorem forceFlushPool_kept (s : World) : Kept s (forceFlushPool s).2 := by
  unfold forceFlushPool
  split
  · exact kept_refl s
  · exact flushFrames_kept _ s 0 [] (s.bm.mgmtData.drop s.bm.numPages.toNat) (by simp) rfl

theorem writeBack_fields (s : World) (page : BM_PageHandle) (c : Prop) [Decidable c]
    (sv : World)
    (hsv : sv = (if c then
        { (forcePage s page).2 with
          bmi := { (forcePage s page).2.bmi with
            numWrite := wrapInt ((forcePage s page).2.bmi.numWrite + 1) } }
      else s)) :
    sv.bm = s.bm ∧ sv.mem = s.mem ∧
    (sv.bmi.front = s.bmi.front ∧ sv.bmi.rear = s.bmi.rear ∧
      sv.bmi.frameCnt = s.bmi.frameCnt ∧ sv.bmi.capacity = s.bmi.capacity ∧
      sv.bmi.numRead = s.bmi.numRead ∧ sv.bmi.arr = s.bmi.arr) ∧
    (sv.store.ensureFault = s.store.ensureFault ∧ sv.store.readFault = s.store.readFault ∧
      sv.store.writeFault = s.store.writeFault) := by
  subst hsv
  split
  · refine ⟨forcePage_bm s page, forcePage_mem s page, ?_, forcePage_faults s page⟩
    simp [forcePage_bmi]
  · exact ⟨rfl, rfl, ⟨rfl, rfl, rfl, rfl, rfl, rfl⟩, rfl, rfl, rfl⟩

theorem frameAt_getElem? {frames : List Frame} {i : Int} {f : Frame}
    (h : frameAt frames i = some f) :
    0 ≤ i ∧ i.toNat < frames.length ∧ frames[i.toNat]? = some f := by
  unfold frameAt at h
  split at h
  · cases h
  · exact ⟨by omega, getElem?_lt h, h⟩

theorem removePageWithFIFO_step {s s1 : World} {page : BM_PageHandle} {rc : RC}
    (hr : removePageWithFIFO s page = some (rc, s1)) :
    (rc ≠ RC_OK ∧ s1 = s) ∨
    (rc = RC_OK ∧ s.bmi.frameCnt ≠ 0 ∧ countUnpinned s ≠ 0 ∧
      ∃ (v : Int) (fv : Frame),
        skipPinned s.bm.mgmtData s.bmi.capacity s.bmi.capacity.toNat s.bmi.front = some v ∧
        frameAt s.bm.mgmtData v = some fv ∧
        s1.bm.mgmtData = s.bm.mgmtData.set v.toNat
          { fv with pageNum := NO_PAGE, pinCount := 0, dirtyBit := 0 } ∧
        s1.bm.pageFile = s.bm.pageFile ∧ s1.bm.numPages = s.bm.numPages ∧
        s1.bm.strategy = s.bm.strategy ∧
        s1.bmi.front = (v + 1).tmod s.bmi.capacity ∧
        s1.bmi.rear = (if v = 0 then s.bmi.capacity - 1 else v - 1) ∧
        s1.bmi.frameCnt = s.bmi.frameCnt - 1 ∧
        s1.bmi.capacity = s.bmi.capacity ∧ s1.bmi.numRead = s.bmi.numRead ∧
        s1.mem = s.mem ∧
        s1.store.ensureFault = s.store.ensureFault ∧
        s1.store.readFault = s.store.readFault ∧
        s1.store.writeFault = s.store.writeFault) := by
  unfold removePageWithFIFO at hr
  split at hr
  · cases hr; exact Or.inl ⟨by decide, rfl⟩
  · rename_i hne
    split at hr
    · cases hr; exact Or.inl ⟨by decide, rfl⟩
    · rename_i hcnt
      split at hr
      · cases hr
      · rename_i v hskip
        split at hr
        · cases hr
        · rename_i fv hfv
          cases hr
          obtain ⟨hbm, hmem, ⟨h1, h2, h3, h4, h5, -⟩, hf1, hf2, hf3⟩ :=
            writeBack_fields
              ({ s with bmi := { s.bmi with
                  front := v,
                  rear := if v = 0 then s.bmi.capacity - 1 else v - 1 } } : World)
              page (fv.pinCount = 0 ∧ fv.dirtyBit = 1) _ rfl
          refine Or.inr ⟨rfl, ?_, hcnt, v, fv, hskip, hfv, ?_, ?_, ?_, ?_, ?_, ?_, ?_, ?_, ?_,
            hmem, hf1, hf2, hf3⟩
          · simpa [isEmpty] using hne
          · simp only [World.setFrame]
            rw [hbm]
          · simp only [World.setFrame]
            rw [hbm]
          · simp only [World.setFrame]
            rw [hbm]
          · simp only [World.setFrame]
            rw [hbm]
          · simp only [World.setFrame]
            rw [h1, h4]
          · exact h2
          · simp only [World.setFrame]
            rw [h3]
          · exact h4
          · exact h5

theorem pinStep_refl (p : Int) (s : World) : PinStep p s s :=
  ⟨⟨rfl, rfl, rfl, rfl, rfl, rfl⟩, ⟨_, Or.inl rfl, Or.inl rfl⟩, Or.inl rfl⟩

theorem sameSetup_trans {s s1 s2 : World} (h1 : SameSetup s s1) (h2 : SameSetup s1 s2) :
    SameSetup s s2 :=
  ⟨h2.pageFile.trans h1.pageFile, h2.numPages.trans h1.numPages,
    h2.strategy.trans h1.strategy, h2.capacity.trans h1.capacity,
    h2.ensureFault.trans h1.ensureFault, h2.readFault.trans h1.readFault⟩

theorem pinStep_stop {p : Int} {s s2 s1 : World} (h : s2 = s ∨ Removed s s2)
    (hsetup : SameSetup s2 s1) (hfr : s1.bm.mgmtData = s2.bm.mgmtData)
    (hcnt : s1.bmi.frameCnt = s2.bmi.frameCnt) : PinStep p s s1 := by
  rcases h with h | h
  · subst h
    exact ⟨hsetup, ⟨_, Or.inl rfl, Or.inl hfr⟩, Or.inl hcnt⟩
  · obtain ⟨i, f, hf, hset⟩ := h.frames
    exact ⟨sameSetup_trans h.setup hsetup,
      ⟨_, Or.inr ⟨i, f, hf, rfl⟩, Or.inl (hfr.trans hset)⟩,
      Or.inr (Or.inr ⟨h.full, h.nonempty, hcnt.trans h.count⟩)⟩

theorem pinStep_load {p : Int} {s s2 s1 : World} {k : Nat} {f : Frame}
    (h : (s2 = s ∧ s.bmi.frameCnt ≠ s.bmi.capacity) ∨ Removed s s2)
    (hp : 0 ≤ p) (hmiss : ∀ g ∈ s.bm.mgmtData, g.pageNum ≠ p)
    (hsetup : SameSetup s2 s1) (hf : s2.bm.mgmtData[k]? = some f)
    (hfr : s1.bm.mgmtData = s2.bm.mgmtData.set k
      { f with pageNum := p, pinCount := 1, dirtyBit := 0 })
    (hcnt : s1.bmi.frameCnt = s2.bmi.frameCnt + 1) : PinStep p s s1 := by
  rcases h with ⟨h, hroom⟩ | h
  · subst h
    exact ⟨hsetup, ⟨_, Or.inl rfl, Or.inr (Or.inr ⟨k, f, hp, hmiss, hf, hfr⟩)⟩,
      Or.inr (Or.inl ⟨hroom, hcnt⟩)⟩
  · obtain ⟨i, g, hg, hset⟩ := h.frames
    refine ⟨sameSetup_trans h.setup hsetup,
      ⟨_, Or.inr ⟨i, g, hg, rfl⟩,
        Or.inr (Or.inr ⟨k, f, hp, ?_, hset ▸ hf, hset ▸ hfr⟩)⟩,
      Or.inl (by rw [hcnt, h.count]; omega)⟩
    intro x hx
    rcases List.mem_or_eq_of_mem_set hx with h1 | h1
    · exact hmiss x h1
    · rw [h1]
      show NO_PAGE ≠ p
      unfold NO_PAGE
      omega

theorem removePageWithFIFO_removed {s s1 : World} {page : BM_PageHandle} {rc : RC}
    (hfull : isFull s = true) (hr : removePageWithFIFO s page = some (rc, s1)) :
    (rc ≠ RC_OK ∧ s1 = s) ∨ (rc = RC_OK ∧ Removed s s1) := by
  rcases removePageWithFIFO_step hr with h | ⟨h1, h2, -, v, fv, -, hfv, h3, h4, h5, h6, -, -, h7,
    h8, -, -, h9, h10, -⟩
  · exact Or.inl h
  · exact Or.inr ⟨h1, ⟨h4, h5, h6, h8, h9, h10⟩, ⟨_, fv, (frameAt_getElem? hfv).2.2, h3⟩,
      by simpa [isFull] using hfull, h2, h7⟩

theorem pinPageWithFIFO_step {s s1 : World} {page page1 : BM_PageHandle} {p : Int} {rc : RC}
    (hlen : s.bm.mgmtData.length = s.bmi.capacity.toNat)
    (hr : pinPageWithFIFO s page p = some (rc, page1, s1)) : PinStep p s s1 := by
  unfold pinPageWithFIFO at hr
  split at hr
  · cases hr; exact pinStep_refl p s
  · rename_i hp
    split at hr
    · rename_i i hi
      split at hr
      · cases hr
      · rename_i frame hfr
        cases hr
        obtain ⟨f, hf, hfp⟩ := searchPage_some hi
        rw [hfr] at hf
        cases hf
        exact ⟨⟨rfl, rfl, rfl, rfl, rfl, rfl⟩,
          ⟨_, Or.inl rfl, Or.inr (Or.inl ⟨i, frame, by omega, hfr, hfp, rfl⟩)⟩,
          Or.inl rfl⟩
    · rename_i hmiss
      have hnone := searchPage_none_all hlen hmiss
      dsimp only at hr
      split at hr
      · cases hr
      · rename_i rc1 s2 hrem
        have h2 : (rc1 ≠ RC_OK ∧ s2 = s) ∨
            (rc1 = RC_OK ∧
              ((s2 = s ∧ s.bmi.frameCnt ≠ s.bmi.capacity) ∨ Removed s s2)) := by
          split at hrem
          · rename_i hfull
            rcases removePageWithFIFO_removed hfull hrem with h | h
            · exact Or.inl h
            · exact Or.inr ⟨h.1, Or.inr h.2⟩
          · rename_i hroom
            cases hrem
            exact Or.inr ⟨rfl, Or.inl ⟨rfl, by simpa [isFull] using hroom⟩⟩
        split at hr
        · rename_i hrc
          cases hr
          rcases h2 with h | h
          · rw [h.2]; exact pinStep_refl p s
          · exact absurd h.1 hrc
        · rename_i hrc
          have hok : (s2 = s ∧ s.bmi.frameCnt ≠ s.bmi.capacity) ∨ Removed s s2 := by
            rcases h2 with h | h
            · exact absurd h.1 hrc
            · exact h.2
          have hok1 : s2 = s ∨ Removed s s2 := hok.imp (fun h => h.1) id
          split at hr
          · cases hr
          · rename_i frame hframe
            split at hr
            · cases hr
              exact pinStep_stop hok1 ⟨rfl, rfl, rfl, rfl, rfl, rfl⟩ rfl rfl
            · rename_i st1 hens
              obtain ⟨e1, e2, -⟩ := ensure_faults hens
              split at hr
              · cases hr
                exact pinStep_stop hok1 ⟨rfl, rfl, rfl, rfl, e1, e2⟩ rfl rfl
              · cases hr
                exact pinStep_load hok (by omega) hnone ⟨rfl, rfl, rfl, rfl, e1, e2⟩
                  (frameAt_getElem? hframe).2.2 rfl rfl

theorem removePageWithLRU_removed (s : World) (page : BM_PageHandle) (least : Int)
    (hfull : isFull s = true) :
    ((removePageWithLRU s page least).1 = none ∧ (removePageWithLRU s page least).2 = s) ∨
    ((removePageWithLRU s page least).1 ≠ none ∧
      Removed s (removePageWithLRU s page least).2 ∧
      (removePageWithLRU s page least).2.bmi.arr = s.bmi.arr) := by
  unfold removePageWithLRU
  split
  · exact Or.inl ⟨rfl, rfl⟩
  · rename_i hne
    split
    · exact Or.inl ⟨rfl, rfl⟩
    · split
      · exact Or.inl ⟨rfl, rfl⟩
      · rename_i i hi
        split
        · exact Or.inl ⟨rfl, rfl⟩
        · rename_i frame hfr
          obtain ⟨hbm, -, ⟨-, -, h3, h4, -, h6⟩, hf1, hf2, -⟩ :=
            writeBack_fields s page (frame.pinCount = 0 ∧ frame.dirtyBit = 1) _ rfl
          refine Or.inr ⟨by simp, ⟨⟨?_, ?_, ?_, ?_, hf1, hf2⟩, ⟨i, frame, hfr, ?_⟩,
            by simpa [isFull] using hfull, by simpa [isEmpty] using hne, ?_⟩, ?_⟩
          · simp only [World.setFrame]
            rw [hbm]
          · simp only [World.setFrame]
            rw [hbm]
          · simp only [World.setFrame]
            rw [hbm]
          · exact h4
          · simp only [World.setFrame]
            rw [hbm]
          · simp only [World.setFrame]
            rw [h3]
          · exact h6

theorem pinPageWithLRU_step {s s1 : World} {page page1 : BM_PageHandle} {p : Int} {rc : RC}
    (hlen : s.bm.mgmtData.length = s.bmi.capacity.toNat)
    (hr : pinPageWithLRU s page p = some (rc, page1, s1)) : PinStep p s s1 := by
  unfold pinPageWithLRU at hr
  split at hr
  · cases hr; exact pinStep_refl p s
  · rename_i hp
    split at hr
    · rename_i i hi
      split at hr
      · cases hr
      · rename_i frame hfr
        cases hr
        obtain ⟨f, hf, hfp⟩ := searchPage_some hi
        rw [hfr] at hf
        cases hf
        exact ⟨⟨rfl, rfl, rfl, rfl, rfl, rfl⟩,
          ⟨_, Or.inl rfl, Or.inr (Or.inl ⟨i, frame, by omega, hfr, hfp, rfl⟩)⟩,
          Or.inl rfl⟩
    · rename_i hmiss
      have hnone := searchPage_none_all hlen hmiss
      dsimp only at hr
      split at hr
      · rename_i r hch
        split at hch
        · split at hch
          · cases hch; cases hr
          · cases hch
        · split at hch
          · cases hch; cases hr; exact pinStep_refl p s
          · split at hch
            · cases hch
            · cases hch; cases hr
      · rename_i frameOpt frameIndex s2 hch
        have h2 : (frameOpt = none ∧ s2 = s) ∨
            (frameOpt ≠ none ∧
              ((s2 = s ∧ s.bmi.frameCnt ≠ s.bmi.capacity) ∨ Removed s s2)) := by
          split at hch
          · rename_i hfull
            split at hch
            · cases hch
            · rename_i least hleast
              cases hch
              rcases removePageWithLRU_removed s page least hfull with h | h
              · exact Or.inl h
              · exact Or.inr ⟨h.1, Or.inr h.2.1⟩
          · rename_i hroom
            split at hch
            · cases hch
            · split at hch
              · cases hch
                exact Or.inr ⟨by simp, Or.inl ⟨rfl, by simpa [isFull] using hroom⟩⟩
              · cases hch
        have hok1 : s2 = s ∨ Removed s s2 := by
          rcases h2 with h | h
          · exact Or.inl h.2
          · exact h.2.imp (fun h => h.1) id
        split at hr
        · cases hr
          exact pinStep_stop hok1 ⟨rfl, rfl, rfl, rfl, rfl, rfl⟩ rfl rfl
        · rename_i st1 hens
          obtain ⟨e1, e2, -⟩ := ensure_faults hens
          split at hr
          · cases hr
          · rename_i fi
            have hok : (s2 = s ∧ s.bmi.frameCnt ≠ s.bmi.capacity) ∨ Removed s s2 := by
              rcases h2 with h | h
              · exact absurd h.1 (by simp)
              · exact h.2
            split at hr
            · cases hr
            · rename_i frame hframe
              split at hr
              · cases hr
                exact pinStep_stop hok1 ⟨rfl, rfl, rfl, rfl, e1, e2⟩ rfl rfl
              · cases hr
                exact pinStep_load hok (by omega) hnone ⟨rfl, rfl, rfl, rfl, e1, e2⟩
                  hframe rfl rfl

theorem pinPage_step {s s1 : World} {page page1 : BM_PageHandle} {p : Int} {rc : RC}
    (hlen : s.bm.mgmtData.length = s.bmi.capacity.toNat)
    (hr : pinPage s page p = some (rc, page1, s1)) : PinStep p s s1 := by
  unfold pinPage at hr
  split at hr
  · cases hr; exact pinStep_refl p s
  · split at hr
    · cases hr; exact pinStep_refl p s
    · split at hr
      · exact pinPageWithFIFO_step hlen hr
      · split at hr
        · exact pinPageWithLRU_step hlen hr
        · cases hr; exact pinStep_refl p s

/-! ## Invariants of call sequences -/

theorem call_cases {c : Call} {s s1 : World} (h : c.run s = some s1) :
    (∃ (page page1 : BM_PageHandle) (p : Int) (rc : RC),
      c = .pin page p ∧ pinPage s page p = some (rc, page1, s1)) ∨ Kept s s1 := by
  cases c with
  | pin page p =>
    simp only [Call.run, Option.map_eq_some'] at h
    obtain ⟨⟨rc, page1, s3⟩, hpin, rfl⟩ := h
    exact Or.inl ⟨page, page1, p, rc, rfl, hpin⟩
  | unpin page =>
    simp only [Call.run, Option.some.injEq] at h
    subst h
    exact Or.inr (unpinPage_kept s page)
  | dirty page =>
    simp only [Call.run, Option.some.injEq] at h
    subst h
    exact Or.inr (markDirty_kept s page)
  | force page =>
    simp only [Call.run, Option.some.injEq] at h
    subst h
    exact Or.inr (forcePage_kept s page)
  | flush =>
    simp only [Call.run, Option.some.injEq] at h
    subst h
    exact Or.inr (forceFlushPool_kept s)

theorem evicted_length {fs mid : List Frame} (h : Evicted fs mid) : mid.length = fs.length := by
  rcases h with h | ⟨i, f, -, h⟩ <;> simp [h]

theorem admitted_length {p : Int} {mid fs1 : List Frame} (h : Admitted p mid fs1) :
    fs1.length = mid.length := by
  rcases h with h | ⟨i, f, -, -, -, h⟩ | ⟨k, f, -, -, -, h⟩ <;> simp [h]

theorem pinStep_sized {p : Int} {s s1 : World} (h : PinStep p s s1) (hs : Sized s) :
    Sized s1 := by
  obtain ⟨mid, h1, h2⟩ := h.frames
  unfold Sized at *
  rw [admitted_length h2, evicted_length h1, hs, h.setup.capacity]

theorem kept_sized {s s1 : World} (h : Kept s s1) (hs : Sized s) : Sized s1 := by
  unfold Sized at *
  have := congrArg List.length h.pageNums
  simp only [pageNums, List.length_map] at this
  rw [this, hs, h.capacity]

theorem call_sized {c : Call} {s s1 : World} (h : c.run s = some s1) (hs : Sized s) :
    Sized s1 := by
  rcases call_cases h with ⟨page, page1, p, rc, -, hpin⟩ | hk
  · exact pinStep_sized (pinPage_step hs hpin) hs
  · exact kept_sized hk hs

theorem init_fields {mem : Ptr → Buffer} {st : Option PageStore} {name : Option String}
    {n : Int} {strat : ReplacementStrategy} {rc : RC} {s0 : World}
    (h : initBufferPool mem st name n strat = (rc, some s0)) :
    0 < n ∧ s0.bm.mgmtData = initFrames n.toNat ∧ s0.bmi.capacity = n ∧ s0.bm.numPages = n ∧
      s0.bmi.frameCnt = 0 ∧ s0.bmi.front = 0 ∧ s0.bmi.rear = -1 ∧ s0.bm.strategy = strat ∧
      s0.bm.pageFile ≠ none ∧ st = some s0.store := by
  unfold initBufferPool at h
  split at h
  · cases h
  · split at h
    · cases h
    · rename_i hn
      split at h
      · cases h
      · cases h
        exact ⟨by omega, rfl, rfl, rfl, rfl, rfl, rfl, rfl, by simp, rfl⟩

theorem initFrames_mem {n : Nat} {f : Frame} (h : f ∈ initFrames n) :
    f.pageNum = NO_PAGE ∧ f.pinCount = 0 ∧ f.dirtyBit = 0 := by
  simp only [initFrames, List.mem_map] at h
  obtain ⟨i, -, rfl⟩ := h
  exact ⟨rfl, rfl, rfl⟩

theorem init_sized {mem : Ptr → Buffer} {st : Option PageStore} {name : Option String}
    {n : Int} {strat : ReplacementStrategy} {rc : RC} {s0 : World}
    (h : initBufferPool mem st name n strat = (rc, some s0)) : Sized s0 := by
  obtain ⟨-, h1, h2, -⟩ := init_fields h
  unfold Sized
  rw [h1, h2]
  simp [initFrames]

theorem run_invariant (P : World → Prop) (ok : Call → Prop)
    (hstep : ∀ (c : Call) (s s1 : World), ok c → Sized s → P s → c.run s = some s1 → P s1)
    (calls : List Call) :
    ∀ (s s1 : World), (∀ c ∈ calls, ok c) → Sized s → P s →
      runCalls calls s = some s1 →
      Sized s1 ∧ P s1 := by
  induction calls with
  | nil => intro s s1 _ hs hp hr; cases hr; exact ⟨hs, hp⟩
  | cons c cs ih =>
    intro s s1 hok hs hp hr
    unfold runCalls at hr
    cases hc : c.run s with
    | none => rw [hc] at hr; cases hr
    | some s2 =>
      rw [hc] at hr
      exact ih s2 s1 (fun d hd => hok d (List.mem_cons_of_mem _ hd)) (call_sized hc hs)
        (hstep c s s2 (hok c (List.mem_cons_self _ _)) hs hp hc) hr

/-! ## No page is resident twice -/

theorem noDupPages_set {l : List Int} {k : Nat} {v : Int} (h : NoDupPages l)
    (hv : v = NO_PAGE ∨ v ∉ l) : NoDupPages (l.set k v) := by
  have key : ∀ (j : Nat) (w : Int), (l.set k v)[k]? = some w → (l.set k v)[j]? = some w →
      w ≠ NO_PAGE → j = k := by
    intro j w hk hj hw
    by_contra hne
    have hlt : k < l.length := by
      have := getElem?_lt hk
      simpa using this
    rw [List.getElem?_set_self hlt] at hk
    cases hk
    rw [List.getElem?_set_ne (fun h => hne h.symm)] at hj
    rcases hv with hv | hv
    · exact hw hv
    · exact hv (List.getElem?_mem hj)
  intro i j w hi hj hw
  by_cases hik : i = k
  · subst hik
    exact (key j w hi hj hw).symm
  · by_cases hjk : j = k
    · subst hjk
      exact key i w hj hi hw
    · rw [List.getElem?_set_ne (fun h => hik h.symm)] at hi
      rw [List.getElem?_set_ne (fun h => hjk h.symm)] at hj
      exact h i j w hi hj hw

theorem map_pageNum_set_same {fs : List Frame} {i : Nat} {f g : Frame}
    (hf : fs[i]? = some f) (hg : g.pageNum = f.pageNum) :
    (fs.set i g).map (fun x => x.pageNum) = fs.map (fun x => x.pageNum) := by
  rw [List.map_set, hg]
  apply set_getElem?_self
  rw [List.getElem?_map, hf]
  rfl

theorem pinStep_noDup {p : Int} {s s1 : World} (h : PinStep p s s1)
    (hn : NoDupPages (pageNums s)) : NoDupPages (pageNums s1) := by
  obtain ⟨mid, h1, h2⟩ := h.frames
  have hmid : NoDupPages (mid.map (fun x => x.pageNum)) := by
    rcases h1 with h1 | ⟨i, f, -, h1⟩
    · rw [h1]; exact hn
    · rw [h1, List.map_set]
      exact noDupPages_set hn (Or.inl rfl)
  unfold pageNums
  rcases h2 with h2 | ⟨i, f, -, hf, -, h2⟩ | ⟨k, f, -, hmiss, -, h2⟩
  · rw [h2]; exact hmid
  · rw [h2, map_pageNum_set_same (g := { f with pinCount := wrapInt (f.pinCount + 1) }) hf rfl]
    exact hmid
  · rw [h2, List.map_set]
    refine noDupPages_set hmid (Or.inr ?_)
    intro hmem
    obtain ⟨g, hg, hgp⟩ := List.mem_map.1 hmem
    exact hmiss g hg hgp

theorem init_noDup {mem : Ptr → Buffer} {st : Option PageStore} {name : Option String}
    {n : Int} {strat : ReplacementStrategy} {rc : RC} {s0 : World}
    (h : initBufferPool mem st name n strat = (rc, some s0)) : NoDupPages (pageNums s0) := by
  obtain ⟨-, h1, -⟩ := init_fields h
  intro i j v hi _ hv
  have hmem := List.getElem?_mem hi
  unfold pageNums at hmem
  rw [h1] at hmem
  obtain ⟨f, hf, hfv⟩ := List.mem_map.1 hmem
  exact absurd (hfv.symm.trans (initFrames_mem hf).1) hv

theorem run_noDup {calls : List Call} {s s1 : World} (hs : Sized s)
    (hn : NoDupPages (pageNums s)) (hr : runCalls calls s = some s1) :
    Sized s1 ∧ NoDupPages (pageNums s1) := by
  refine run_invariant (fun w => NoDupPages (pageNums w)) (fun _ => True) ?_ calls s s1
    (fun _ _ => trivial) hs hn hr
  intro c w w1 _ hw hp hc
  rcases call_cases hc with ⟨page, page1, p, rc, -, hpin⟩ | hk
  · exact pinStep_noDup (pinPage_step hw hpin) hp
  · show NoDupPages (pageNums w1)
    rw [hk.pageNums]; exact hp

/-! ## The occupancy counter stays within the capacity -/

theorem run_count {calls : List Call} {s s1 : World} (hs : Sized s)
    (hn : 0 ≤ s.bmi.frameCnt ∧ s.bmi.frameCnt ≤ s.bmi.capacity)
    (hr : runCalls calls s = some s1) :
    s1.bmi.capacity = s.bmi.capacity ∧
      0 ≤ s1.bmi.frameCnt ∧ s1.bmi.frameCnt ≤ s1.bmi.capacity := by
  have := run_invariant
    (fun w => w.bmi.capacity = s.bmi.capacity ∧
      0 ≤ w.bmi.frameCnt ∧ w.bmi.frameCnt ≤ w.bmi.capacity) (fun _ => True) ?_ calls s s1
    (fun _ _ => trivial) hs ⟨rfl, hn⟩ hr
  · exact this.2
  · intro c w w1 _ hw hp hc
    rcases call_cases hc with ⟨page, page1, p, rc, -, hpin⟩ | hk
    · have hstep := pinPage_step hw hpin
      have hcap := hstep.setup.capacity
      have hcnt := hstep.count
      refine ⟨hcap.trans hp.1, ?_⟩
      omega
    · have h1 := hk.capacity
      have h2 := hk.frameCnt
      refine ⟨h1.trans hp.1, ?_⟩
      omega

/-! ## Empty frames are unpinned and clean -/

theorem emptyClean_set {fs : List Frame} {i : Nat} {g : Frame} (h : EmptyClean fs)
    (hg : g.pageNum = NO_PAGE → g.pinCount = 0 ∧ g.dirtyBit = 0) : EmptyClean (fs.set i g) := by
  intro f hf
  rcases List.mem_or_eq_of_mem_set hf with h1 | h1
  · exact h f h1
  · rw [h1]; exact hg

theorem nonneg_ne_noPage {p : Int} (hp : 0 ≤ p) : p ≠ NO_PAGE := by
  unfold NO_PAGE
  omega

theorem pinStep_emptyClean {p : Int} {s s1 : World} (h : PinStep p s s1)
    (hn : EmptyClean s.bm.mgmtData) : EmptyClean s1.bm.mgmtData := by
  obtain ⟨mid, h1, h2⟩ := h.frames
  have hmid : EmptyClean mid := by
    rcases h1 with h1 | ⟨i, f, -, h1⟩
    · rw [h1]; exact hn
    · rw [h1]
      exact emptyClean_set hn (fun _ => ⟨rfl, rfl⟩)
  rcases h2 with h2 | ⟨i, f, hp, -, hfp, h2⟩ | ⟨k, f, hp, -, -, h2⟩
  · rw [h2]; exact hmid
  · rw [h2]
    exact emptyClean_set hmid (fun he => absurd (hfp.symm.trans he) (nonneg_ne_noPage hp))
  · rw [h2]
    exact emptyClean_set hmid (fun he => absurd he (nonneg_ne_noPage hp))

theorem unpinPage_frames (s : World) (page : BM_PageHandle) :
    (unpinPage s page).2.bm.mgmtData = s.bm.mgmtData ∨
    ∃ (i : Nat) (f : Frame), s.bm.mgmtData[i]? = some f ∧ f.pageNum = page.pageNum ∧
      (unpinPage s page).2.bm.mgmtData
        = s.bm.mgmtData.set i { f with pinCount := wrapInt (f.pinCount - 1) } := by
  unfold unpinPage
  split
  · exact Or.inl rfl
  · rename_i i hi
    split
    · exact Or.inl rfl
    · rename_i frame hfr
      obtain ⟨f, hf, hfp⟩ := searchPage_some hi
      rw [hfr] at hf
      cases hf
      refine Or.inr ⟨i, frame, hfr, hfp, ?_⟩
      dsimp only
      have h2 : ∀ s2 : World,
          (if wrapInt (frame.pinCount - 1) = 0 ∧ frame.dirtyBit = 1 then (forcePage s2 page).2
            else s2).bm = s2.bm := by
        intro s2
        split
        · exact forcePage_bm s2 page
        · rfl
      rw [h2]
      split <;> rfl

theorem markDirty_frames (s : World) (page : BM_PageHandle) :
    (markDirty s page).2.bm.mgmtData = s.bm.mgmtData ∨
    ∃ (i : Nat) (f : Frame), s.bm.mgmtData[i]? = some f ∧ f.pageNum = page.pageNum ∧
      (markDirty s page).2.bm.mgmtData
        = s.bm.mgmtData.set i { f with dirtyBit := 1, data := page.data } := by
  unfold markDirty
  split
  · exact Or.inl rfl
  · rename_i i hi
    split
    · exact Or.inl rfl
    · rename_i frame hfr
      obtain ⟨f, hf, hfp⟩ := searchPage_some hi
      rw [hfr] at hf
      cases hf
      exact Or.inr ⟨i, frame, hfr, hfp, rfl⟩

theorem forceFlushPool_emptyClean (s : World) (h : EmptyClean s.bm.mgmtData) :
    EmptyClean (forceFlushPool s).2.bm.mgmtData := by
  unfold forceFlushPool
  split
  · exact h
  · have hfr := flushFrames_frames (s.bm.mgmtData.take s.bm.numPages.toNat) s 0 []
      (s.bm.mgmtData.drop s.bm.numPages.toNat) (by simp) rfl
    dsimp only
    rw [hfr]
    intro f hf he
    simp only [List.nil_append, List.mem_append, List.mem_map] at hf
    rcases hf with ⟨g, hg, rfl⟩ | hf
    · have hgm := h g (List.mem_of_mem_take hg)
      unfold cleared at he ⊢
      split
      · rename_i hc
        rw [if_pos hc] at he
        exact ⟨(hgm he).1, rfl⟩
      · rename_i hc
        rw [if_neg hc] at he
        exact hgm he
    · exact h f (List.mem_of_mem_drop hf) he

theorem call_emptyClean {c : Call} {s s1 : World} (hc : c.nonneg = true) (hs : Sized s)
    (h : EmptyClean s.bm.mgmtData) (hr : c.run s = some s1) : EmptyClean s1.bm.mgmtData := by
  cases c with
  | pin page p =>
    simp only [Call.run, Option.map_eq_some'] at hr
    obtain ⟨⟨rc, page1, s3⟩, hpin, rfl⟩ := hr
    exact pinStep_emptyClean (pinPage_step hs hpin) h
  | unpin page =>
    simp only [Call.run, Option.some.injEq] at hr
    subst hr
    have hp : 0 ≤ page.pageNum := by simpa [Call.nonneg] using hc
    rcases unpinPage_frames s page with h1 | ⟨i, f, -, hfp, h1⟩
    · rw [h1]; exact h
    · rw [h1]
      exact emptyClean_set h (fun he => absurd (hfp.symm.trans he) (nonneg_ne_noPage hp))
  | dirty page =>
    simp only [Call.run, Option.some.injEq] at hr
    subst hr
    have hp : 0 ≤ page.pageNum := by simpa [Call.nonneg] using hc
    rcases markDirty_frames s page with h1 | ⟨i, f, -, hfp, h1⟩
    · rw [h1]; exact h
    · rw [h1]
      exact emptyClean_set h (fun he => absurd (hfp.symm.trans he) (nonneg_ne_noPage hp))
  | force page =>
    simp only [Call.run, Option.some.injEq] at hr
    subst hr
    rw [forcePage_bm]; exact h
  | flush =>
    simp only [Call.run, Option.some.injEq] at hr
    subst hr
    exact forceFlushPool_emptyClean s h

/-! ## The victim scan of FIFO -/

theorem tmod_shift {front cap : Int} (j : Nat) (hf : 0 ≤ front) (hcap : 0 < cap) :
    ((front + 1).tmod cap + j).tmod cap = (front + (j + 1 : Nat)).tmod cap := by
  have h1 := tmod_range (a := front + 1) (n := cap) (by omega) hcap
  rw [Int.tmod_eq_emod (by omega) (by omega), Int.tmod_eq_emod (by omega) (by omega),
    Int.tmod_eq_emod (by omega) (by omega), Int.emod_add_emod]
  congr 1
  push_cast
  omega

theorem skipPinned_first {frames : List Frame} {cap : Int} (hcap : 0 < cap) :
    ∀ (k fuel : Nat) (front : Int) (fv : Frame), k ≤ fuel → 0 ≤ front → front < cap →
      (∀ j : Nat, j < k →
        ∃ f, frameAt frames ((front + j).tmod cap) = some f ∧ 0 < f.pinCount) →
      frameAt frames ((front + k).tmod cap) = some fv → ¬ fv.pinCount > 0 →
      skipPinned frames cap fuel front = some ((front + k).tmod cap) := by
  intro k
  induction k with
  | zero =>
    intro fuel front fv _ h0 h1 _ hfv hp
    have hfr : (front + (0 : Nat)).tmod cap = front := by
      rw [Nat.cast_zero, add_zero]
      exact tmod_small h0 h1
    rw [hfr] at hfv ⊢
    exact skipPinned_here fuel hfv hp
  | succ k ih =>
    intro fuel front fv hk h0 h1 hskip hfv hp
    obtain ⟨fuel1, rfl⟩ : ∃ m, fuel = m + 1 := ⟨fuel - 1, by omega⟩
    obtain ⟨f, hf, hfp⟩ := hskip 0 (by omega)
    have hfr : (front + (0 : Nat)).tmod cap = front := by
      rw [Nat.cast_zero, add_zero]
      exact tmod_small h0 h1
    rw [hfr] at hf
    have hr := tmod_range (a := front + 1) (n := cap) (by omega) hcap
    have := ih fuel1 ((front + 1).tmod cap) fv (by omega) hr.1 hr.2
      (fun j hj => by
        rw [tmod_shift j h0 hcap]
        exact hskip (j + 1) (by omega))
      (by rw [tmod_shift k h0 hcap]; exact hfv) hp
    rw [tmod_shift k h0 hcap] at this
    simp only [skipPinned, hf, hfp, gt_iff_lt, if_true]
    exact this

theorem pinPageWithFIFO_after_removal {s s2 : World} {pageNum : Int} {frame : Frame}
    {st1 : PageStore} {content : Buffer}
    (page : BM_PageHandle) (hp : 0 ≤ pageNum)
    (hmiss : searchPageFromBuffer s pageNum = none) (hfull : isFull s = true)
    (hrem : removePageWithFIFO s page = some (RC_OK, s2))
    (hframe : frameAt s2.bm.mgmtData ((s2.bmi.rear + 1).tmod s2.bmi.capacity) = some frame)
    (hens : ensureCapacity (pageNum + 1) s2.store = some st1)
    (hrd : readBlock pageNum st1 = some content) :
    pinPageWithFIFO s page pageNum =
      some (RC_OK, { pageNum := pageNum, data := frame.data },
        ({ s2 with store := st1
                   mem := Function.update s2.mem frame.data content
                   bmi := { s2.bmi with rear := (s2.bmi.rear + 1).tmod s2.bmi.capacity,
                                        numRead := wrapInt (s2.bmi.numRead + 1),
                                        frameCnt := s2.bmi.frameCnt + 1 } } : World).setFrame
          ((s2.bmi.rear + 1).tmod s2.bmi.capacity).toNat
          { frame with pageNum := pageNum, pinCount := 1, dirtyBit := 0 }) := by
  have hneg : ¬ pageNum < 0 := by omega
  simp only [pinPageWithFIFO, hneg, hmiss, hfull, hrem, if_false, if_true]
  simp [hframe, hens, hrd]

theorem pinPageWithFIFO_miss_full {s : World} {pageNum v : Int} {fv : Frame}
    (page : BM_PageHandle) (hcap : 0 < s.bmi.capacity) (hp : 0 ≤ pageNum)
    (hmiss : searchPageFromBuffer s pageNum = none) (hfull : isFull s = true)
    (hcnt : countUnpinned s ≠ 0)
    (hskip : skipPinned s.bm.mgmtData s.bmi.capacity s.bmi.capacity.toNat s.bmi.front = some v)
    (hfv : frameAt s.bm.mgmtData v = some fv) (hv : v < s.bmi.capacity)
    (hread : ReadSucceeds s.store pageNum) :
    ∃ (s1 : World),
      pinPageWithFIFO s page pageNum
        = some (RC_OK, { pageNum := pageNum, data := fv.data }, s1) ∧
      s1.bm.mgmtData = s.bm.mgmtData.set v.toNat
        { fv with pageNum := pageNum, pinCount := 1, dirtyBit := 0 } ∧
      s1.bmi.front = (v + 1).tmod s.bmi.capacity ∧ s1.bmi.rear = v ∧
      s1.bmi.frameCnt = s.bmi.frameCnt ∧ s1.bmi.numRead = wrapInt (s.bmi.numRead + 1) ∧
      SameSetup s s1 := by
  have hfc : s.bmi.frameCnt = s.bmi.capacity := by simpa [isFull] using hfull
  have hne : isEmpty s = false := by simp [isEmpty]; omega
  obtain ⟨hv0, hvlt, hvget⟩ := frameAt_getElem? hfv
  obtain ⟨s2, hrem⟩ : ∃ s2, removePageWithFIFO s page = some (RC_OK, s2) := by
    simp only [removePageWithFIFO, hne, hcnt, hskip, hfv, if_false, Bool.false_eq_true]
    exact ⟨_, rfl⟩
  rcases removePageWithFIFO_step hrem with h | ⟨-, -, -, v1, fv1, hskip1, hfv1, h3, h4, h5, h6,
    h7, h8, h9, h10, h11, -, h13, h14, -⟩
  · exact absurd rfl h.1
  · rw [hskip] at hskip1
    cases hskip1
    rw [hfv] at hfv1
    cases hfv1
    have hrear : (s2.bmi.rear + 1).tmod s2.bmi.capacity = v := by
      rw [h8, h10]
      exact tmod_succ_pred hv0 hv
    have hframe : frameAt s2.bm.mgmtData ((s2.bmi.rear + 1).tmod s2.bmi.capacity)
        = some { fv with pageNum := NO_PAGE, pinCount := 0, dirtyBit := 0 } := by
      rw [hrear, h3]
      have hneg : ¬ v < 0 := by omega
      simp only [frameAt, hneg, if_false]
      exact List.getElem?_set_self hvlt
    have hread2 : ReadSucceeds s2.store pageNum := by
      unfold ReadSucceeds
      rw [h13, h14]
      exact hread
    obtain ⟨st1, content, hens, hrd, -, e1, e2, -⟩ := readSucceeds_load hp hread2
    have hpin := pinPageWithFIFO_after_removal page hp hmiss hfull hrem hframe hens hrd
    refine ⟨_, hpin, ?_, ?_, ?_, ?_, ?_, ?_⟩
    · simp only [World.setFrame]
      rw [hrear, h3, List.set_set]
    · exact h7
    · exact hrear
    · simp only [World.setFrame]
      rw [h9]
      omega
    · simp only [World.setFrame]
      rw [h11]
    · exact ⟨h4, h5, h6, h10, e1.trans h13, e2.trans h14⟩

/-! ## FIFO admission: the pool fills up frame by frame -/

theorem pageNums_getElem? (s : World) (k : Nat) :
    (pageNums s)[k]? = (s.bm.mgmtData[k]?).map (fun f => f.pageNum) := by
  unfold pageNums
  rw [List.getElem?_map]

theorem fifo_admit {s : World} {pageNum : Int} {L : List Int} (page : BM_PageHandle)
    (hcap : 0 < s.bmi.capacity) (hsized : Sized s) (hp : 0 ≤ pageNum)
    (hmiss : searchPageFromBuffer s pageNum = none)
    (hcnt : s.bmi.frameCnt = L.length) (hlt : (L.length : Int) < s.bmi.capacity)
    (hrear : s.bmi.rear = L.length - 1)
    (hpn : pageNums s = L ++ List.replicate (s.bmi.capacity.toNat - L.length) NO_PAGE)
    (hread : ReadSucceeds s.store pageNum) :
    ∃ (s1 : World) (f : Frame),
      pinPageWithFIFO s page pageNum
        = some (RC_OK, { pageNum := pageNum, data := f.data }, s1) ∧
      frameAt s.bm.mgmtData ((s.bmi.rear + 1).tmod s.bmi.capacity) = some f ∧
      s.bm.mgmtData[L.length]? = some f ∧ f.pageNum = NO_PAGE ∧
      s1.bm.mgmtData = s.bm.mgmtData.set L.length
        { f with pageNum := pageNum, pinCount := 1, dirtyBit := 0 } ∧
      s1.bmi.frameCnt = s.bmi.frameCnt + 1 ∧ s1.bmi.rear = L.length ∧ SameSetup s s1 ∧
      pageNums s1
        = (L ++ [pageNum]) ++ List.replicate (s.bmi.capacity.toNat - (L.length + 1)) NO_PAGE := by
  have hk : (s.bmi.rear + 1).tmod s.bmi.capacity = (L.length : Int) := by
    rw [hrear, Int.sub_add_cancel]
    exact tmod_small (by omega) hlt
  have hroom : isFull s = false := by
    simp only [isFull, beq_eq_false_iff_ne, ne_eq]
    omega
  obtain ⟨m, hm⟩ : ∃ m, s.bmi.capacity.toNat - L.length = m + 1 :=
    ⟨s.bmi.capacity.toNat - L.length - 1, by omega⟩
  have hlen : L.length < s.bm.mgmtData.length := by
    rw [hsized]; omega
  obtain ⟨f, hfa, hf⟩ := @frameAt_some s.bm.mgmtData (L.length : Int)
    (by omega) (by rw [Int.toNat_ofNat]; exact hlen)
  rw [Int.toNat_ofNat] at hf
  have hfe : f.pageNum = NO_PAGE := by
    have h1 := pageNums_getElem? s L.length
    rw [hf, hpn, hm, List.replicate_succ,
      List.getElem?_append_right (le_refl _), Nat.sub_self] at h1
    simpa using h1.symm
  obtain ⟨st1, content, hens, hrd, -, e1, e2, -⟩ := readSucceeds_load hp hread
  rw [← hk] at hfa
  have hpin := pinPageWithFIFO_miss_room page hp hmiss hroom hfa hens hrd
  refine ⟨_, f, hpin, hfa, hf, hfe, ?_, rfl, hk, ⟨rfl, rfl, rfl, rfl, e1, e2⟩, ?_⟩
  · simp only [World.setFrame]
    rw [hk, Int.toNat_ofNat]
  · have hm2 : s.bmi.capacity.toNat - (L.length + 1) = m := by omega
    rw [pageNums_set (s := s) (k := L.length)
      (g := { f with pageNum := pageNum, pinCount := 1, dirtyBit := 0 })
      (by simp only [World.setFrame]; rw [hk, Int.toNat_ofNat]),
      hpn, hm, hm2, List.replicate_succ, set_append_cons]
    simp

theorem kept_fifoFill {st : PageStore} {s s1 : World} (hk : Kept s s1) (h : FifoFill st s) :
    FifoFill st s1 :=
  { attached := by rw [hk.pageFile]; exact h.attached
    capacity_pos := by rw [hk.capacity]; exact h.capacity_pos
    sized := kept_sized hk h.sized
    fifo := by rw [hk.strategy]; exact h.fifo
    ensureFault := by rw [hk.ensureFault]; exact h.ensureFault
    readFault := by rw [hk.readFault]; exact h.readFault
    layout := by
      rw [hk.frameCnt, hk.capacity, hk.rear, hk.pageNums]
      exact h.layout }

theorem pinPage_fifoFill {st : PageStore} {s s1 : World} {page page1 : BM_PageHandle}
    {p : Int} {rc : RC} (h : FifoFill st s) (hread : p < 0 ∨ ReadSucceeds st p)
    (hr : pinPage s page p = some (rc, page1, s1)) : FifoFill st s1 := by
  by_cases hp : p < 0
  · simp only [pinPage, hp, if_true] at hr
    cases hr
    exact h
  have hp0 : 0 ≤ p := by omega
  have hread1 : ReadSucceeds s.store p := by
    unfold ReadSucceeds
    rw [h.ensureFault, h.readFault]
    rcases hread with h1 | h1
    · exact absurd h1 hp
    · exact h1
  rw [pinPage_eq_FIFO page h.attached h.fifo hp0] at hr
  have hcap := h.capacity_pos
  have hsized := h.sized
  cases hres : searchPageFromBuffer s p with
  | some i =>
    obtain ⟨f, hf, hfp⟩ := searchPage_some hres
    rw [pinPageWithFIFO_hit page hp0 hres hf] at hr
    cases hr
    exact kept_fifoFill (kept_setFrame hf rfl) h
  | none =>
    rcases h.layout with ⟨L, hL, hcnt, hlt, hrear, hpn⟩ | ⟨hfull, hall⟩
    · obtain ⟨s2, f, hpin, -, hf, -, hfr, hcnt2, hrear2, hsame, hpn2⟩ :=
        fifo_admit page hcap hsized hp0 hres hcnt hlt hrear hpn hread1
      rw [hpin] at hr
      cases hr
      have hsized2 : Sized s1 := by
        unfold Sized at hsized ⊢
        rw [hfr, List.length_set, hsame.capacity]
        exact hsized
      have hL2 : ∀ q ∈ L ++ [p], q ≠ NO_PAGE := by
        intro q hq
        rcases List.mem_append.1 hq with h1 | h1
        · exact hL q h1
        · simp only [List.mem_singleton] at h1
          rw [h1]
          exact nonneg_ne_noPage hp0
      exact {
        attached := by rw [hsame.pageFile]; exact h.attached
        capacity_pos := by rw [hsame.capacity]; exact hcap
        sized := hsized2
        fifo := by rw [hsame.strategy]; exact h.fifo
        ensureFault := by rw [hsame.ensureFault]; exact h.ensureFault
        readFault := by rw [hsame.readFault]; exact h.readFault
        layout := by
          rw [hcnt2, hrear2, hsame.capacity, hpn2]
          by_cases hlast : (L.length : Int) + 1 = s.bmi.capacity
          · right
            refine ⟨by omega, ?_⟩
            have : s.bmi.capacity.toNat - (L.length + 1) = 0 := by omega
            rw [this]
            simpa using hL2
          · left
            refine ⟨L ++ [p], hL2, by simp; omega, by simp; omega, by simp, by simp⟩ }
    · have hfull1 : isFull s = true := by simp [isFull, hfull]
      have hneg : ¬ p < 0 := hp
      cases hrem : removePageWithFIFO s page with
      | none =>
        simp only [pinPageWithFIFO, hneg, hres, hfull1, hrem, if_false, if_true] at hr
        cases hr
      | some r =>
        obtain ⟨rc1, s2⟩ := r
        rcases removePageWithFIFO_step hrem with hno | ⟨hok, -, hcnt, v, fv, hskip, hfv, -⟩
        · simp only [pinPageWithFIFO, hneg, hres, hfull1, hrem, if_false, if_true] at hr
          rw [if_pos hno.1] at hr
          cases hr
          rw [hno.2]
          exact h
        · obtain ⟨hv0, hvlt, hvget⟩ := frameAt_getElem? hfv
          have hv : v < s.bmi.capacity := by
            unfold Sized at hsized
            omega
          obtain ⟨s3, hpin, hfr, -, -, hcnt3, -, hsame⟩ :=
            pinPageWithFIFO_miss_full page hcap hp0 hres hfull1 hcnt hskip hfv hv hread1
          rw [hpin] at hr
          cases hr
          have hsized2 : Sized s1 := by
            unfold Sized at hsized ⊢
            rw [hfr, List.length_set, hsame.capacity]
            exact hsized
          exact {
            attached := by rw [hsame.pageFile]; exact h.attached
            capacity_pos := by rw [hsame.capacity]; exact hcap
            sized := hsized2
            fifo := by rw [hsame.strategy]; exact h.fifo
            ensureFault := by rw [hsame.ensureFault]; exact h.ensureFault
            readFault := by rw [hsame.readFault]; exact h.readFault
            layout := by
              right
              refine ⟨by rw [hcnt3, hsame.capacity]; exact hfull, ?_⟩
              rw [pageNums_set hfr]
              intro q hq
              rcases List.mem_or_eq_of_mem_set hq with h1 | h1
              · exact hall q h1
              · rw [h1]
                exact nonneg_ne_noPage hp0 }

theorem init_fifoFill {mem : Ptr → Buffer} {st : PageStore} {name : String} {n : Int}
    {s0 : World} (h : initBufferPool mem (some st) (some name) n RS_FIFO = (RC_OK, some s0)) :
    FifoFill st s0 := by
  obtain ⟨hn, hfr, hcap, -, hcnt, -, hrear, hstrat, hfile, hst⟩ := init_fields h
  have hst1 : s0.store = st := (Option.some.inj hst).symm
  exact {
    attached := hfile
    capacity_pos := by omega
    sized := init_sized h
    fifo := hstrat
    ensureFault := by rw [hst1]
    readFault := by rw [hst1]
    layout := by
      left
      refine ⟨[], by simp, by simpa using hcnt, by simp; omega, by simpa using hrear, ?_⟩
      unfold pageNums
      rw [hfr, hcap]
      simp [initFrames, List.map_map, Function.comp_def, List.map_const', NO_PAGE] }

theorem run_fifoFill {st : PageStore} (calls : List Call) :
    ∀ (s s1 : World), FifoFill st s → (∀ c ∈ calls, c.readsSucceed st = true) →
      runCalls calls s = some s1 → FifoFill st s1 := by
  induction calls with
  | nil => intro s s1 h _ hr; cases hr; exact h
  | cons c cs ih =>
    intro s s1 h hok hr
    unfold runCalls at hr
    cases hc : c.run s with
    | none => rw [hc] at hr; cases hr
    | some s2 =>
      rw [hc] at hr
      refine ih s2 s1 ?_ (fun d hd => hok d (List.mem_cons_of_mem _ hd)) hr
      have hc1 := hok c (List.mem_cons_self _ _)
      rcases call_cases hc with ⟨page, page1, p, rc, rfl, hpin⟩ | hk
      · exact pinPage_fifoFill h (by simpa [Call.readsSucceed] using hc1) hpin
      · exact kept_fifoFill hk h

theorem fifoFill_count {st : PageStore} {s : World} (h : FifoFill st s) :
    s.bmi.frameCnt = (s.bm.mgmtData.countP (fun f => decide (f.pageNum ≠ NO_PAGE)) : Nat) := by
  have hmap : s.bm.mgmtData.countP (fun f => decide (f.pageNum ≠ NO_PAGE))
      = (pageNums s).countP (fun q => decide (q ≠ NO_PAGE)) := by
    unfold pageNums
    rw [List.countP_map]
    rfl
  rw [hmap]
  rcases h.layout with ⟨L, hL, hcnt, -, -, hpn⟩ | ⟨hfull, hall⟩
  · have h1 : L.countP (fun q => decide (q ≠ NO_PAGE)) = L.length :=
      List.countP_eq_length.2 (fun q hq => by simpa using hL q hq)
    have h2 : ∀ m : Nat,
        (List.replicate m NO_PAGE).countP (fun q => decide (q ≠ NO_PAGE)) = 0 := by
      intro m
      rw [List.countP_eq_zero]
      intro q hq
      simp [List.eq_of_mem_replicate hq]
    rw [hpn, List.countP_append, h1, h2, hcnt]
    simp
  · have h1 : (pageNums s).countP (fun q => decide (q ≠ NO_PAGE)) = (pageNums s).length :=
      List.countP_eq_length.2 (fun q hq => by simpa using hall q hq)
    have h2 : (pageNums s).length = s.bmi.capacity.toNat := by
      unfold pageNums
      rw [List.length_map]
      exact h.sized
    have := h.capacity_pos
    rw [h1, h2, hfull]
    omega

/-! ## updateLRUOrder against the list form -/

theorem shiftLeft_move {A B : List Int} (p : Int) :
    (shiftLeft (A ++ p :: B) A.length B.length).set (A.length + B.length) p = A ++ B ++ [p] := by
  have hlen : (A ++ p :: B).length = A.length + B.length + 1 := by simp; omega
  apply List.ext_getElem?
  intro j
  have hl : (shiftLeft (A ++ p :: B) A.length B.length).length = A.length + B.length + 1 := by
    rw [shiftLeft_length, hlen]
  by_cases hj : j = A.length + B.length
  · subst hj
    rw [List.getElem?_set_self (by omega), List.getElem?_append_right (by simp)]
    simp
  · rw [List.getElem?_set_ne (fun h => hj h.symm),
      shiftLeft_getElem? B.length (A ++ p :: B) A.length (by omega) j]
    by_cases h1 : j < A.length
    · have : ¬ (A.length ≤ j ∧ j < A.length + B.length) := by omega
      rw [if_neg this, List.getElem?_append_left h1, List.append_assoc,
        List.getElem?_append_left h1]
    · by_cases h2 : j < A.length + B.length
      · have : A.length ≤ j ∧ j < A.length + B.length := by omega
        rw [if_pos this, List.getElem?_append_right (by omega),
          List.getElem?_append_left (by simp; omega),
          List.getElem?_append_right (by omega)]
        have : j + 1 - A.length = (j - A.length) + 1 := by omega
        rw [this, List.getElem?_cons_succ]
      · have : ¬ (A.length ≤ j ∧ j < A.length + B.length) := by omega
        rw [if_neg this, List.getElem?_eq_none (by omega),
          List.getElem?_eq_none (by simp; omega)]

theorem updateLRUOrder_found {capacity : Int} {A B : List Int} {p : Int}
    (hlen : ((A ++ p :: B).length : Int) = capacity) (hA : p ∉ A) :
    updateLRUOrder capacity (A ++ p :: B) p = (RC_OK, A ++ B ++ [p]) := by
  have hcap : capacity.toNat = (A ++ p :: B).length := by omega
  have hl : (A ++ p :: B).length = A.length + B.length + 1 := by simp; omega
  have hlast : (capacity - 1).toNat = A.length + B.length := by omega
  have hcount : (capacity - 1).toNat - A.length = B.length := by omega
  unfold updateLRUOrder
  rw [hcap, List.take_length, firstIndexOf_append_cons hA]
  simp only [hlast, Nat.add_sub_cancel_left]
  have hget : (A ++ p :: B).getD A.length 0 = p := by
    rw [List.getD_eq_getElem?_getD, List.getElem?_append_right (le_refl _), Nat.sub_self]
    simp
  rw [hget, shiftLeft_move]

theorem updateLRUOrder_absent {capacity : Int} {arr : List Int} {p : Int} (h : p ∉ arr) :
    updateLRUOrder capacity arr p = (RC_PAGE_NOT_EXIST, arr) := by
  have hnone : firstIndexOf p (arr.take capacity.toNat) = none :=
    firstIndexOf_none.2 (fun hm => h (List.mem_of_mem_take hm))
  unfold updateLRUOrder
  rw [hnone]

theorem first_occurrence {p : Int} {arr : List Int} (h : p ∈ arr) :
    ∃ A B : List Int, arr = A ++ p :: B ∧ p ∉ A := by
  induction arr with
  | nil => cases h
  | cons a l ih =>
    by_cases ha : a = p
    · exact ⟨[], l, by rw [ha]; rfl, by simp⟩
    · rcases List.mem_cons.1 h with h1 | h1
      · exact absurd h1.symm ha
      · obtain ⟨A, B, hAB, hA⟩ := ih h1
        refine ⟨a :: A, B, by rw [hAB]; rfl, ?_⟩
        intro hm
        rcases List.mem_cons.1 hm with h2 | h2
        · exact ha h2.symm
        · exact hA h2

theorem movedToEnd_split {A B : List Int} {p : Int} (hA : p ∉ A) :
    movedToEnd p (A ++ p :: B) = A ++ B ++ [p] := by
  unfold movedToEnd
  rw [List.erase_append_right _ hA, List.erase_cons_head, List.append_assoc]

/-! ## The victim scan of FIFO finds a frame -/

theorem frameAt_mod {frames : List Frame} {cap front : Int} (hcap : 0 < cap)
    (hlen : frames.length = cap.toNat) (h0 : 0 ≤ front) (k : Nat) :
    ∃ f, frameAt frames ((front + k).tmod cap) = some f := by
  have hr := tmod_range (a := front + k) (n := cap) (by omega) hcap
  obtain ⟨f, hf, -⟩ := @frameAt_some frames ((front + k).tmod cap) hr.1 (by omega)
  exact ⟨f, hf⟩

theorem reach_index {cap front : Int} (hcap : 0 < cap) (h0 : 0 ≤ front) (h1 : front < cap)
    {u : Nat} (hu : (u : Int) < cap) :
    ∃ k : Nat, (k : Int) < cap ∧ (front + k).tmod cap = u := by
  by_cases hle : front ≤ u
  · refine ⟨(u - front).toNat, by omega, ?_⟩
    have : front + ((u - front).toNat : Int) = u := by omega
    rw [this]
    exact tmod_small (by omega) hu
  · refine ⟨(u + cap - front).toNat, by omega, ?_⟩
    have : front + ((u + cap - front).toNat : Int) = u + cap := by omega
    rw [this, Int.tmod_eq_emod (by omega) (by omega), Int.add_emod_self]
    exact Int.emod_eq_of_lt (by omega) hu

theorem first_unpinned {frames : List Frame} {cap front : Int} (hcap : 0 < cap)
    (hlen : frames.length = cap.toNat) (h0 : 0 ≤ front) (h1 : front < cap)
    (hfree : ∃ f ∈ frames, f.pinCount = 0) :
    ∃ (k : Nat) (fv : Frame), (k : Int) < cap ∧
      (∀ j : Nat, j < k →
        ∃ f, frameAt frames ((front + j).tmod cap) = some f ∧ 0 < f.pinCount) ∧
      frameAt frames ((front + k).tmod cap) = some fv ∧ fv.pinCount ≤ 0 := by
  classical
  obtain ⟨f0, hf0, hp0⟩ := hfree
  obtain ⟨u, hu⟩ := List.mem_iff_getElem?.1 hf0
  have hult : u < frames.length := getElem?_lt hu
  obtain ⟨k0, hk0, hku⟩ := reach_index hcap h0 h1 (u := u) (by omega)
  have hex : ∃ k : Nat, ∃ fv, frameAt frames ((front + k).tmod cap) = some fv ∧
      fv.pinCount ≤ 0 := by
    refine ⟨k0, f0, ?_, by omega⟩
    rw [hku]
    simp only [frameAt]
    rw [if_neg (by omega), Int.toNat_ofNat]
    exact hu
  obtain ⟨fv, hfv, hpv⟩ := Nat.find_spec hex
  refine ⟨Nat.find hex, fv, ?_, ?_, hfv, hpv⟩
  · have := Nat.find_min' hex ⟨f0, (by
      rw [hku]
      simp only [frameAt]
      rw [if_neg (by omega), Int.toNat_ofNat]
      exact hu), (by omega : f0.pinCount ≤ 0)⟩
    omega
  · intro j hj
    obtain ⟨f, hf⟩ := frameAt_mod hcap hlen h0 j
    refine ⟨f, hf, ?_⟩
    by_contra hneg
    exact Nat.find_min hex hj ⟨f, hf, by omega⟩

/-! ## Pin counts stay between 0 and the number of calls -/

theorem pinsWithin_set {b : Int} {fs : List Frame} {i : Nat} {g : Frame}
    (h : PinsWithin b fs) (hg : 0 ≤ g.pinCount ∧ g.pinCount ≤ b) :
    PinsWithin b (fs.set i g) := by
  intro f hf
  rcases List.mem_or_eq_of_mem_set hf with h1 | h1
  · exact h f h1
  · rw [h1]; exact hg

theorem pinsWithin_mono {b c : Int} {fs : List Frame} (hbc : b ≤ c) (h : PinsWithin b fs) :
    PinsWithin c fs := by
  intro f hf
  have := h f hf
  omega

theorem pinStep_pinsWithin {b p : Int} {s s1 : World} (h : PinStep p s s1)
    (hb0 : 0 ≤ b) (hb : b < INT_MAX) (hn : PinsWithin b s.bm.mgmtData) :
    PinsWithin (b + 1) s1.bm.mgmtData := by
  obtain ⟨mid, h1, h2⟩ := h.frames
  have hmid : PinsWithin (b + 1) mid := by
    rcases h1 with h1 | ⟨i, f, -, h1⟩
    · rw [h1]; exact pinsWithin_mono (by omega) hn
    · rw [h1]
      exact pinsWithin_set (pinsWithin_mono (by omega) hn)
        ⟨le_refl _, by show (0 : Int) ≤ b + 1; omega⟩
  rcases h2 with h2 | ⟨i, f, -, hf, -, h2⟩ | ⟨k, f, -, -, -, h2⟩
  · rw [h2]; exact hmid
  · rw [h2]
    have hfb : 0 ≤ f.pinCount ∧ f.pinCount ≤ b := by
      rcases h1 with h1 | ⟨j, g, -, h1⟩
      · rw [h1] at hf
        exact hn f (List.getElem?_mem hf)
      · rw [h1] at hf
        rcases List.mem_or_eq_of_mem_set (List.getElem?_mem hf) with h3 | h3
        · exact hn f h3
        · rw [h3]
          exact ⟨le_refl _, hb0⟩
    have hw : wrapInt (f.pinCount + 1) = f.pinCount + 1 :=
      wrapInt_of_range (by unfold INT_MIN; omega) (by omega)
    refine pinsWithin_set hmid ?_
    show 0 ≤ wrapInt (f.pinCount + 1) ∧ wrapInt (f.pinCount + 1) ≤ b + 1
    rw [hw]
    omega
  · rw [h2]
    refine pinsWithin_set hmid ?_
    show (0 : Int) ≤ 1 ∧ (1 : Int) ≤ b + 1
    omega

theorem unpinPage_pinsWithin {b : Int} (s : World) (page : BM_PageHandle) (hb : b ≤ INT_MAX)
    (h : PinsWithin b s.bm.mgmtData) (hheld : heldPin s page = true) :
    PinsWithin b (unpinPage s page).2.bm.mgmtData := by
  unfold unpinPage
  unfold heldPin at hheld
  split
  · exact h
  · rename_i i hi
    rw [hi] at hheld
    dsimp only at hheld
    split
    · exact h
    · rename_i frame hfr
      rw [hfr] at hheld
      have hpos : 0 < frame.pinCount := by simpa using hheld
      have hfb := h frame (List.getElem?_mem hfr)
      have hw : wrapInt (frame.pinCount - 1) = frame.pinCount - 1 :=
        wrapInt_of_range (by unfold INT_MIN; omega) (by omega)
      have h1 : PinsWithin b
          (s.setFrame i { frame with pinCount := wrapInt (frame.pinCount - 1) }).bm.mgmtData := by
        refine pinsWithin_set h ?_
        show 0 ≤ wrapInt (frame.pinCount - 1) ∧ wrapInt (frame.pinCount - 1) ≤ b
        rw [hw]
        omega
      dsimp only
      have h2 : ∀ s2 : World, PinsWithin b s2.bm.mgmtData →
          PinsWithin b (if wrapInt (frame.pinCount - 1) = 0 ∧ frame.dirtyBit = 1
            then (forcePage s2 page).2 else s2).bm.mgmtData := by
        intro s2 hs2
        split
        · rw [forcePage_bm]; exact hs2
        · exact hs2
      apply h2
      split
      · exact h1
      · exact h1

theorem forceFlushPool_pinsWithin {b : Int} (s : World) (h : PinsWithin b s.bm.mgmtData) :
    PinsWithin b (forceFlushPool s).2.bm.mgmtData := by
  unfold forceFlushPool
  split
  · exact h
  · have hfr := flushFrames_frames (s.bm.mgmtData.take s.bm.numPages.toNat) s 0 []
      (s.bm.mgmtData.drop s.bm.numPages.toNat) (by simp) rfl
    dsimp only
    rw [hfr]
    intro f hf
    simp only [List.nil_append, List.mem_append, List.mem_map] at hf
    rcases hf with ⟨g, hg, rfl⟩ | hf
    · have hgm := h g (List.mem_of_mem_take hg)
      unfold cleared
      split
      · exact hgm
      · exact hgm
    · exact h f (List.mem_of_mem_drop hf)

theorem call_pinsWithin {b : Int} {c : Call} {s s1 : World} (hs : Sized s)
    (hb0 : 0 ≤ b) (hb : b < INT_MAX) (h : PinsWithin b s.bm.mgmtData)
    (hheld : ∀ page, c = .unpin page → heldPin s page = true)
    (hr : c.run s = some s1) : PinsWithin (b + 1) s1.bm.mgmtData := by
  cases c with
  | pin page p =>
    simp only [Call.run, Option.map_eq_some'] at hr
    obtain ⟨⟨rc, page1, s3⟩, hpin, rfl⟩ := hr
    exact pinStep_pinsWithin (pinPage_step hs hpin) hb0 hb h
  | unpin page =>
    simp only [Call.run, Option.some.injEq] at hr
    subst hr
    exact pinsWithin_mono (by omega)
      (unpinPage_pinsWithin s page (by omega) h (hheld page rfl))
  | dirty page =>
    simp only [Call.run, Option.some.injEq] at hr
    subst hr
    rcases markDirty_frames s page with h1 | ⟨i, f, hf, -, h1⟩
    · rw [h1]; exact pinsWithin_mono (by omega) h
    · rw [h1]
      have := h f (List.getElem?_mem hf)
      exact pinsWithin_set (pinsWithin_mono (by omega) h)
        ⟨this.1, by show f.pinCount ≤ b + 1; omega⟩
  | force page =>
    simp only [Call.run, Option.some.injEq] at hr
    subst hr
    rw [forcePage_bm]; exact pinsWithin_mono (by omega) h
  | flush =>
    simp only [Call.run, Option.some.injEq] at hr
    subst hr
    exact pinsWithin_mono (by omega) (forceFlushPool_pinsWithin s h)

theorem run_pinsWithin (calls : List Call) :
    ∀ (b : Int) (s s1 : World), Sized s → 0 ≤ b → b + calls.length ≤ INT_MAX →
      PinsWithin b s.bm.mgmtData → balanced s calls = true → runCalls calls s = some s1 →
      PinsWithin (b + calls.length) s1.bm.mgmtData := by
  induction calls with
  | nil =>
    intro b s s1 _ _ _ h _ hr
    cases hr
    simpa using h
  | cons c cs ih =>
    intro b s s1 hs hb0 hb h hbal hr
    unfold runCalls at hr
    unfold balanced at hbal
    rw [Bool.and_eq_true] at hbal
    obtain ⟨hb1, hb2⟩ := hbal
    simp only [List.length_cons, Nat.cast_add, Nat.cast_one] at hb ⊢
    cases hc : c.run s with
    | none => rw [hc] at hr; cases hr
    | some s2 =>
      rw [hc] at hr hb2
      have hstep : PinsWithin (b + 1) s2.bm.mgmtData :=
        call_pinsWithin hs hb0 (by omega) h
          (fun page hpage => by subst hpage; exact hb1) hc
      have := ih (b + 1) s2 s1 (call_sized hc hs) (by omega) (by omega) hstep hb2 hr
      have he : b + 1 + (cs.length : Int) = b + ((cs.length : Int) + 1) := by omega
      rw [he] at this
      exact this

/-! ## LRU: the recency array is the recency order -/

theorem updateLRUOrder_mem {capacity : Int} {arr : List Int} {p : Int}
    (hlen : (arr.length : Int) = capacity) (h : p ∈ arr) :
    (updateLRUOrder capacity arr p).2 = arr.erase p ++ [p] := by
  obtain ⟨A, B, rfl, hA⟩ := first_occurrence h
  rw [updateLRUOrder_found hlen hA]
  exact (movedToEnd_split hA).symm

theorem filter_ne_erase {log : List Int} {p : Int} {r : Int → Bool} (hnd : log.Nodup)
    (hres : ∀ q ∈ log, q ≠ p → r q = true) :
    log.filter (fun q => decide (q ≠ p) && r q) = log.erase p := by
  induction log with
  | nil => rfl
  | cons a l ih =>
    obtain ⟨ha, hl⟩ := List.nodup_cons.1 hnd
    by_cases hap : a = p
    · subst hap
      rw [List.erase_cons_head, List.filter_cons_of_neg (by simp)]
      apply filter_keep_all
      intro q hq
      have hqa : q ≠ a := fun h => ha (h ▸ hq)
      simp [hqa, hres q (List.mem_cons_of_mem _ hq) hqa]
    · rw [List.erase_cons_tail (by simpa using hap),
        List.filter_cons_of_pos (by simp [hap, hres a (List.mem_cons_self _ _) hap]),
        ih hl (fun q hq hqp => hres q (List.mem_cons_of_mem _ hq) hqp)]

theorem touch_eq {s1 : World} {p : Int} {log : List Int} (hnd : log.Nodup)
    (hres : ∀ q ∈ log, q ≠ p → resident s1 q = true) :
    touch s1 p log = log.erase p ++ [p] := by
  unfold touch
  rw [filter_ne_erase hnd hres]

theorem touch_evict {s1 : World} {p v : Int} {rest : List Int}
    (hv : resident s1 v = false)
    (hres : ∀ q ∈ rest, q ≠ p ∧ resident s1 q = true) :
    touch s1 p (v :: rest) = rest ++ [p] := by
  unfold touch
  rw [List.filter_cons_of_neg (by simp [hv])]
  congr 1
  apply filter_keep_all
  intro q hq
  obtain ⟨h1, h2⟩ := hres q hq
  simp [h1, h2]

theorem erase_append_nodup {log : List Int} {p : Int} (hnd : log.Nodup) :
    (log.erase p ++ [p]).Nodup := by
  rw [List.nodup_append]
  refine ⟨hnd.erase p, List.nodup_singleton p, ?_⟩
  intro a ha hb
  simp only [List.mem_singleton] at hb
  subst hb
  exact (hnd.mem_erase_iff.1 ha).1 rfl

theorem erase_append_perm {log : List Int} {p : Int} (h : p ∈ log) :
    (log.erase p ++ [p]).Perm log :=
  (List.perm_append_singleton p (log.erase p)).trans (List.perm_cons_erase h).symm

theorem markDirty_bmi (s : World) (page : BM_PageHandle) : (markDirty s page).2.bmi = s.bmi := by
  unfold markDirty
  split
  · rfl
  · split <;> rfl

theorem flushFrames_arr (rest : List Frame) :
    ∀ (s : World) (i : Nat), (flushFrames s i rest).bmi.arr = s.bmi.arr := by
  induction rest with
  | nil => intro s i; rfl
  | cons frame rest ih =>
    intro s i
    by_cases hc : frame.pinCount = 0 ∧ frame.dirtyBit = 1
    · rw [flushFrames_cons_pos s i frame rest hc, ih]
    · rw [flushFrames_cons_neg s i frame rest hc, ih]

theorem forceFlushPool_arr (s : World) : (forceFlushPool s).2.bmi.arr = s.bmi.arr := by
  unfold forceFlushPool
  split
  · rfl
  · exact flushFrames_arr _ s 0

theorem unpinPage_miss {s : World} {page : BM_PageHandle}
    (h : searchPageFromBuffer s page.pageNum = none) :
    unpinPage s page = (RC_PAGE_NOT_EXIST, s) := by
  simp only [unpinPage, h]

theorem unpinPage_found {s : World} {page : BM_PageHandle} {i : Nat}
    (hi : searchPageFromBuffer s page.pageNum = some i) :
    (unpinPage s page).1 = RC_OK ∧
    (unpinPage s page).2.bmi.arr =
      (if s.bm.strategy = RS_LRU ∧ s.bmi.frameCnt = s.bmi.capacity
        then (updateLRUOrder s.bmi.capacity s.bmi.arr page.pageNum).2 else s.bmi.arr) := by
  obtain ⟨f, hf, -⟩ := searchPage_some hi
  simp only [unpinPage, hi, hf]
  refine ⟨trivial, ?_⟩
  have h2 : ∀ (c : Prop) [Decidable c] (s2 : World),
      (if c then (forcePage s2 page).2 else s2).bmi = s2.bmi := by
    intro c _ s2
    split
    · exact forcePage_bmi s2 page
    · rfl
  rw [h2]
  simp only [World.setFrame]
  split <;> rfl

theorem kept_lruSync {st : PageStore} {s s1 : World} {log : List Int} (hk : Kept s s1)
    (harr : s1.bmi.arr = s.bmi.arr) (h : LruSync st s log) : LruSync st s1 log :=
  { attached := by rw [hk.pageFile]; exact h.attached
    capacity_pos := by rw [hk.capacity]; exact h.capacity_pos
    numPages_eq := by rw [hk.numPages, hk.capacity]; exact h.numPages_eq
    sized := kept_sized hk h.sized
    lru := by rw [hk.strategy]; exact h.lru
    ensureFault := by rw [hk.ensureFault]; exact h.ensureFault
    readFault := by rw [hk.readFault]; exact h.readFault
    nonneg := h.nonneg
    nodup := h.nodup
    layout := by
      rw [hk.frameCnt, hk.capacity, hk.pageNums, harr]
      exact h.layout }

theorem lruSync_arr_length {st : PageStore} {s : World} {log : List Int}
    (h : LruSync st s log) : (s.bmi.arr.length : Int) = s.bmi.capacity := by
  have hcap := h.capacity_pos
  have hs : (pageNums s).length = s.bmi.capacity.toNat := by
    unfold pageNums
    rw [List.length_map]
    exact h.sized
  rcases h.layout with ⟨-, hlt, -, harr⟩ | ⟨-, harr, hperm⟩
  · rw [harr]
    simp only [List.length_append, List.length_replicate]
    omega
  · rw [harr, ← hperm.length_eq, hs]
    omega

theorem lruSync_mem {st : PageStore} {s : World} {log : List Int} (h : LruSync st s log)
    (q : Int) : q ∈ log ↔ (resident s q = true ∧ q ≠ NO_PAGE) := by
  rw [resident_iff_mem h.sized]
  constructor
  · intro hq
    refine ⟨?_, nonneg_ne_noPage (h.nonneg q hq)⟩
    rcases h.layout with ⟨-, -, hpn, -⟩ | ⟨-, -, hperm⟩
    · rw [hpn]; exact List.mem_append_left _ hq
    · exact hperm.symm.subset hq
  · rintro ⟨hq, hne⟩
    rcases h.layout with ⟨-, -, hpn, -⟩ | ⟨-, -, hperm⟩
    · rw [hpn] at hq
      rcases List.mem_append.1 hq with h1 | h1
      · exact h1
      · exact absurd (List.eq_of_mem_replicate h1) hne
    · exact hperm.subset hq

theorem hit_lruSync {st : PageStore} {s s1 : World} {log : List Int} {p : Int}
    (h : LruSync st s log) (hfull : isFull s = true) (hres : resident s p = true)
    (hk : Kept s s1)
    (harr : s1.bmi.arr = (updateLRUOrder s.bmi.capacity s.bmi.arr p).2) :
    LruSync st s1 (touch s1 p log) := by
  have hfc : s.bmi.frameCnt = s.bmi.capacity := by simpa [isFull] using hfull
  rcases h.layout with ⟨hcnt, hlt, -, -⟩ | ⟨-, harr0, hperm⟩
  · omega
  · have hplog : p ∈ log := hperm.subset ((resident_iff_mem h.sized p).1 hres)
    have hsized1 := kept_sized hk h.sized
    have htouch : touch s1 p log = log.erase p ++ [p] := by
      apply touch_eq h.nodup
      intro q hq _
      rw [resident_iff_mem hsized1, hk.pageNums]
      exact hperm.symm.subset hq
    have hlen := lruSync_arr_length h
    rw [htouch]
    exact {
      attached := by rw [hk.pageFile]; exact h.attached
      capacity_pos := by rw [hk.capacity]; exact h.capacity_pos
      numPages_eq := by rw [hk.numPages, hk.capacity]; exact h.numPages_eq
      sized := hsized1
      lru := by rw [hk.strategy]; exact h.lru
      ensureFault := by rw [hk.ensureFault]; exact h.ensureFault
      readFault := by rw [hk.readFault]; exact h.readFault
      nonneg := by
        intro q hq
        rcases List.mem_append.1 hq with h1 | h1
        · exact h.nonneg q (List.mem_of_mem_erase h1)
        · simp only [List.mem_singleton] at h1
          rw [h1]
          exact h.nonneg p hplog
      nodup := erase_append_nodup h.nodup
      layout := by
        right
        refine ⟨by rw [hk.frameCnt, hk.capacity]; exact hfc, ?_, ?_⟩
        · rw [harr, updateLRUOrder_mem hlen (by rw [harr0]; exact hplog), harr0]
        · rw [hk.pageNums]
          exact hperm.trans (erase_append_perm hplog).symm }

theorem pinPageWithLRU_no_victim {s : World} {pageNum least : Int} {st1 : PageStore}
    (page : BM_PageHandle) (hp : 0 ≤ pageNum) (hmiss : searchPageFromBuffer s pageNum = none)
    (hfull : isFull s = true) (hhead : s.bmi.arr[0]? = some least)
    (hcnt : countUnpinned s = 0) (hens : ensureCapacity (pageNum + 1) s.store = some st1) :
    pinPageWithLRU s page pageNum = none := by
  have hneg : ¬ pageNum < 0 := by omega
  have hrem : removePageWithLRU s page least = (none, s) := by
    unfold removePageWithLRU
    split
    · rfl
    · simp [hcnt]
  simp only [pinPageWithLRU, hneg, hmiss, hfull, hhead, if_false, if_true, hrem, hens]

theorem lru_admit {s : World} {pageNum : Int} {L : List Int} (page : BM_PageHandle)
    (hcap : 0 < s.bmi.capacity) (hsized : Sized s) (hnum : s.bm.numPages = s.bmi.capacity)
    (hp : 0 ≤ pageNum) (hmiss : searchPageFromBuffer s pageNum = none)
    (hnn : ∀ q ∈ L, 0 ≤ q)
    (hcnt : s.bmi.frameCnt = L.length) (hlt : (L.length : Int) < s.bmi.capacity)
    (hpn : pageNums s = L ++ List.replicate (s.bmi.capacity.toNat - L.length) NO_PAGE)
    (harr : s.bmi.arr = L ++ List.replicate (s.bmi.capacity.toNat - L.length) (-1))
    (hread : ReadSucceeds s.store pageNum) :
    ∃ (s1 : World) (f : Frame),
      pinPageWithLRU s page pageNum
        = some (RC_OK, { pageNum := pageNum, data := f.data }, s1) ∧
      s1.bmi.frameCnt = s.bmi.frameCnt + 1 ∧ SameSetup s s1 ∧ Sized s1 ∧
      pageNums s1
        = (L ++ [pageNum]) ++ List.replicate (s.bmi.capacity.toNat - (L.length + 1)) NO_PAGE ∧
      s1.bmi.arr
        = (L ++ [pageNum]) ++ List.replicate (s.bmi.capacity.toNat - (L.length + 1)) (-1) := by
  have hroom : isFull s = false := by
    simp only [isFull, beq_eq_false_iff_ne, ne_eq]
    omega
  obtain ⟨m, hm⟩ : ∃ m, s.bmi.capacity.toNat - L.length = m + 1 :=
    ⟨s.bmi.capacity.toNat - L.length - 1, by omega⟩
  have hm2 : s.bmi.capacity.toNat - (L.length + 1) = m := by omega
  have hnolog : (-1 : Int) ∉ L := fun hmem => by
    have := hnn _ hmem
    omega
  have hslot : firstIndexOf (-1) (s.bmi.arr.take s.bm.numPages.toNat) = some L.length := by
    have htake : s.bmi.arr.take s.bm.numPages.toNat = s.bmi.arr := by
      rw [hnum]
      apply List.take_of_length_le
      rw [harr]
      simp only [List.length_append, List.length_replicate]
      omega
    rw [htake, harr, hm, List.replicate_succ]
    exact firstIndexOf_append_cons hnolog
  have hlt2 : L.length < s.bm.mgmtData.length := by
    unfold Sized at hsized
    omega
  have hframe : s.bm.mgmtData[L.length]? = some s.bm.mgmtData[L.length] :=
    List.getElem?_eq_getElem hlt2
  obtain ⟨st1, content, hens, hrd, -, e1, e2, -⟩ := readSucceeds_load hp hread
  have hpin := pinPageWithLRU_miss_room page hp hmiss hroom hslot hframe hens hrd
  refine ⟨_, s.bm.mgmtData[L.length], hpin, rfl, ⟨rfl, rfl, rfl, rfl, e1, e2⟩, ?_, ?_, ?_⟩
  · unfold Sized at hsized ⊢
    simp only [World.setFrame, List.length_set]
    exact hsized
  · rw [pageNums_set (s := s) (k := L.length)
      (g := { s.bm.mgmtData[L.length] with pageNum := pageNum, pinCount := 1, dirtyBit := 0 })
      rfl, hpn, hm, hm2, List.replicate_succ, set_append_cons]
    simp
  · show s.bmi.arr.set L.length pageNum = _
    rw [harr, hm, hm2, List.replicate_succ, set_append_cons]
    simp

theorem lru_evict {st : PageStore} {s : World} {log : List Int} {p : Int}
    (page : BM_PageHandle) (h : LruSync st s log) (hfull : isFull s = true) (hp0 : 0 ≤ p)
    (hres : searchPageFromBuffer s p = none) (hread1 : ReadSucceeds s.store p)
    (hcnt : countUnpinned s ≠ 0) :
    ∃ (v : Int) (rest : List Int) (page1 : BM_PageHandle) (s1 : World),
      log = v :: rest ∧ pinPageWithLRU s page p = some (RC_OK, page1, s1) ∧
      touch s1 p log = rest ++ [p] ∧ LruSync st s1 (rest ++ [p]) ∧
      resident s1 v = false := by
  have hcap := h.capacity_pos
  have hsized := h.sized
  have hlen := lruSync_arr_length h
  have hfc : s.bmi.frameCnt = s.bmi.capacity := by simpa [isFull] using hfull
  have hnotin : p ∉ pageNums s := by
    intro hmem
    have := (resident_iff_mem hsized p).2 hmem
    simp [resident, hres] at this
  obtain ⟨harr, hperm⟩ : s.bmi.arr = log ∧ (pageNums s).Perm log := by
    rcases h.layout with ⟨hc, hlt, -, -⟩ | ⟨-, h1, h2⟩
    · omega
    · exact ⟨h1, h2⟩
  obtain ⟨v, rest, hlog⟩ : ∃ v rest, log = v :: rest := by
    cases hl : log with
    | nil =>
      rw [harr, hl] at hlen
      simp at hlen
      omega
    | cons v rest => exact ⟨v, rest, rfl⟩
  have hhead : s.bmi.arr[0]? = some v := by rw [harr, hlog]; simp
  have hvres : v ∈ pageNums s := hperm.symm.subset (by rw [hlog]; exact List.mem_cons_self _ _)
  obtain ⟨st1, content, hens, hrd, -, -, -, -⟩ := readSucceeds_load hp0 hread1
  have hvr : resident s v = true := (resident_iff_mem hsized v).2 hvres
  obtain ⟨i, hi⟩ : ∃ i, searchPageFromBuffer s v = some i := by
    unfold resident at hvr
    cases hs : searchPageFromBuffer s v with
    | none => rw [hs] at hvr; cases hvr
    | some i => exact ⟨i, rfl⟩
  obtain ⟨f, hf, hfv⟩ := searchPage_some hi
  obtain ⟨s1, hpin, hfr, harr2, hcnt2, -, hcap2, hsame⟩ :=
    pinPageWithLRU_miss_full page hcap (by omega) hfull hhead hi hf hcnt hp0 hres hread1
  have hsized2 : Sized s1 := by
    unfold Sized at hsized ⊢
    rw [hfr, List.length_set, hcap2]
    exact hsized
  have hlt : i < s.bm.mgmtData.length := getElem?_lt hf
  -- the frames around the victim
  have hpnv : (pageNums s)[i]? = some v := by
    rw [pageNums_getElem?, hf, ← hfv]
    rfl
  have hpn2 : pageNums s1 = (pageNums s).set i p := pageNums_set hfr
  have hnd : (pageNums s).Nodup := hperm.nodup_iff.2 h.nodup
  obtain ⟨A, B, hsplit, hset⟩ : ∃ A B : List Int,
      pageNums s = A ++ v :: B ∧ (pageNums s).set i p = A ++ p :: B := by
    refine ⟨(pageNums s).take i, (pageNums s).drop (i + 1), ?_, ?_⟩
    · have := set_getElem?_self hpnv
      rw [List.set_eq_take_append_cons_drop, if_pos (getElem?_lt hpnv)] at this
      exact this.symm
    · rw [List.set_eq_take_append_cons_drop, if_pos (getElem?_lt hpnv)]
  have hperm2 : (A ++ B).Perm rest := by
    have h1 : (v :: (A ++ B)).Perm (v :: rest) := by
      rw [← hlog]
      refine List.Perm.trans ?_ hperm
      rw [hsplit]
      exact List.perm_middle.symm
    exact List.Perm.cons_inv h1
  have hperm3 : (pageNums s1).Perm (rest ++ [p]) := by
    rw [hpn2, hset]
    exact List.perm_middle.trans
      ((List.Perm.cons p hperm2).trans (List.perm_append_singleton p rest).symm)
  have hvrest : v ∉ rest := by
    have := h.nodup
    rw [hlog] at this
    exact (List.nodup_cons.1 this).1
  have hpne : p ≠ v := fun hpv => hnotin (hpv ▸ hvres)
  have hplog : p ∉ rest := fun hmem =>
    hnotin (hperm.symm.subset (by rw [hlog]; exact List.mem_cons_of_mem _ hmem))
  have hvout : resident s1 v = false := by
    cases hv1 : resident s1 v with
    | false => rfl
    | true =>
      have := hperm3.subset ((resident_iff_mem hsized2 v).1 hv1)
      rcases List.mem_append.1 this with h1 | h1
      · exact absurd h1 hvrest
      · simp only [List.mem_singleton] at h1
        exact absurd h1.symm hpne
  have htouch : touch s1 p log = rest ++ [p] := by
    rw [hlog]
    apply touch_evict hvout
    · intro q hq
      refine ⟨fun hqp => hplog (hqp ▸ hq), ?_⟩
      rw [resident_iff_mem hsized2]
      exact hperm3.symm.subset (List.mem_append_left _ hq)
  refine ⟨v, rest, _, s1, hlog, hpin, htouch, ?_, hvout⟩
  exact {
    attached := by rw [hsame.pageFile]; exact h.attached
    capacity_pos := by rw [hsame.capacity]; exact hcap
    numPages_eq := by rw [hsame.numPages, hsame.capacity]; exact h.numPages_eq
    sized := hsized2
    lru := by rw [hsame.strategy]; exact h.lru
    ensureFault := by rw [hsame.ensureFault]; exact h.ensureFault
    readFault := by rw [hsame.readFault]; exact h.readFault
    nonneg := by
      intro q hq
      rcases List.mem_append.1 hq with h1 | h1
      · exact h.nonneg q (by rw [hlog]; exact List.mem_cons_of_mem _ h1)
      · simp only [List.mem_singleton] at h1
        rw [h1]
        exact hp0
    nodup := by
      have hnr : rest.Nodup := by
        have := h.nodup
        rw [hlog] at this
        exact (List.nodup_cons.1 this).2
      rw [List.nodup_append]
      refine ⟨hnr, List.nodup_singleton p, ?_⟩
      intro a ha hb
      simp only [List.mem_singleton] at hb
      exact hplog (hb ▸ ha)
    layout := by
      right
      refine ⟨by rw [hcnt2, hsame.capacity]; exact hfc, ?_, hperm3⟩
      rw [harr2, harr, hlog]
      rfl }

theorem pinPage_lruSync {st : PageStore} {s s1 : World} {log : List Int}
    {page page1 : BM_PageHandle} {p : Int} {rc : RC} (h : LruSync st s log)
    (hread : p < 0 ∨ ReadSucceeds st p)
    (hhit : p < 0 ∨ resident s p = false ∨ isFull s = true)
    (hr : pinPage s page p = some (rc, page1, s1)) :
    LruSync st s1 (if rc = RC_OK then touch s1 p log else log) := by
  by_cases hp : p < 0
  · simp only [pinPage, hp, if_true] at hr
    cases hr
    rw [if_neg (by decide)]
    exact h
  have hp0 : 0 ≤ p := by omega
  have hread1 : ReadSucceeds s.store p := by
    unfold ReadSucceeds
    rw [h.ensureFault, h.readFault]
    rcases hread with h1 | h1
    · exact absurd h1 hp
    · exact h1
  rw [pinPage_eq_LRU page h.attached h.lru hp0] at hr
  have hcap := h.capacity_pos
  have hsized := h.sized
  have hlen := lruSync_arr_length h
  cases hres : searchPageFromBuffer s p with
  | some i =>
    obtain ⟨f, hf, hfp⟩ := searchPage_some hres
    rw [pinPageWithLRU_hit page hp0 hres hf] at hr
    cases hr
    rw [if_pos rfl]
    have hresident : resident s p = true := by simp [resident, hres]
    have hfull : isFull s = true := by
      rcases hhit with h1 | h1 | h1
      · exact absurd h1 hp
      · rw [hresident] at h1; cases h1
      · exact h1
    have hk0 : Kept s (s.setFrame i { f with pinCount := wrapInt (f.pinCount + 1) }) :=
      kept_setFrame hf rfl
    exact hit_lruSync h hfull hresident
      ⟨hk0.pageFile, hk0.numPages, hk0.strategy, hk0.pageNums, rfl, rfl, rfl, rfl, rfl, rfl,
        rfl⟩ rfl
  | none =>
    have hnotin : p ∉ pageNums s := by
      intro hmem
      have := (resident_iff_mem hsized p).2 hmem
      simp [resident, hres] at this
    rcases h.layout with ⟨hcnt, hlt, hpn, harr⟩ | ⟨hfc, harr, hperm⟩
    · -- the pool is filling up: the page goes into the first unused slot
      obtain ⟨s2, f, hpin, hcnt2, hsame, hsized2, hpn2, harr2⟩ :=
        lru_admit page hcap hsized h.numPages_eq hp0 hres h.nonneg hcnt hlt hpn harr hread1
      rw [hpin] at hr
      cases hr
      rw [if_pos rfl]
      have hplog : p ∉ log := fun hmem => hnotin (by rw [hpn]; exact List.mem_append_left _ hmem)
      have htouch : touch s1 p log = log ++ [p] := by
        rw [touch_eq h.nodup, List.erase_of_not_mem hplog]
        intro q hq _
        rw [resident_iff_mem hsized2, hpn2]
        exact List.mem_append_left _ (List.mem_append_left _ hq)
      rw [htouch]
      exact {
        attached := by rw [hsame.pageFile]; exact h.attached
        capacity_pos := by rw [hsame.capacity]; exact hcap
        numPages_eq := by rw [hsame.numPages, hsame.capacity]; exact h.numPages_eq
        sized := hsized2
        lru := by rw [hsame.strategy]; exact h.lru
        ensureFault := by rw [hsame.ensureFault]; exact h.ensureFault
        readFault := by rw [hsame.readFault]; exact h.readFault
        nonneg := by
          intro q hq
          rcases List.mem_append.1 hq with h1 | h1
          · exact h.nonneg q h1
          · simp only [List.mem_singleton] at h1
            rw [h1]
            exact hp0
        nodup := by
          rw [List.nodup_append]
          refine ⟨h.nodup, List.nodup_singleton p, ?_⟩
          intro a ha hb
          simp only [List.mem_singleton] at hb
          exact hplog (hb ▸ ha)
        layout := by
          rw [hcnt2, hsame.capacity, hpn2, harr2]
          have hl : (log ++ [p]).length = log.length + 1 := by simp
          by_cases hlast : (log.length : Int) + 1 = s.bmi.capacity
          · right
            have hz : s.bmi.capacity.toNat - (log.length + 1) = 0 := by omega
            rw [hz]
            refine ⟨by omega, by simp, by simp⟩
          · left
            rw [hl]
            refine ⟨by push_cast; omega, by push_cast; omega, rfl, rfl⟩ }
    · -- the pool is full: the head of the recency order is evicted
      have hfull : isFull s = true := by simp [isFull, hfc]
      by_cases hcnt : countUnpinned s = 0
      · obtain ⟨v, hhead⟩ : ∃ v, s.bmi.arr[0]? = some v := by
          have hpos : 0 < s.bmi.arr.length := by omega
          exact ⟨s.bmi.arr[0], List.getElem?_eq_getElem hpos⟩
        obtain ⟨st1, content, hens, -⟩ := readSucceeds_load hp0 hread1
        rw [pinPageWithLRU_no_victim page hp0 hres hfull hhead hcnt hens] at hr
        cases hr
      · obtain ⟨v, rest, page2, s2, -, hpin, htouch, hsync, -⟩ :=
          lru_evict page h hfull hp0 hres hread1 hcnt
        rw [hpin] at hr
        cases hr
        rw [if_pos rfl, htouch]
        exact hsync

theorem unpinPage_lruSync {st : PageStore} {s : World} {log : List Int}
    (page : BM_PageHandle) (h : LruSync st s log) :
    LruSync st (unpinPage s page).2
      (if (unpinPage s page).1 = RC_OK ∧ isFull s = true
        then touch (unpinPage s page).2 page.pageNum log else log) := by
  cases hres : searchPageFromBuffer s page.pageNum with
  | none =>
    rw [unpinPage_miss hres, if_neg (by simp)]
    exact h
  | some i =>
    obtain ⟨hrc, harr⟩ := unpinPage_found hres
    have hk := unpinPage_kept s page
    by_cases hfull : isFull s = true
    · have hfc : s.bmi.frameCnt = s.bmi.capacity := by simpa [isFull] using hfull
      rw [if_pos ⟨hrc, hfull⟩]
      refine hit_lruSync h hfull (by simp [resident, hres]) hk ?_
      rw [harr, if_pos ⟨h.lru, hfc⟩]
    · have hfc : s.bmi.frameCnt ≠ s.bmi.capacity := by simpa [isFull] using hfull
      rw [if_neg (fun hc => hfull hc.2)]
      refine kept_lruSync hk ?_ h
      rw [harr, if_neg (fun hc => hfc hc.2)]

theorem init_lruSync {mem : Ptr → Buffer} {st : PageStore} {name : String} {n : Int}
    {s0 : World} (h : initBufferPool mem (some st) (some name) n RS_LRU = (RC_OK, some s0)) :
    LruSync st s0 [] := by
  obtain ⟨hn, hfr, hcap, hnum, hcnt, -, -, hstrat, hfile, hst⟩ := init_fields h
  have hst1 : s0.store = st := (Option.some.inj hst).symm
  have harr : s0.bmi.arr = List.replicate n.toNat (-1) := by
    unfold initBufferPool at h
    simp only at h
    split at h
    · cases h
    · cases h
      rfl
  exact {
    attached := hfile
    capacity_pos := by omega
    numPages_eq := by rw [hnum, hcap]
    sized := init_sized h
    lru := hstrat
    ensureFault := by rw [hst1]
    readFault := by rw [hst1]
    nonneg := by simp
    nodup := List.nodup_nil
    layout := by
      left
      refine ⟨by simpa using hcnt, by simp; omega, ?_, ?_⟩
      · unfold pageNums
        rw [hfr, hcap]
        simp [initFrames, List.map_map, Function.comp_def, List.map_const', NO_PAGE]
      · rw [harr, hcap]
        simp }

theorem run_lruSync {st : PageStore} (calls : List Call) :
    ∀ (s s1 : World) (log log1 : List Int), LruSync st s log →
      (∀ c ∈ calls, c.readsSucceed st = true) → hitsOnlyWhenFull s calls = true →
      runCallsRecency calls s log = some (s1, log1) →
      runCalls calls s = some s1 ∧ LruSync st s1 log1 := by
  induction calls with
  | nil =>
    intro s s1 log log1 h _ _ hr
    simp only [runCallsRecency, Option.some.injEq, Prod.mk.injEq] at hr
    obtain ⟨rfl, rfl⟩ := hr
    exact ⟨rfl, h⟩
  | cons c cs ih =>
    intro s s1 log log1 h hok hfill hr
    have hc1 := hok c (List.mem_cons_self _ _)
    have hok2 : ∀ d ∈ cs, d.readsSucceed st = true :=
      fun d hd => hok d (List.mem_cons_of_mem _ hd)
    unfold hitsOnlyWhenFull at hfill
    rw [Bool.and_eq_true] at hfill
    obtain ⟨hf1, hf2⟩ := hfill
    cases c with
    | pin page p =>
      simp only [runCallsRecency] at hr
      cases hpin : pinPage s page p with
      | none => rw [hpin] at hr; cases hr
      | some r =>
        obtain ⟨rc, page1, s2⟩ := r
        rw [hpin] at hr
        simp only at hr
        have hrun : (Call.pin page p).run s = some s2 := by simp [Call.run, hpin]
        rw [hrun] at hf2
        have hsync := pinPage_lruSync h (by simpa [Call.readsSucceed] using hc1)
          (by
            simp only [Bool.or_eq_true, decide_eq_true_eq, Bool.not_eq_true'] at hf1
            rcases hf1 with (h1 | h1) | h1
            · exact Or.inl h1
            · exact Or.inr (Or.inl h1)
            · exact Or.inr (Or.inr h1)) hpin
        obtain ⟨h1, h2⟩ := ih s2 s1 _ log1 hsync hok2 hf2 hr
        exact ⟨by simp only [runCalls, hrun, Option.bind_some]; exact h1, h2⟩
    | unpin page =>
      simp only [runCallsRecency] at hr
      have hrun : (Call.unpin page).run s = some (unpinPage s page).2 := rfl
      rw [hrun] at hf2
      obtain ⟨h1, h2⟩ := ih _ s1 _ log1 (unpinPage_lruSync page h) hok2 hf2 hr
      exact ⟨by simp only [runCalls, hrun, Option.bind_some]; exact h1, h2⟩
    | dirty page =>
      simp only [runCallsRecency] at hr
      have hrun : (Call.dirty page).run s = some (markDirty s page).2 := rfl
      rw [hrun] at hf2
      obtain ⟨h1, h2⟩ := ih _ s1 _ log1
        (kept_lruSync (markDirty_kept s page) (by rw [markDirty_bmi]) h) hok2 hf2 hr
      exact ⟨by simp only [runCalls, hrun, Option.bind_some]; exact h1, h2⟩
    | force page =>
      simp only [runCallsRecency] at hr
      have hrun : (Call.force page).run s = some (forcePage s page).2 := rfl
      rw [hrun] at hf2
      obtain ⟨h1, h2⟩ := ih _ s1 _ log1
        (kept_lruSync (forcePage_kept s page) (by rw [forcePage_bmi]) h) hok2 hf2 hr
      exact ⟨by simp only [runCalls, hrun, Option.bind_some]; exact h1, h2⟩
    | flush =>
      simp only [runCallsRecency] at hr
      have hrun : Call.flush.run s = some (forceFlushPool s).2 := rfl
      rw [hrun] at hf2
      obtain ⟨h1, h2⟩ := ih _ s1 _ log1
        (kept_lruSync (forceFlushPool_kept s) (forceFlushPool_arr s) h) hok2 hf2 hr
      exact ⟨by simp only [runCalls, hrun, Option.bind_some]; exact h1, h2⟩

/-! # Claims -/

/-- C1. FIFO order: take any FIFO pool fresh from `initBufferPool` and any
sequence of rounds, each a `pinPage` of a page number `>= 0` followed by
`unpinPage` on the handle it returned, all of whose reads succeed.  The run
returns a state `s`; its load history `log` lists exactly the resident pages,
each once, earliest load first.  If the pool is then full and `pageNum >= 0`
(read succeeding) is not resident, `pinPage` of `pageNum` returns `RC_OK`,
the page at the head of `log` (the resident page that was loaded earliest) is
no longer resident, `pageNum` is, and every other page of `log` still is. -/
theorem fifo_evicts_earliest_loaded (mem : Ptr → Buffer) (st : PageStore) (name : String)
    (n : Int) (s0 : World)
    (rounds : List (BM_PageHandle × Int)) (page : BM_PageHandle) (pageNum : Int)
    (hinit : initBufferPool mem (some st) (some name) n RS_FIFO = (RC_OK, some s0))
    (hrounds : ∀ r ∈ rounds, 0 ≤ r.2 ∧ ReadSucceeds st r.2)
    (hp : 0 ≤ pageNum) (hread : ReadSucceeds st pageNum) :
    ∃ (s : World) (log : List Int), pinUnpinAll s0 [] rounds = some (s, log) ∧
      log.Nodup ∧ (∀ q : Int, q ∈ log ↔ (resident s q = true ∧ q ≠ NO_PAGE)) ∧
      (isFull s = true → resident s pageNum = false →
        ∃ (victim : Int) (rest : List Int) (page1 : BM_PageHandle) (s1 : World),
          log = victim :: rest ∧ pinPage s page pageNum = some (RC_OK, page1, s1) ∧
          resident s1 victim = false ∧ resident s1 pageNum = true ∧
          ∀ q ∈ rest, resident s1 q = true) := by
  obtain ⟨s, log, hrun, h⟩ := fifoOrdered_run rounds s0 [] (fifoOrdered_init hinit) hrounds
  exact ⟨s, log, hrun, h.nodup, fifoOrdered_log_iff h,
    fun hfull hmiss => fifoOrdered_evict page h hp hread hfull hmiss⟩

/-- C1 at the scenario of the claim: capacity 3, pin and unpin 1, 2, 3, then
`pinPage 4`: the load history is `[1, 2, 3]`, page 1 is evicted and the frame
contents become `[4, 2, 3]`. -/
theorem fifo_evicts_earliest_loaded_witness :
    initBufferPool exMem (some exStore) (some "pages.bin") 3 RS_FIFO
      = (RC_OK, some (exInit 3 RS_FIFO)) ∧
    (∀ r ∈ fifoRounds, 0 ≤ r.2 ∧ ReadSucceeds exStore r.2) ∧
    (0 : Int) ≤ 4 ∧ ReadSucceeds exStore 4 ∧
    (∃ (s : World) (log : List Int),
      pinUnpinAll (exInit 3 RS_FIFO) [] fifoRounds = some (s, log) ∧
      log.Nodup ∧ (∀ q : Int, q ∈ log ↔ (resident s q = true ∧ q ≠ NO_PAGE)) ∧
      (isFull s = true → resident s 4 = false →
        ∃ (victim : Int) (rest : List Int) (page1 : BM_PageHandle) (s1 : World),
          log = victim :: rest ∧ pinPage s (handleOf 3 2) 4 = some (RC_OK, page1, s1) ∧
          resident s1 victim = false ∧ resident s1 4 = true ∧
          ∀ q ∈ rest, resident s1 q = true)) ∧
    (pinUnpinAll (exInit 3 RS_FIFO) [] fifoRounds).map
      (fun r => (r.2, getFrameContents r.1, getFixCounts r.1, isFull r.1, resident r.1 4,
        (pinPage r.1 (handleOf 3 2) 4).map (fun x => (x.1, getFrameContents x.2.2))))
      = some ([1, 2, 3], [1, 2, 3], [0, 0, 0], true, false, some (RC_OK, [4, 2, 3])) :=
  ⟨rfl, by decide, by decide, by decide,
    fifo_evicts_earliest_loaded exMem exStore "pages.bin" 3 (exInit 3 RS_FIFO) fifoRounds
      (handleOf 3 2) 4 rfl (by decide) (by decide) (by decide),
    by rfl⟩

/-- C2, as the claim states it, fails: in the three-frame LRU pool, pages 1,
2, 3 are pinned in this order (so page 1 has the oldest most recent pin) and
then unpinned in the order 3, 1, 2.  The pool is full, no frame is pinned and
page 4 is not resident; `pinPage 4` evicts page 3 and keeps page 1, because
every `unpinPage` on the full pool moved its page to the back of `arr`. -/
theorem lru_unpin_changes_victim :
    lastPinFrom 1 0 lruCalls = some 0 ∧ lastPinFrom 2 0 lruCalls = some 1 ∧
    lastPinFrom 3 0 lruCalls = some 2 ∧
    (runFromInit 3 RS_LRU lruCalls).map
      (fun s => (getFrameContents s, getFixCounts s, isFull s, resident s 4,
        (pinPage s (handleOf 3 2) 4).map (fun r => (r.1, getFrameContents r.2.2))))
    = some ([1, 2, 3], [0, 0, 0], true, false, some (RC_OK, [1, 2, 4])) :=
  ⟨by rfl, by rfl, by rfl, by rfl⟩

/-- C3. Under FIFO, on a full pool in which every frame is pinned, `pinPage`
of a page `pageNum >= 0` that is not resident returns `RC_NO_FREE_PIN_PAGE`
and hands back the handle and the whole state (frames, `front`, `rear`,
`frameCnt`, the I/O counters, memory and the page file) exactly as they
were. -/
theorem fifo_all_pinned_no_free_frame (s : World) (page : BM_PageHandle) (pageNum : Int)
    (hstrat : s.bm.strategy = RS_FIFO) (hfile : s.bm.pageFile ≠ none)
    (hp : 0 ≤ pageNum) (hmiss : searchPageFromBuffer s pageNum = none)
    (hfull : isFull s = true)
    (hpinned : ∀ f ∈ s.bm.mgmtData, 0 < f.pinCount) :
    pinPage s page pageNum = some (RC_NO_FREE_PIN_PAGE, page, s) := by
  have hc := countUnpinned_eq_zero s hpinned
  have hneg : ¬ pageNum < 0 := by omega
  simp only [pinPage, pinPageWithFIFO, hneg, hfile, hstrat, hmiss, hfull, if_true, if_false,
    removePageWithFIFO, hc]
  by_cases he : isEmpty s = true <;> simp [he]

/-- C3 at the one-frame FIFO pool whose frame holds pinned page 1: `pinPage`
of page 2 is refused and changes nothing. -/
theorem fifo_all_pinned_no_free_frame_witness :
    exFifoPinned.bm.strategy = RS_FIFO ∧ exFifoPinned.bm.pageFile ≠ none ∧ (0 : Int) ≤ 2 ∧
    searchPageFromBuffer exFifoPinned 2 = none ∧ isFull exFifoPinned = true ∧
    (∀ f ∈ exFifoPinned.bm.mgmtData, 0 < f.pinCount) ∧
    pinPage exFifoPinned freshHandle 2 = some (RC_NO_FREE_PIN_PAGE, freshHandle, exFifoPinned) :=
  ⟨rfl, by decide, by decide, by decide, by decide, by decide,
    fifo_all_pinned_no_free_frame exFifoPinned freshHandle 2 rfl (by decide) (by decide)
      (by decide) (by decide) (by decide)⟩

/-- C4 fails on the code. One-frame LRU pool, page 1 pinned: the pool is full,
its only frame is pinned and page 2 is not resident, yet `pinPage` of page 2
does not return `RC_NO_FREE_PIN_PAGE`: `removePageWithLRU` returns `NULL` and
`pinPageWithLRU` goes on to read through it, so the call has no result. -/
theorem lru_all_pinned_reads_through_null :
    (runFromInit 1 RS_LRU [.pin freshHandle 1]).map
      (fun s => (isFull s, getFixCounts s, searchPageFromBuffer s 2,
        (pinPage s (handleOf 1 0) 2).map (fun r => r.1)))
    = some (true, [1], none, none) := by
  rfl

/-- C5 fails on the code. Two-frame LRU pool after `pinPage 1`, `pinPage 2`,
`unpinPage 2`: frame 0 holds page 1 with pin count 1.  `pinPage 3` returns
`RC_OK` and frame 0 then holds page 3: the pinned page 1 was evicted. -/
theorem lru_evicts_pinned_page :
    (runFromInit 2 RS_LRU [.pin freshHandle 1, .pin freshHandle 2, .unpin (handleOf 2 1)]).map
      (fun s => (getFrameContents s, getFixCounts s,
        (pinPage s (handleOf 2 1) 3).map
          (fun r => (r.1, getFrameContents r.2.2, getFixCounts r.2.2))))
    = some ([1, 2], [1, 0], some (RC_OK, [3, 2], [1, 0])) := by
  rfl

/-- C6 fails on the code. One-frame FIFO pool in which page 1 is resident,
unpinned and dirty with buffer content `blockOf 150`, while block 1 of the
page file is `blockOf 11`.  `pinPage 2` with a handle whose page number (0) is
not resident evicts page 1 and counts one write, but block 1 of the page
file is still `blockOf 11`: `forcePage` was called with the caller's handle
and found no frame. -/
theorem fifo_dirty_victim_not_written :
    (runFromInit 1 RS_FIFO
        [.pin freshHandle 1, .unpin (handleOf 1 0), .dirty (handleOf 1 50)]).map
      (fun s => (getFrameContents s, getDirtyFlags s, getFixCounts s, isFull s,
        s.bm.mgmtData.map (fun f => s.mem f.data), s.store.blocks[1]?, s.bmi.numWrite,
        (pinPage s freshHandle 2).map
          (fun r => (r.1, getFrameContents r.2.2, r.2.2.store.blocks[1]?, r.2.2.bmi.numWrite))))
    = some ([1], [1], [0], true, [blockOf 150], some (blockOf 11), 0,
        some (RC_OK, [2], some (blockOf 11), 1)) := by
  rfl

/-- C9 fails on the code. One-frame FIFO pool in which page 1 is resident with
pin count 1, dirty, with buffer content `blockOf 150`.  `unpinPage` returns
`RC_OK`, the pin count becomes 0 and block 1 of the page file becomes
`blockOf 150`, but the dirty bit is still 1 and the write counter is still
0. -/
theorem unpin_flush_keeps_dirty_uncounted :
    (runFromInit 1 RS_FIFO [.pin freshHandle 1, .dirty (handleOf 1 50)]).map
      (fun s => (getFrameContents s, getDirtyFlags s, getFixCounts s, s.bmi.numWrite,
        s.store.blocks[1]?,
        (unpinPage s (handleOf 1 50)).1, getFixCounts (unpinPage s (handleOf 1 50)).2,
        getDirtyFlags (unpinPage s (handleOf 1 50)).2,
        (unpinPage s (handleOf 1 50)).2.bmi.numWrite,
        (unpinPage s (handleOf 1 50)).2.store.blocks[1]?))
    = some ([1], [1], [1], 0, some (blockOf 11), RC_OK, [0], [1], 0, some (blockOf 150)) := by
  rfl

/-- C10, as the claim states it, fails: after `pinPage 1`, `unpinPage 1` the
pin count of page 1 is 0; a second `unpinPage 1` returns `RC_OK` and leaves
the pin count at -1. -/
theorem unpin_at_zero_goes_negative :
    (runFromInit 1 RS_FIFO [.pin freshHandle 1, .unpin (handleOf 1 0)]).map
      (fun s => (getFrameContents s, getFixCounts s,
        (unpinPage s (handleOf 1 0)).1, getFixCounts (unpinPage s (handleOf 1 0)).2))
    = some ([1], [0], RC_OK, [-1]) := by
  rfl

/-- C11, as the claim states it, fails for the handle page number `NO_PAGE`:
in the one-frame FIFO pool fresh from `initBufferPool` the only frame is empty
(`getFrameContents` is `[-1]`), so `-1` is not the resident page of any
non-empty frame; yet `searchPageFromBuffer` finds the empty frame, `unpinPage`
returns `RC_OK` and leaves its pin count at `-1`, `markDirty` returns `RC_OK`
and sets its dirty bit, and `forcePage` returns `RC_WRITE_PAGE_FAILED`. -/
theorem negative_handle_matches_empty_frame :
    (runFromInit 1 RS_FIFO []).map
      (fun s => (getFrameContents s, resident s (-1),
        (unpinPage s (handleOf (-1) 0)).1, getFixCounts (unpinPage s (handleOf (-1) 0)).2,
        (markDirty s (handleOf (-1) 50)).1, getDirtyFlags (markDirty s (handleOf (-1) 50)).2,
        (forcePage s (handleOf (-1) 0)).1))
    = some ([-1], true, RC_OK, [-1], RC_OK, [1], RC_WRITE_PAGE_FAILED) := by
  rfl

/-- C12, as the claim states it, fails: in the one-frame FIFO pool, page 1 is
pinned and marked dirty with the caller's buffer at address 50 (filled with
150).  `forcePage` on the handle returns `RC_OK` and block 1 of the page file
changes from the old content to the frame's buffer, but the write counter is
0 before and 0 after the call. -/
theorem forcePage_write_not_counted :
    (runFromInit 1 RS_FIFO [.pin freshHandle 1, .dirty (handleOf 1 50)]).map
      (fun s => (getFrameContents s, s.bm.mgmtData.map (fun f => s.mem f.data),
        s.store.blocks[1]?, s.bmi.numWrite,
        (forcePage s (handleOf 1 50)).1, (forcePage s (handleOf 1 50)).2.store.blocks[1]?,
        (forcePage s (handleOf 1 50)).2.bmi.numWrite))
    = some ([1], [blockOf 150], some (blockOf 11), 0, RC_OK, some (blockOf 150), 0) := by
  rfl

/-- C13, as the claim states it, fails when the page file cannot be written:
over `roStore` the one-frame FIFO pool holds page 1, unpinned and dirty, with
the buffer at address 50 (filled with 150).  `forceFlushPool` returns `RC_OK`,
clears the dirty bit and counts one write, but block 1 of the page file still
has its old content. -/
theorem flush_failed_write_reported_ok :
    ((initBufferPool exMem (some roStore) (some "pages.bin") 1 RS_FIFO).2.bind
      (runCalls [.pin freshHandle 1, .dirty (handleOf 1 50), .unpin (handleOf 1 50)])).map
      (fun s => (s.bm.pageFile.isSome, getFrameContents s, getFixCounts s, getDirtyFlags s,
        s.bm.mgmtData.map (fun f => s.mem f.data), s.bmi.numWrite,
        (forceFlushPool s).1, getDirtyFlags (forceFlushPool s).2,
        (forceFlushPool s).2.bmi.numWrite, (forceFlushPool s).2.store.blocks[1]?))
    = some (true, [1], [0], [1], [blockOf 150], 0, RC_OK, [0], 1, some (blockOf 11)) := by
  rfl

/-- C18, as the claim states it, fails: in the two-frame LRU pool, page 1 is
pinned twice (a miss, then a hit that moves page 1 to the back of `arr`, now
`[-1, 1]`).  The pool is not full and page 2 is not resident; `pinPage 2`
returns `RC_OK` and loads page 2 into frame 0, which held page 1 with pin
count 2: page 1 is no longer resident and frame 1 is still empty. -/
theorem lru_admission_overwrites_resident_page :
    (runFromInit 2 RS_LRU [.pin freshHandle 1, .pin (handleOf 1 0) 1]).map
      (fun s => (getFrameContents s, getFixCounts s, s.bmi.arr, isFull s, resident s 2,
        (pinPage s (handleOf 1 0) 2).map
          (fun r => (r.1, getFrameContents r.2.2, getFixCounts r.2.2, resident r.2.2 1))))
    = some ([1, -1], [2, 0], [-1, 1], false, false, some (RC_OK, [2, -1], [1, 0], false)) := by
  rfl

/-- C20, as the claim states it, fails: in the two-frame LRU pool after
`pinPage 1`, `pinPage 1`, `pinPage 2` the recency array is `[2, 1]` while the
frames hold `[2, -1]`: page 1 is in `arr` but not resident, and `arr` has no
sentinel entry although one frame is empty. -/
theorem lru_recency_out_of_sync :
    (runFromInit 2 RS_LRU [.pin freshHandle 1, .pin (handleOf 1 0) 1, .pin (handleOf 1 0) 2]).map
      (fun s => (s.bmi.arr, getFrameContents s, resident s 1,
        s.bmi.arr.count (-1), (getFrameContents s).count (-1)))
    = some ([2, 1], [2, -1], false, 0, 1) := by
  rfl

/-- C14. No duplicate residency: in every state that a successful
`initBufferPool` (either strategy) followed by any sequence of `pinPage`,
`unpinPage`, `markDirty`, `forcePage` and `forceFlushPool` calls produces, two
different frames hold the same page number only when both are empty. -/
theorem no_duplicate_residency (s : World) (h : Reachable s) :
    ∀ (i j : Nat) (f g : Frame), s.bm.mgmtData[i]? = some f → s.bm.mgmtData[j]? = some g →
      i ≠ j → f.pageNum = g.pageNum → f.pageNum = NO_PAGE := by
  obtain ⟨mem, st, name, n, strat, s0, calls, hinit, hrun⟩ := h
  obtain ⟨-, hn⟩ := run_noDup (init_sized hinit) (init_noDup hinit) hrun
  intro i j f g hf hg hij hfg
  by_contra hne
  refine hij (hn i j f.pageNum ?_ ?_ hne)
  · unfold pageNums
    rw [List.getElem?_map, hf]
    rfl
  · unfold pageNums
    rw [List.getElem?_map, hg, hfg]
    rfl

/-- C14 at the three-frame LRU pool after pages 1, 2, 3, 2 were pinned and
released: the frames hold `[1, 2, 3]`, three different pages. -/
theorem no_duplicate_residency_witness :
    Reachable (exAfter 3 RS_LRU lruWitnessCalls) ∧
    (∀ (i j : Nat) (f g : Frame),
      (exAfter 3 RS_LRU lruWitnessCalls).bm.mgmtData[i]? = some f →
      (exAfter 3 RS_LRU lruWitnessCalls).bm.mgmtData[j]? = some g →
      i ≠ j → f.pageNum = g.pageNum → f.pageNum = NO_PAGE) ∧
    getFrameContents (exAfter 3 RS_LRU lruWitnessCalls) = [1, 2, 3] :=
  have hreach : Reachable (exAfter 3 RS_LRU lruWitnessCalls) :=
    ⟨exMem, exStore, "pages.bin", 3, RS_LRU, exInit 3 RS_LRU, lruWitnessCalls, rfl, rfl⟩
  ⟨hreach, no_duplicate_residency (exAfter 3 RS_LRU lruWitnessCalls) hreach, by rfl⟩

/-- C15. Empty-frame invariant: in every state that a successful
`initBufferPool` (either strategy) followed by calls with non-negative page
numbers and handle page numbers produces, every frame whose resident page is
`NO_PAGE` has pin count 0 and dirty bit 0; so wherever `getFrameContents`
reports `NO_PAGE`, `getFixCounts` reports 0 and `getDirtyFlags` reports 0
(false). -/
theorem empty_frames_unpinned_clean (mem : Ptr → Buffer) (st : PageStore) (name : String)
    (n : Int) (strat : ReplacementStrategy) (s0 s : World) (calls : List Call)
    (hinit : initBufferPool mem (some st) (some name) n strat = (RC_OK, some s0))
    (hcalls : ∀ c ∈ calls, c.nonneg = true)
    (hrun : runCalls calls s0 = some s) :
    (∀ f ∈ s.bm.mgmtData, f.pageNum = NO_PAGE → f.pinCount = 0 ∧ f.dirtyBit = 0) ∧
    ∀ i : Nat, (getFrameContents s)[i]? = some NO_PAGE →
      (getFixCounts s)[i]? = some 0 ∧ (getDirtyFlags s)[i]? = some 0 := by
  have h0 : EmptyClean s0.bm.mgmtData := by
    obtain ⟨-, h1, -⟩ := init_fields hinit
    rw [h1]
    intro f hf _
    exact (initFrames_mem hf).2
  obtain ⟨-, hn⟩ := run_invariant (fun w => EmptyClean w.bm.mgmtData)
    (fun c => c.nonneg = true) (fun c w w1 hc hw hp hr => call_emptyClean hc hw hp hr)
    calls s0 s hcalls (init_sized hinit) h0 hrun
  refine ⟨hn, ?_⟩
  intro i hi
  unfold getFrameContents at hi
  unfold getFixCounts getDirtyFlags
  rw [List.getElem?_map] at hi
  rw [List.getElem?_map, List.getElem?_map]
  cases hf : (s.bm.mgmtData.take s.bm.numPages.toNat)[i]? with
  | none => rw [hf] at hi; cases hi
  | some f =>
    rw [hf] at hi
    have he : f.pageNum = NO_PAGE := by simpa using hi
    obtain ⟨h1, h2⟩ := hn f (List.mem_of_mem_take (List.getElem?_mem hf)) he
    simp [h1, h2]

/-- C15 at the three-frame FIFO pool after `pinPage 1`, `markDirty` and
`unpinPage` on page 1: the two empty frames report pin count 0 and a clear
dirty bit. -/
theorem empty_frames_unpinned_clean_witness :
    initBufferPool exMem (some exStore) (some "pages.bin") 3 RS_FIFO
      = (RC_OK, some (exInit 3 RS_FIFO)) ∧
    (∀ c ∈ [Call.pin freshHandle 1, .dirty (handleOf 1 50), .unpin (handleOf 1 50)],
      c.nonneg = true) ∧
    runCalls [.pin freshHandle 1, .dirty (handleOf 1 50), .unpin (handleOf 1 50)]
      (exInit 3 RS_FIFO)
      = some (exAfter 3 RS_FIFO
        [.pin freshHandle 1, .dirty (handleOf 1 50), .unpin (handleOf 1 50)]) ∧
    ((∀ f ∈ (exAfter 3 RS_FIFO
        [.pin freshHandle 1, .dirty (handleOf 1 50), .unpin (handleOf 1 50)]).bm.mgmtData,
      f.pageNum = NO_PAGE → f.pinCount = 0 ∧ f.dirtyBit = 0) ∧
    ∀ i : Nat, (getFrameContents (exAfter 3 RS_FIFO
        [.pin freshHandle 1, .dirty (handleOf 1 50), .unpin (handleOf 1 50)]))[i]?
        = some NO_PAGE →
      (getFixCounts (exAfter 3 RS_FIFO
        [.pin freshHandle 1, .dirty (handleOf 1 50), .unpin (handleOf 1 50)]))[i]? = some 0 ∧
      (getDirtyFlags (exAfter 3 RS_FIFO
        [.pin freshHandle 1, .dirty (handleOf 1 50), .unpin (handleOf 1 50)]))[i]? = some 0) ∧
    (fun s => (getFrameContents s, getFixCounts s, getDirtyFlags s)) (exAfter 3 RS_FIFO
        [.pin freshHandle 1, .dirty (handleOf 1 50), .unpin (handleOf 1 50)])
      = ([1, -1, -1], [0, 0, 0], [1, 0, 0]) :=
  ⟨rfl, by decide, rfl,
    empty_frames_unpinned_clean exMem exStore "pages.bin" 3 RS_FIFO (exInit 3 RS_FIFO)
      (exAfter 3 RS_FIFO [.pin freshHandle 1, .dirty (handleOf 1 50), .unpin (handleOf 1 50)])
      [.pin freshHandle 1, .dirty (handleOf 1 50), .unpin (handleOf 1 50)] rfl (by decide) rfl,
    by rfl⟩

/-- C16. Occupancy bound: after a successful `initBufferPool` with `n` frames
(either strategy; `n > 0`, or the call would have failed) and any sequence of
calls of the access interface, `pinPage` and `unpinPage` among them, the
capacity is still `n` and the occupancy counter satisfies
`0 <= frameCnt <= n`. -/
theorem occupancy_bounded (mem : Ptr → Buffer) (st : PageStore) (name : String)
    (n : Int) (strat : ReplacementStrategy) (s0 s : World) (calls : List Call)
    (hinit : initBufferPool mem (some st) (some name) n strat = (RC_OK, some s0))
    (hrun : runCalls calls s0 = some s) :
    0 < n ∧ s.bmi.capacity = n ∧ 0 ≤ s.bmi.frameCnt ∧ s.bmi.frameCnt ≤ n := by
  obtain ⟨hn, -, hcap, -, hcnt, -⟩ := init_fields hinit
  obtain ⟨h1, h2, h3⟩ := run_count (init_sized hinit) (by omega) hrun
  refine ⟨hn, h1.trans hcap, h2, ?_⟩
  omega

/-- C16 at the three-frame LRU pool after pages 1, 2, 3, 2 were pinned and
released: the occupancy counter is 3. -/
theorem occupancy_bounded_witness :
    initBufferPool exMem (some exStore) (some "pages.bin") 3 RS_LRU
      = (RC_OK, some (exInit 3 RS_LRU)) ∧
    runCalls lruWitnessCalls (exInit 3 RS_LRU) = some (exAfter 3 RS_LRU lruWitnessCalls) ∧
    ((0 : Int) < 3 ∧ (exAfter 3 RS_LRU lruWitnessCalls).bmi.capacity = 3 ∧
      0 ≤ (exAfter 3 RS_LRU lruWitnessCalls).bmi.frameCnt ∧
      (exAfter 3 RS_LRU lruWitnessCalls).bmi.frameCnt ≤ 3) ∧
    (exAfter 3 RS_LRU lruWitnessCalls).bmi.frameCnt = 3 :=
  ⟨rfl, rfl,
    occupancy_bounded exMem exStore "pages.bin" 3 RS_LRU (exInit 3 RS_LRU)
      (exAfter 3 RS_LRU lruWitnessCalls) lruWitnessCalls rfl rfl,
    by rfl⟩

/-- C17, as the claim states it, fails: in the three-frame FIFO pool, page 0
is loaded first and stays pinned while pages 1 and 2 are loaded and released;
`pinPage 3` skips the pinned page 0 and evicts page 1; then pages 0 and 3 are
released.  The load history is `[0, 2, 3]`, no frame is pinned, the pool is
full and page 4 is not resident; `pinPage 4` evicts page 2 and keeps page 0,
the unpinned page with the earliest load, because `front` moved past the
frame of page 0 when that frame was skipped. -/
theorem fifo_skipped_page_loses_position :
    ((initBufferPool exMem (some exStore) (some "pages.bin") 3 RS_FIFO).2.bind
      (fun s0 => runCallsLog fifoSkipCalls s0 [])).map
      (fun r => (r.2, getFrameContents r.1, getFixCounts r.1, isFull r.1, resident r.1 4,
        (pinPage r.1 (handleOf 3 1) 4).map (fun x => (x.1, getFrameContents x.2.2))))
    = some ([0, 2, 3], [0, 3, 2], [0, 0, 0], true, false, some (RC_OK, [0, 3, 4])) := by
  rfl

/-- C17 (amended). FIFO victim among pinned pages: in a full FIFO pool of the
shape `initBufferPool` builds in which some frame has pin count 0, let the
frames at `front`, `front + 1`, ... (circularly) be pinned for `k` steps and
let the next one, `fv` at index `(front + k) mod capacity`, have a pin count
that is not positive.  Then `pinPage` of a page `pageNum >= 0` that is not
resident and whose read succeeds returns `RC_OK`, replaces the page of `fv`
by `pageNum` (pin count 1, dirty bit 0) and leaves every other frame as it
was; afterwards `rear` is the victim's index and `front` the index after it.
So the victim is the first unpinned frame from `front` on, and the pinned
frames that were skipped now lie behind `front`: they have lost their place
in the queue. -/
theorem fifo_evicts_first_unpinned_from_front (s : World) (page : BM_PageHandle)
    (pageNum : Int) (k : Nat) (fv : Frame)
    (hshape : Shaped s) (hstrat : s.bm.strategy = RS_FIFO) (hfull : isFull s = true)
    (hsome : countUnpinned s ≠ 0)
    (hk : (k : Int) < s.bmi.capacity)
    (hskip : ∀ j : Nat, j < k →
      ∃ f, frameAt s.bm.mgmtData ((s.bmi.front + j).tmod s.bmi.capacity) = some f ∧
        0 < f.pinCount)
    (hvic : frameAt s.bm.mgmtData ((s.bmi.front + k).tmod s.bmi.capacity) = some fv)
    (hfree : fv.pinCount ≤ 0)
    (hp : 0 ≤ pageNum) (hmiss : searchPageFromBuffer s pageNum = none)
    (hread : ReadSucceeds s.store pageNum) :
    ∃ (page1 : BM_PageHandle) (s1 : World),
      pinPage s page pageNum = some (RC_OK, page1, s1) ∧
      s1.bm.mgmtData = s.bm.mgmtData.set ((s.bmi.front + k).tmod s.bmi.capacity).toNat
        { fv with pageNum := pageNum, pinCount := 1, dirtyBit := 0 } ∧
      s1.bmi.rear = (s.bmi.front + k).tmod s.bmi.capacity ∧
      s1.bmi.front = ((s.bmi.front + k).tmod s.bmi.capacity + 1).tmod s.bmi.capacity ∧
      s1.bmi.frameCnt = s.bmi.frameCnt := by
  have hcap := hshape.capacity_pos
  have hskipEq := skipPinned_first hcap k s.bmi.capacity.toNat s.bmi.front fv (by omega)
    hshape.front_range.1 hshape.front_range.2 hskip hvic (by omega)
  have hrange := tmod_range (a := s.bmi.front + k) (n := s.bmi.capacity)
    (by have := hshape.front_range.1; omega) hcap
  obtain ⟨s1, hpin, h1, h2, h3, h4, -, -⟩ :=
    pinPageWithFIFO_miss_full page hcap hp hmiss hfull hsome hskipEq hvic hrange.2 hread
  exact ⟨_, s1, (pinPage_eq_FIFO page hshape.attached hstrat hp).trans hpin, h1, h3, h2, h4⟩

/-- C17 (amended) at the three-frame FIFO pool after `fifoPinnedCalls`: the
frames hold `[0, 1, 2]`, page 0 (at `front`) is pinned, so `pinPage 3` skips
one frame and evicts page 1; the frames become `[0, 3, 2]` and `front` moves
on to index 2. -/
theorem fifo_evicts_first_unpinned_from_front_witness :
    Shaped (exAfter 3 RS_FIFO fifoPinnedCalls) ∧
    (exAfter 3 RS_FIFO fifoPinnedCalls).bm.strategy = RS_FIFO ∧
    isFull (exAfter 3 RS_FIFO fifoPinnedCalls) = true ∧
    countUnpinned (exAfter 3 RS_FIFO fifoPinnedCalls) ≠ 0 ∧
    ((1 : Nat) : Int) < (exAfter 3 RS_FIFO fifoPinnedCalls).bmi.capacity ∧
    (∀ j : Nat, j < 1 →
      ∃ f, frameAt (exAfter 3 RS_FIFO fifoPinnedCalls).bm.mgmtData
          (((exAfter 3 RS_FIFO fifoPinnedCalls).bmi.front + j).tmod
            (exAfter 3 RS_FIFO fifoPinnedCalls).bmi.capacity) = some f ∧
        0 < f.pinCount) ∧
    frameAt (exAfter 3 RS_FIFO fifoPinnedCalls).bm.mgmtData
      (((exAfter 3 RS_FIFO fifoPinnedCalls).bmi.front + (1 : Nat)).tmod
        (exAfter 3 RS_FIFO fifoPinnedCalls).bmi.capacity)
      = some { pageNum := 1, pinCount := 0, dirtyBit := 0, data := 1 } ∧
    (0 : Int) ≤ 3 ∧ searchPageFromBuffer (exAfter 3 RS_FIFO fifoPinnedCalls) 3 = none ∧
    ReadSucceeds (exAfter 3 RS_FIFO fifoPinnedCalls).store 3 ∧
    (∃ (page1 : BM_PageHandle) (s1 : World),
      pinPage (exAfter 3 RS_FIFO fifoPinnedCalls) (handleOf 2 2) 3 = some (RC_OK, page1, s1) ∧
      s1.bm.mgmtData = (exAfter 3 RS_FIFO fifoPinnedCalls).bm.mgmtData.set
        (((exAfter 3 RS_FIFO fifoPinnedCalls).bmi.front + (1 : Nat)).tmod
          (exAfter 3 RS_FIFO fifoPinnedCalls).bmi.capacity).toNat
        { pageNum := 3, pinCount := 1, dirtyBit := 0, data := 1 } ∧
      s1.bmi.rear = ((exAfter 3 RS_FIFO fifoPinnedCalls).bmi.front + (1 : Nat)).tmod
        (exAfter 3 RS_FIFO fifoPinnedCalls).bmi.capacity ∧
      s1.bmi.front = (((exAfter 3 RS_FIFO fifoPinnedCalls).bmi.front + (1 : Nat)).tmod
        (exAfter 3 RS_FIFO fifoPinnedCalls).bmi.capacity + 1).tmod
          (exAfter 3 RS_FIFO fifoPinnedCalls).bmi.capacity ∧
      s1.bmi.frameCnt = (exAfter 3 RS_FIFO fifoPinnedCalls).bmi.frameCnt) ∧
    (fun s => (getFrameContents s, getFixCounts s, s.bmi.front,
        (pinPage s (handleOf 2 2) 3).map
          (fun r => (r.1, getFrameContents r.2.2, r.2.2.bmi.front, r.2.2.bmi.rear))))
      (exAfter 3 RS_FIFO fifoPinnedCalls)
      = ([0, 1, 2], [1, 0, 0], 0, some (RC_OK, [0, 3, 2], 2, 1)) :=
  have hshape : Shaped (exAfter 3 RS_FIFO fifoPinnedCalls) :=
    ⟨by decide, by decide, by rfl, by rfl, by decide, by decide, by decide⟩
  have hskip : ∀ j : Nat, j < 1 →
      ∃ f, frameAt (exAfter 3 RS_FIFO fifoPinnedCalls).bm.mgmtData
          (((exAfter 3 RS_FIFO fifoPinnedCalls).bmi.front + j).tmod
            (exAfter 3 RS_FIFO fifoPinnedCalls).bmi.capacity) = some f ∧
        0 < f.pinCount := fun j hj =>
    match j, hj with
    | 0, _ => ⟨{ pageNum := 0, pinCount := 1, dirtyBit := 0, data := 0 }, by rfl, by decide⟩
  ⟨hshape, by rfl, by rfl, by decide, by decide, hskip, by rfl, by decide, by rfl,
    ⟨by rfl, by rfl⟩,
    fifo_evicts_first_unpinned_from_front (exAfter 3 RS_FIFO fifoPinnedCalls) (handleOf 2 2) 3 1
      { pageNum := 1, pinCount := 0, dirtyBit := 0, data := 1 } hshape (by rfl) (by rfl)
      (by decide) (by decide) hskip (by rfl) (by decide) (by decide) (by rfl)
      ⟨by rfl, by rfl⟩,
    by rfl⟩

/-- C19. FIFO admission into a non-full pool: take any FIFO pool fresh from
`initBufferPool` over the device `st` and any sequence of calls in which the
read of every `pinPage` succeeds.  In the state `s` it produces, `frameCnt`
is the number of non-empty frames, and if the pool is not full the frame at
index `(rear + 1) mod capacity` is empty; a `pinPage` of a page `pageNum >= 0`
that is not resident and whose read succeeds then returns `RC_OK`, loads the
page into that empty frame (pin count 1, dirty bit 0), leaves every other
frame as it was, so that no resident page is displaced, and raises `frameCnt`
by exactly one. -/
theorem fifo_admission_slot_empty (mem : Ptr → Buffer) (st : PageStore) (name : String)
    (n : Int) (s0 s : World) (calls : List Call)
    (hinit : initBufferPool mem (some st) (some name) n RS_FIFO = (RC_OK, some s0))
    (hreads : ∀ c ∈ calls, c.readsSucceed st = true)
    (hrun : runCalls calls s0 = some s) :
    s.bmi.frameCnt = (s.bm.mgmtData.countP (fun f => decide (f.pageNum ≠ NO_PAGE)) : Nat) ∧
    (isFull s = false →
      (∃ f, frameAt s.bm.mgmtData ((s.bmi.rear + 1).tmod s.bmi.capacity) = some f ∧
        f.pageNum = NO_PAGE) ∧
      ∀ (page : BM_PageHandle) (pageNum : Int), 0 ≤ pageNum → resident s pageNum = false →
        ReadSucceeds st pageNum →
        ∃ (page1 : BM_PageHandle) (s1 : World) (f : Frame),
          pinPage s page pageNum = some (RC_OK, page1, s1) ∧
          frameAt s.bm.mgmtData ((s.bmi.rear + 1).tmod s.bmi.capacity) = some f ∧
          f.pageNum = NO_PAGE ∧
          s1.bm.mgmtData = s.bm.mgmtData.set ((s.bmi.rear + 1).tmod s.bmi.capacity).toNat
            { f with pageNum := pageNum, pinCount := 1, dirtyBit := 0 } ∧
          s1.bmi.frameCnt = s.bmi.frameCnt + 1) := by
  have h := run_fifoFill calls s0 s (init_fifoFill hinit) hreads hrun
  refine ⟨fifoFill_count h, ?_⟩
  intro hroom
  have hne : s.bmi.frameCnt ≠ s.bmi.capacity := by simpa [isFull] using hroom
  rcases h.layout with ⟨L, hL, hcnt, hlt, hrear, hpn⟩ | ⟨hfull, -⟩
  · have hk : (s.bmi.rear + 1).tmod s.bmi.capacity = (L.length : Int) := by
      rw [hrear, Int.sub_add_cancel]
      exact tmod_small (by omega) hlt
    have hlen : L.length < s.bm.mgmtData.length := by
      have := h.sized
      unfold Sized at this
      omega
    obtain ⟨f, hfa, hf⟩ := @frameAt_some s.bm.mgmtData (L.length : Int)
      (by omega) (by rw [Int.toNat_ofNat]; exact hlen)
    rw [Int.toNat_ofNat] at hf
    have hfe : f.pageNum = NO_PAGE := by
      obtain ⟨m, hm⟩ : ∃ m, s.bmi.capacity.toNat - L.length = m + 1 :=
        ⟨s.bmi.capacity.toNat - L.length - 1, by omega⟩
      have h1 := pageNums_getElem? s L.length
      rw [hf, hpn, hm, List.replicate_succ,
        List.getElem?_append_right (le_refl _), Nat.sub_self] at h1
      simpa using h1.symm
    refine ⟨⟨f, by rw [hk]; exact hfa, hfe⟩, ?_⟩
    intro page pageNum hp hmiss hread
    have hmiss1 : searchPageFromBuffer s pageNum = none := by
      unfold resident at hmiss
      cases hs : searchPageFromBuffer s pageNum with
      | none => rfl
      | some i => rw [hs] at hmiss; cases hmiss
    have hread1 : ReadSucceeds s.store pageNum := by
      unfold ReadSucceeds
      rw [h.ensureFault, h.readFault]
      exact hread
    obtain ⟨s1, g, hpin, hga, hg, hge, hfr, hcnt1, -, -, -⟩ :=
      fifo_admit page h.capacity_pos h.sized hp hmiss1 hcnt hlt hrear hpn hread1
    refine ⟨_, s1, g, (pinPage_eq_FIFO page h.attached h.fifo hp).trans hpin, hga, hge, ?_,
      hcnt1⟩
    rw [hk, Int.toNat_ofNat]
    exact hfr
  · exact absurd hfull hne

/-- C19 at the three-frame FIFO pool after pages 1 and 2 were loaded, page 1
marked dirty, released and flushed: `frameCnt` is 2, frame 2 (the frame after
`rear`) is empty, and `pinPage 3` loads page 3 there, keeping pages 1 and 2. -/
theorem fifo_admission_slot_empty_witness :
    initBufferPool exMem (some exStore) (some "pages.bin") 3 RS_FIFO
      = (RC_OK, some (exInit 3 RS_FIFO)) ∧
    (∀ c ∈ fifoAdmitCalls, c.readsSucceed exStore = true) ∧
    runCalls fifoAdmitCalls (exInit 3 RS_FIFO) = some (exAfter 3 RS_FIFO fifoAdmitCalls) ∧
    ((exAfter 3 RS_FIFO fifoAdmitCalls).bmi.frameCnt
      = ((exAfter 3 RS_FIFO fifoAdmitCalls).bm.mgmtData.countP
          (fun f => decide (f.pageNum ≠ NO_PAGE)) : Nat) ∧
    (isFull (exAfter 3 RS_FIFO fifoAdmitCalls) = false →
      (∃ f, frameAt (exAfter 3 RS_FIFO fifoAdmitCalls).bm.mgmtData
          (((exAfter 3 RS_FIFO fifoAdmitCalls).bmi.rear + 1).tmod
            (exAfter 3 RS_FIFO fifoAdmitCalls).bmi.capacity) = some f ∧
        f.pageNum = NO_PAGE) ∧
      ∀ (page : BM_PageHandle) (pageNum : Int), 0 ≤ pageNum →
        resident (exAfter 3 RS_FIFO fifoAdmitCalls) pageNum = false →
        ReadSucceeds exStore pageNum →
        ∃ (page1 : BM_PageHandle) (s1 : World) (f : Frame),
          pinPage (exAfter 3 RS_FIFO fifoAdmitCalls) page pageNum = some (RC_OK, page1, s1) ∧
          frameAt (exAfter 3 RS_FIFO fifoAdmitCalls).bm.mgmtData
            (((exAfter 3 RS_FIFO fifoAdmitCalls).bmi.rear + 1).tmod
              (exAfter 3 RS_FIFO fifoAdmitCalls).bmi.capacity) = some f ∧
          f.pageNum = NO_PAGE ∧
          s1.bm.mgmtData = (exAfter 3 RS_FIFO fifoAdmitCalls).bm.mgmtData.set
            (((exAfter 3 RS_FIFO fifoAdmitCalls).bmi.rear + 1).tmod
              (exAfter 3 RS_FIFO fifoAdmitCalls).bmi.capacity).toNat
            { f with pageNum := pageNum, pinCount := 1, dirtyBit := 0 } ∧
          s1.bmi.frameCnt = (exAfter 3 RS_FIFO fifoAdmitCalls).bmi.frameCnt + 1)) ∧
    (fun s => (isFull s, getFrameContents s, s.bmi.frameCnt, s.bmi.rear, resident s 3,
        (pinPage s (handleOf 2 1) 3).map
          (fun r => (r.1, getFrameContents r.2.2, r.2.2.bmi.frameCnt))))
      (exAfter 3 RS_FIFO fifoAdmitCalls)
      = (false, [1, 2, -1], 2, 1, false, some (RC_OK, [1, 2, 3], 3)) :=
  ⟨rfl, by decide, rfl,
    fifo_admission_slot_empty exMem exStore "pages.bin" 3 (exInit 3 RS_FIFO)
      (exAfter 3 RS_FIFO fifoAdmitCalls) fifoAdmitCalls rfl (by decide) rfl,
    by rfl⟩

/-- C21. Function `updateLRUOrder` on a recency array `arr` whose length is
`capacity`.  If `p` occurs in `arr`, the call returns `RC_OK` and the new
array is `movedToEnd p arr`: writing `arr = A ++ p :: B` with `p` not in `A`
(so this `p` is the first occurrence), the new array is `A ++ B ++ [p]`; it
has the length of `arr`, holds the same entries with the same multiplicities
(a permutation of `arr`), keeps the other entries in their order and has `p`
at the last index.  If `p` does not occur, the call returns
`RC_PAGE_NOT_EXIST` and the array is unchanged. -/
theorem updateLRUOrder_moves_first_occurrence_to_end (capacity : Int) (arr : List Int)
    (p : Int) (hlen : (arr.length : Int) = capacity) :
    (p ∈ arr →
      updateLRUOrder capacity arr p = (RC_OK, movedToEnd p arr) ∧
      (∃ A B : List Int, arr = A ++ p :: B ∧ p ∉ A ∧ movedToEnd p arr = A ++ B ++ [p]) ∧
      (movedToEnd p arr).length = arr.length ∧
      (movedToEnd p arr).Perm arr ∧
      (movedToEnd p arr)[arr.length - 1]? = some p) ∧
    (p ∉ arr → updateLRUOrder capacity arr p = (RC_PAGE_NOT_EXIST, arr)) := by
  refine ⟨?_, updateLRUOrder_absent⟩
  intro hmem
  obtain ⟨A, B, rfl, hA⟩ := first_occurrence hmem
  have hsplit := movedToEnd_split (B := B) hA
  refine ⟨?_, ⟨A, B, rfl, hA, hsplit⟩, ?_, ?_, ?_⟩
  · rw [hsplit]
    exact updateLRUOrder_found hlen hA
  · rw [hsplit]
    simp
  · rw [hsplit, List.append_assoc]
    exact List.Perm.append_left A (List.perm_append_singleton p B)
  · rw [hsplit]
    have : (A ++ p :: B).length - 1 = (A ++ B).length := by simp
    rw [this, List.getElem?_append_right (le_refl _)]
    simp

/-- C21 at `arr = [3, 1, 2, 1]`, capacity 4: an access to page 1 gives
`[3, 2, 1, 1]` (the first 1 moved to the end), and an access to page 7, which
does not occur, is refused. -/
theorem updateLRUOrder_moves_first_occurrence_to_end_witness :
    (([3, 1, 2, 1] : List Int).length : Int) = 4 ∧
    (((1 : Int) ∈ ([3, 1, 2, 1] : List Int) →
      updateLRUOrder 4 [3, 1, 2, 1] 1 = (RC_OK, movedToEnd 1 [3, 1, 2, 1]) ∧
      (∃ A B : List Int, [3, 1, 2, 1] = A ++ 1 :: B ∧ (1 : Int) ∉ A ∧
        movedToEnd 1 [3, 1, 2, 1] = A ++ B ++ [1]) ∧
      (movedToEnd 1 [3, 1, 2, 1]).length = ([3, 1, 2, 1] : List Int).length ∧
      (movedToEnd 1 [3, 1, 2, 1]).Perm [3, 1, 2, 1] ∧
      (movedToEnd 1 [3, 1, 2, 1])[([3, 1, 2, 1] : List Int).length - 1]? = some 1) ∧
    ((1 : Int) ∉ ([3, 1, 2, 1] : List Int) →
      updateLRUOrder 4 [3, 1, 2, 1] 1 = (RC_PAGE_NOT_EXIST, [3, 1, 2, 1]))) ∧
    (1 : Int) ∈ ([3, 1, 2, 1] : List Int) ∧
    updateLRUOrder 4 [3, 1, 2, 1] 1 = (RC_OK, [3, 2, 1, 1]) ∧
    updateLRUOrder 4 [3, 1, 2, 1] 7 = (RC_PAGE_NOT_EXIST, [3, 1, 2, 1]) :=
  ⟨by decide, updateLRUOrder_moves_first_occurrence_to_end 4 [3, 1, 2, 1] 1 (by decide),
    by decide, by rfl, by rfl⟩

/-- C22. The FIFO victim scan terminates and stays in range: in a pool with
`capacity > 0` frames, `0 <= front < capacity`, `frameCnt != 0` and some frame
with pin count 0, there is a number `k < capacity` such that the `k` frames
from `front` on (circularly) are pinned and the next one, `fv` at index
`(front + k) mod capacity`, has a pin count that is not positive; the loop of
`removePageWithFIFO` stops there after `k` advances (the scan with room for
`k` advances, and the one with room for `capacity` advances that the function
runs, both end at that index), and `removePageWithFIFO` returns `RC_OK`,
resets that frame and leaves `front` (the index after the victim) and `rear`
within `[0, capacity)` with `(rear + 1) mod capacity` the victim's index. -/
theorem fifo_victim_scan_terminates (s : World) (page : BM_PageHandle)
    (hcap : 0 < s.bmi.capacity) (hsized : Sized s)
    (hfront : 0 ≤ s.bmi.front ∧ s.bmi.front < s.bmi.capacity)
    (hocc : s.bmi.frameCnt ≠ 0) (hfree : ∃ f ∈ s.bm.mgmtData, f.pinCount = 0) :
    ∃ (k : Nat) (fv : Frame) (s1 : World),
      (k : Int) < s.bmi.capacity ∧
      (∀ j : Nat, j < k →
        ∃ f, frameAt s.bm.mgmtData ((s.bmi.front + j).tmod s.bmi.capacity) = some f ∧
          0 < f.pinCount) ∧
      frameAt s.bm.mgmtData ((s.bmi.front + k).tmod s.bmi.capacity) = some fv ∧
      fv.pinCount ≤ 0 ∧
      skipPinned s.bm.mgmtData s.bmi.capacity k s.bmi.front
        = some ((s.bmi.front + k).tmod s.bmi.capacity) ∧
      skipPinned s.bm.mgmtData s.bmi.capacity s.bmi.capacity.toNat s.bmi.front
        = some ((s.bmi.front + k).tmod s.bmi.capacity) ∧
      (0 ≤ (s.bmi.front + k).tmod s.bmi.capacity ∧
        (s.bmi.front + k).tmod s.bmi.capacity < s.bmi.capacity) ∧
      removePageWithFIFO s page = some (RC_OK, s1) ∧
      s1.bm.mgmtData = s.bm.mgmtData.set ((s.bmi.front + k).tmod s.bmi.capacity).toNat
        { fv with pageNum := NO_PAGE, pinCount := 0, dirtyBit := 0 } ∧
      s1.bmi.capacity = s.bmi.capacity ∧
      s1.bmi.front = ((s.bmi.front + k).tmod s.bmi.capacity + 1).tmod s.bmi.capacity ∧
      (0 ≤ s1.bmi.front ∧ s1.bmi.front < s.bmi.capacity) ∧
      (0 ≤ s1.bmi.rear ∧ s1.bmi.rear < s.bmi.capacity) ∧
      (s1.bmi.rear + 1).tmod s.bmi.capacity = (s.bmi.front + k).tmod s.bmi.capacity := by
  obtain ⟨k, fv, hk, hskip, hfv, hpv⟩ :=
    first_unpinned hcap hsized hfront.1 hfront.2 hfree
  have hnp : ¬ fv.pinCount > 0 := by omega
  have hskip1 := skipPinned_first hcap k k s.bmi.front fv (le_refl _) hfront.1 hfront.2 hskip
    hfv hnp
  have hskip2 := skipPinned_first hcap k s.bmi.capacity.toNat s.bmi.front fv (by omega)
    hfront.1 hfront.2 hskip hfv hnp
  have hr := tmod_range (a := s.bmi.front + k) (n := s.bmi.capacity) (by omega) hcap
  have hne : isEmpty s = false := by simp [isEmpty, hocc]
  have hcnt : countUnpinned s ≠ 0 := by
    obtain ⟨f, hf, hp⟩ := hfree
    have hpos : 0 < countUnpinned s := by
      unfold countUnpinned
      unfold Sized at hsized
      rw [← hsized, List.take_length]
      exact List.countP_pos_iff.2 ⟨f, hf, by simp [hp]⟩
    omega
  obtain ⟨s1, hrem⟩ : ∃ s1, removePageWithFIFO s page = some (RC_OK, s1) := by
    simp only [removePageWithFIFO, hne, hcnt, hskip2, hfv, if_false, Bool.false_eq_true]
    exact ⟨_, rfl⟩
  rcases removePageWithFIFO_step hrem with h | ⟨-, -, -, v1, fv1, hs1, hfv1, h3, -, -, -, h7, h8,
    -, h10, -⟩
  · exact absurd rfl h.1
  · rw [hskip2] at hs1
    cases hs1
    rw [hfv] at hfv1
    cases hfv1
    have hr2 := tmod_range (a := (s.bmi.front + k).tmod s.bmi.capacity + 1)
      (n := s.bmi.capacity) (by omega) hcap
    refine ⟨k, fv, s1, hk, hskip, hfv, hpv, hskip1, hskip2, hr, hrem, h3, h10, h7, ?_, ?_, ?_⟩
    · rw [h7]; exact hr2
    · rw [h8]
      split <;> omega
    · rw [h8]
      exact tmod_succ_pred hr.1 hr.2

/-- C22 at the three-frame FIFO pool after `fifoPinnedCalls` (frames
`[0, 1, 2]`, page 0 at `front = 0` pinned): the scan advances once and stops
at frame 1; afterwards `front = 2`, `rear = 0` and the frames hold
`[0, -1, 2]`. -/
theorem fifo_victim_scan_terminates_witness :
    (0 : Int) < (exAfter 3 RS_FIFO fifoPinnedCalls).bmi.capacity ∧
    Sized (exAfter 3 RS_FIFO fifoPinnedCalls) ∧
    (0 ≤ (exAfter 3 RS_FIFO fifoPinnedCalls).bmi.front ∧
      (exAfter 3 RS_FIFO fifoPinnedCalls).bmi.front
        < (exAfter 3 RS_FIFO fifoPinnedCalls).bmi.capacity) ∧
    (exAfter 3 RS_FIFO fifoPinnedCalls).bmi.frameCnt ≠ 0 ∧
    (∃ f ∈ (exAfter 3 RS_FIFO fifoPinnedCalls).bm.mgmtData, f.pinCount = 0) ∧
    (∃ (k : Nat) (fv : Frame) (s1 : World),
      (k : Int) < (exAfter 3 RS_FIFO fifoPinnedCalls).bmi.capacity ∧
      (∀ j : Nat, j < k →
        ∃ f, frameAt (exAfter 3 RS_FIFO fifoPinnedCalls).bm.mgmtData
            (((exAfter 3 RS_FIFO fifoPinnedCalls).bmi.front + j).tmod
              (exAfter 3 RS_FIFO fifoPinnedCalls).bmi.capacity) = some f ∧
          0 < f.pinCount) ∧
      frameAt (exAfter 3 RS_FIFO fifoPinnedCalls).bm.mgmtData
        (((exAfter 3 RS_FIFO fifoPinnedCalls).bmi.front + k).tmod
          (exAfter 3 RS_FIFO fifoPinnedCalls).bmi.capacity) = some fv ∧
      fv.pinCount ≤ 0 ∧
      skipPinned (exAfter 3 RS_FIFO fifoPinnedCalls).bm.mgmtData
        (exAfter 3 RS_FIFO fifoPinnedCalls).bmi.capacity k
        (exAfter 3 RS_FIFO fifoPinnedCalls).bmi.front
        = some (((exAfter 3 RS_FIFO fifoPinnedCalls).bmi.front + k).tmod
          (exAfter 3 RS_FIFO fifoPinnedCalls).bmi.capacity) ∧
      skipPinned (exAfter 3 RS_FIFO fifoPinnedCalls).bm.mgmtData
        (exAfter 3 RS_FIFO fifoPinnedCalls).bmi.capacity
        (exAfter 3 RS_FIFO fifoPinnedCalls).bmi.capacity.toNat
        (exAfter 3 RS_FIFO fifoPinnedCalls).bmi.front
        = some (((exAfter 3 RS_FIFO fifoPinnedCalls).bmi.front + k).tmod
          (exAfter 3 RS_FIFO fifoPinnedCalls).bmi.capacity) ∧
      (0 ≤ ((exAfter 3 RS_FIFO fifoPinnedCalls).bmi.front + k).tmod
          (exAfter 3 RS_FIFO fifoPinnedCalls).bmi.capacity ∧
        ((exAfter 3 RS_FIFO fifoPinnedCalls).bmi.front + k).tmod
          (exAfter 3 RS_FIFO fifoPinnedCalls).bmi.capacity
          < (exAfter 3 RS_FIFO fifoPinnedCalls).bmi.capacity) ∧
      removePageWithFIFO (exAfter 3 RS_FIFO fifoPinnedCalls) (handleOf 2 2)
        = some (RC_OK, s1) ∧
      s1.bm.mgmtData = (exAfter 3 RS_FIFO fifoPinnedCalls).bm.mgmtData.set
        (((exAfter 3 RS_FIFO fifoPinnedCalls).bmi.front + k).tmod
          (exAfter 3 RS_FIFO fifoPinnedCalls).bmi.capacity).toNat
        { fv with pageNum := NO_PAGE, pinCount := 0, dirtyBit := 0 } ∧
      s1.bmi.capacity = (exAfter 3 RS_FIFO fifoPinnedCalls).bmi.capacity ∧
      s1.bmi.front = (((exAfter 3 RS_FIFO fifoPinnedCalls).bmi.front + k).tmod
        (exAfter 3 RS_FIFO fifoPinnedCalls).bmi.capacity + 1).tmod
          (exAfter 3 RS_FIFO fifoPinnedCalls).bmi.capacity ∧
      (0 ≤ s1.bmi.front ∧ s1.bmi.front < (exAfter 3 RS_FIFO fifoPinnedCalls).bmi.capacity) ∧
      (0 ≤ s1.bmi.rear ∧ s1.bmi.rear < (exAfter 3 RS_FIFO fifoPinnedCalls).bmi.capacity) ∧
      (s1.bmi.rear + 1).tmod (exAfter 3 RS_FIFO fifoPinnedCalls).bmi.capacity
        = ((exAfter 3 RS_FIFO fifoPinnedCalls).bmi.front + k).tmod
          (exAfter 3 RS_FIFO fifoPinnedCalls).bmi.capacity) ∧
    (fun s => (getFrameContents s, getFixCounts s, s.bmi.front,
        skipPinned s.bm.mgmtData s.bmi.capacity 0 s.bmi.front,
        skipPinned s.bm.mgmtData s.bmi.capacity 1 s.bmi.front,
        (removePageWithFIFO s (handleOf 2 2)).map
          (fun r => (r.1, getFrameContents r.2, r.2.bmi.front, r.2.bmi.rear))))
      (exAfter 3 RS_FIFO fifoPinnedCalls)
      = ([0, 1, 2], [1, 0, 0], 0, none, some 1, some (RC_OK, [0, -1, 2], 2, 0)) :=
  ⟨by decide, by rfl, by decide, by decide,
    ⟨{ pageNum := 1, pinCount := 0, dirtyBit := 0, data := 1 }, by decide, by rfl⟩,
    fifo_victim_scan_terminates (exAfter 3 RS_FIFO fifoPinnedCalls) (handleOf 2 2)
      (by decide) (by rfl) (by decide) (by decide)
      ⟨{ pageNum := 1, pinCount := 0, dirtyBit := 0, data := 1 }, by decide, by rfl⟩,
    by rfl⟩

/-- C8, as the claim states it, fails under LRU: over a page file whose block
2 cannot be read, the one-frame pool loads page 1, releases it, and fails to
load page 2 after evicting page 1.  The frame is now empty, `frameCnt` is 0
(not full), page 3 is not resident and its read would succeed, but `arr` is
still `[1]`; `pinPageWithLRU` looks for a free frame among the sentinel slots
of `arr`, finds none and `pinPage 3` returns `RC_PAGE_NOT_EXIST`.  Under FIFO
the same calls leave the same empty frame, and `pinPage 3` returns `RC_OK`,
loads page 3 and raises `frameCnt` to 1. -/
theorem lru_miss_with_capacity_refused :
    ((initBufferPool exMem (some flakyStore) (some "pages.bin") 1 RS_LRU).2.bind
      (runCalls [.pin freshHandle 1, .unpin (handleOf 1 0), .pin (handleOf 1 0) 2])).map
    (fun s => (getFrameContents s, s.bmi.arr, s.bmi.frameCnt, searchPageFromBuffer s 3,
      isFull s, s.store.ensureFault 4, s.store.readFault 3,
      (pinPage s (handleOf 1 0) 3).map (fun r => r.1)))
    = some ([-1], [1], 0, none, false, false, false, some RC_PAGE_NOT_EXIST) ∧
    ((initBufferPool exMem (some flakyStore) (some "pages.bin") 1 RS_FIFO).2.bind
      (runCalls [.pin freshHandle 1, .unpin (handleOf 1 0), .pin (handleOf 1 0) 2])).map
    (fun s => (getFrameContents s, s.bmi.frameCnt, searchPageFromBuffer s 3, isFull s,
      (pinPage s (handleOf 1 0) 3).map
        (fun r => (r.1, getFrameContents r.2.2, getFixCounts r.2.2, getDirtyFlags r.2.2,
          r.2.2.bmi.frameCnt, r.2.2.bmi.numRead - s.bmi.numRead,
          r.2.2.bmi.numWrite - s.bmi.numWrite))))
    = some ([-1], 0, none, false, some (RC_OK, [3], [1], [0], 1, 1, 0)) :=
  ⟨by rfl, by rfl⟩

/-- C10 (amended). In every state reached from `initBufferPool` by a sequence
of at most `INT_MAX` `pinPage`/`unpinPage`/`markDirty`/`forcePage`/
`forceFlushPool` calls in which every `unpinPage` releases a pin that is held
(the frame it finds has a positive pin count), every frame has
`pinCount >= 0` (and at most the number of calls, so that no `int` pin count
has overflowed).  `unpinPage` does not check the pin count: on a resident
page whose pin count is 0 it returns `RC_OK` and leaves the pin count at
-1. -/
theorem pin_counts_nonneg_when_balanced (mem : Ptr → Buffer) (st : PageStore) (name : String)
    (n : Int)
    (strat : ReplacementStrategy) (s0 s : World) (calls : List Call)
    (hinit : initBufferPool mem (some st) (some name) n strat = (RC_OK, some s0))
    (hlen : (calls.length : Int) ≤ INT_MAX)
    (hbal : balanced s0 calls = true) (hrun : runCalls calls s0 = some s) :
    (∀ f ∈ s.bm.mgmtData, 0 ≤ f.pinCount ∧ f.pinCount ≤ calls.length) ∧
    (∀ (page : BM_PageHandle) (i : Nat) (f : Frame),
      searchPageFromBuffer s page.pageNum = some i → s.bm.mgmtData[i]? = some f →
      f.pinCount = 0 →
      (unpinPage s page).1 = RC_OK ∧
        ∃ f1, (unpinPage s page).2.bm.mgmtData[i]? = some f1 ∧ f1.pinCount = -1) := by
  have h0 : PinsWithin 0 s0.bm.mgmtData := by
    obtain ⟨-, h1, -⟩ := init_fields hinit
    rw [h1]
    intro f hf
    have := (initFrames_mem hf).2.1
    omega
  have hrun1 := run_pinsWithin calls 0 s0 s (init_sized hinit) (le_refl _) (by omega) h0 hbal
    hrun
  rw [zero_add] at hrun1
  exact ⟨hrun1, fun _ _ _ hi hf h0 => unpinPage_at_zero hi hf h0⟩

/-- C10 (amended) at the one-frame FIFO pool after `pinPage 1`, `markDirty`,
`unpinPage`, `forceFlushPool`, `pinPage 2`. -/
theorem pin_counts_nonneg_when_balanced_witness :
    initBufferPool exMem (some exStore) (some "pages.bin") 1 RS_FIFO
      = (RC_OK, some (exInit 1 RS_FIFO)) ∧
    (([Call.pin freshHandle 1, .dirty (handleOf 1 0), .unpin (handleOf 1 0), .flush,
        .pin (handleOf 1 0) 2].length : Nat) : Int) ≤ INT_MAX ∧
    balanced (exInit 1 RS_FIFO)
      [.pin freshHandle 1, .dirty (handleOf 1 0), .unpin (handleOf 1 0), .flush,
        .pin (handleOf 1 0) 2] = true ∧
    runCalls [.pin freshHandle 1, .dirty (handleOf 1 0), .unpin (handleOf 1 0), .flush,
        .pin (handleOf 1 0) 2] (exInit 1 RS_FIFO)
      = some (exAfter 1 RS_FIFO [.pin freshHandle 1, .dirty (handleOf 1 0),
          .unpin (handleOf 1 0), .flush, .pin (handleOf 1 0) 2]) ∧
    (∀ f ∈ (exAfter 1 RS_FIFO [.pin freshHandle 1, .dirty (handleOf 1 0),
          .unpin (handleOf 1 0), .flush, .pin (handleOf 1 0) 2]).bm.mgmtData,
        0 ≤ f.pinCount ∧
        f.pinCount ≤ (([Call.pin freshHandle 1, .dirty (handleOf 1 0), .unpin (handleOf 1 0),
          .flush, .pin (handleOf 1 0) 2].length : Nat) : Int)) ∧
    getFixCounts (exAfter 1 RS_FIFO [.pin freshHandle 1, .dirty (handleOf 1 0),
          .unpin (handleOf 1 0), .flush, .pin (handleOf 1 0) 2]) = [1] :=
  ⟨rfl, by decide, by rfl, by rfl,
    (pin_counts_nonneg_when_balanced exMem exStore "pages.bin" 1 RS_FIFO (exInit 1 RS_FIFO)
      (exAfter 1 RS_FIFO [.pin freshHandle 1, .dirty (handleOf 1 0),
          .unpin (handleOf 1 0), .flush, .pin (handleOf 1 0) 2])
      [.pin freshHandle 1, .dirty (handleOf 1 0), .unpin (handleOf 1 0), .flush,
        .pin (handleOf 1 0) 2] rfl (by decide) (by rfl) (by rfl)).1,
    by rfl⟩

/-- C13 (amended). `forceFlushPool` on a pool with as many frames as
`numPages`, in which every write of an unpinned dirty frame succeeds, the
unpinned dirty frames hold pairwise different pages and the write counter is
a C `int` that stays at or below `INT_MAX` when the writes are added: without
a page file it returns `RC_BUFFER_NOT_INIT` and the state is unchanged; with
a page file it returns `RC_OK`, every unpinned dirty frame has its dirty bit
cleared and is otherwise unchanged, every other frame is unchanged
(`cleared`), the write counter grows by the number of unpinned dirty frames,
memory is unchanged, and the page file holds the buffer of every unpinned
dirty frame at that frame's page number. -/
theorem forceFlushPool_effect (s : World)
    (hnum : s.bm.mgmtData.length = s.bm.numPages.toNat)
    (hwrite : ∀ f ∈ s.bm.mgmtData, needsFlush f = true → WriteSucceeds s.store f.pageNum)
    (hdistinct : s.bm.mgmtData.Pairwise (fun f g => needsFlush f = true →
      needsFlush g = true → f.pageNum ≠ g.pageNum))
    (hlow : INT_MIN ≤ s.bmi.numWrite)
    (hhigh : s.bmi.numWrite + (s.bm.mgmtData.countP needsFlush : Nat) ≤ INT_MAX) :
    (s.bm.pageFile = none → forceFlushPool s = (RC_BUFFER_NOT_INIT, s)) ∧
    (s.bm.pageFile ≠ none →
      (forceFlushPool s).1 = RC_OK ∧
      (forceFlushPool s).2.bm.mgmtData = s.bm.mgmtData.map cleared ∧
      (forceFlushPool s).2.bmi.numWrite
        = s.bmi.numWrite + (s.bm.mgmtData.countP needsFlush : Nat) ∧
      (forceFlushPool s).2.mem = s.mem ∧
      ∀ f ∈ s.bm.mgmtData, needsFlush f = true →
        (forceFlushPool s).2.store.blocks[f.pageNum.toNat]? = some (s.mem f.data)) := by
  constructor
  · intro h
    simp [forceFlushPool, h]
  · intro h
    have htake : s.bm.mgmtData.take s.bm.numPages.toNat = s.bm.mgmtData := by
      rw [← hnum, List.take_length]
    simp only [forceFlushPool, h, if_false, htake]
    refine ⟨trivial, ?_, flushFrames_numWrite _ s 0 hlow hhigh, flushFrames_mem _ s 0,
      (flushFrames_store _ s 0 hwrite hdistinct).1⟩
    have := flushFrames_frames s.bm.mgmtData s 0 [] [] (by simp) rfl
    simpa using this

/-- C13 (amended) at `exFlushPool`: frame 0 (page 1, unpinned, dirty) is
written and cleaned, frame 1 (page 2, pinned, dirty) is left alone, one write
is counted and block 1 of the page file becomes the buffer filled with 150;
and at `noPool`, which has no page file, the call is refused. -/
theorem forceFlushPool_effect_witness :
    exFlushPool.bm.mgmtData.length = exFlushPool.bm.numPages.toNat ∧
    (∀ f ∈ exFlushPool.bm.mgmtData, needsFlush f = true →
      WriteSucceeds exFlushPool.store f.pageNum) ∧
    exFlushPool.bm.mgmtData.Pairwise (fun f g => needsFlush f = true →
      needsFlush g = true → f.pageNum ≠ g.pageNum) ∧
    INT_MIN ≤ exFlushPool.bmi.numWrite ∧
    exFlushPool.bmi.numWrite + (exFlushPool.bm.mgmtData.countP needsFlush : Nat) ≤ INT_MAX ∧
    ((exFlushPool.bm.pageFile = none →
      forceFlushPool exFlushPool = (RC_BUFFER_NOT_INIT, exFlushPool)) ∧
    (exFlushPool.bm.pageFile ≠ none →
      (forceFlushPool exFlushPool).1 = RC_OK ∧
      (forceFlushPool exFlushPool).2.bm.mgmtData = exFlushPool.bm.mgmtData.map cleared ∧
      (forceFlushPool exFlushPool).2.bmi.numWrite
        = exFlushPool.bmi.numWrite + (exFlushPool.bm.mgmtData.countP needsFlush : Nat) ∧
      (forceFlushPool exFlushPool).2.mem = exFlushPool.mem ∧
      ∀ f ∈ exFlushPool.bm.mgmtData, needsFlush f = true →
        (forceFlushPool exFlushPool).2.store.blocks[f.pageNum.toNat]?
          = some (exFlushPool.mem f.data))) ∧
    (getFrameContents exFlushPool, getFixCounts exFlushPool, getDirtyFlags exFlushPool,
      exFlushPool.bmi.numWrite, exFlushPool.store.blocks[1]?,
      getDirtyFlags (forceFlushPool exFlushPool).2, (forceFlushPool exFlushPool).2.bmi.numWrite,
      (forceFlushPool exFlushPool).2.store.blocks[1]?)
      = ([1, 2], [0, 1], [1, 1], 0, some (blockOf 11), [0, 1], 1, some (blockOf 150)) ∧
    noPool.bm.pageFile = none ∧ forceFlushPool noPool = (RC_BUFFER_NOT_INIT, noPool) :=
  ⟨by rfl, by decide, by decide, by decide, by decide,
    forceFlushPool_effect exFlushPool (by rfl) (by decide) (by decide) (by decide) (by decide),
    by rfl, by rfl,
    (forceFlushPool_effect noPool (by rfl) (by decide) (by decide) (by decide) (by decide)).1
      (by rfl)⟩

/-- C2 (amended). LRU order: take an LRU pool fresh from `initBufferPool` over
the device `st` and a sequence of calls in which the read of every `pinPage`
succeeds and no resident page is pinned again before the pool is full, and
let the run produce the state `s` with the recency order `log` (an access is a
`pinPage` that returns `RC_OK`, or an `unpinPage` that returns `RC_OK` on a
full pool).  Then `log` lists exactly the resident pages, each once, least
recently accessed first.  If the pool is full, no frame is pinned and
`pageNum >= 0` (read succeeding) is not resident, `pinPage` of `pageNum`
returns `RC_OK`, the page at the head of `log` (the least recently accessed
resident page) is no longer resident, `pageNum` is, and every other page of
`log` still is. -/
theorem lru_evicts_least_recently_accessed (mem : Ptr → Buffer) (st : PageStore)
    (name : String) (n : Int) (s0 s : World) (calls : List Call) (log : List Int)
    (page : BM_PageHandle) (pageNum : Int)
    (hinit : initBufferPool mem (some st) (some name) n RS_LRU = (RC_OK, some s0))
    (hreads : ∀ c ∈ calls, c.readsSucceed st = true)
    (hfill : hitsOnlyWhenFull s0 calls = true)
    (hrun : runCallsRecency calls s0 [] = some (s, log))
    (hp : 0 ≤ pageNum) (hread : ReadSucceeds st pageNum) :
    runCalls calls s0 = some s ∧
    log.Nodup ∧ (∀ q : Int, q ∈ log ↔ (resident s q = true ∧ q ≠ NO_PAGE)) ∧
    (isFull s = true → (∀ f ∈ s.bm.mgmtData, f.pinCount = 0) →
      resident s pageNum = false →
      ∃ (victim : Int) (rest : List Int) (page1 : BM_PageHandle) (s1 : World),
        log = victim :: rest ∧ pinPage s page pageNum = some (RC_OK, page1, s1) ∧
        resident s1 victim = false ∧ resident s1 pageNum = true ∧
        ∀ q ∈ rest, resident s1 q = true) := by
  obtain ⟨hplain, h⟩ := run_lruSync calls s0 s [] log (init_lruSync hinit) hreads hfill hrun
  refine ⟨hplain, h.nodup, lruSync_mem h, ?_⟩
  intro hfull hunpinned hmiss
  have hmiss1 : searchPageFromBuffer s pageNum = none := by
    unfold resident at hmiss
    cases hs : searchPageFromBuffer s pageNum with
    | none => rfl
    | some i => rw [hs] at hmiss; cases hmiss
  have hread1 : ReadSucceeds s.store pageNum := by
    unfold ReadSucceeds
    rw [h.ensureFault, h.readFault]
    exact hread
  have hcnt : countUnpinned s ≠ 0 := by
    have hcap := h.capacity_pos
    have hsized := h.sized
    unfold Sized at hsized
    have hpos : 0 < s.bm.mgmtData.length := by omega
    have hmem : s.bm.mgmtData[0] ∈ s.bm.mgmtData := List.getElem_mem _
    have hc : 0 < countUnpinned s := by
      unfold countUnpinned
      rw [← hsized, List.take_length]
      exact List.countP_pos_iff.2 ⟨_, hmem, by simp [hunpinned _ hmem]⟩
    omega
  obtain ⟨v, rest, page1, s1, hlog, hpin, -, hsync, hvout⟩ :=
    lru_evict page h hfull hp hmiss1 hread1 hcnt
  refine ⟨v, rest, page1, s1, hlog,
    (pinPage_eq_LRU page h.attached h.lru hp).trans hpin, hvout, ?_, ?_⟩
  · exact ((lruSync_mem hsync pageNum).1 (List.mem_append_right _ (List.mem_singleton_self _))).1
  · intro q hq
    exact ((lruSync_mem hsync q).1 (List.mem_append_left _ hq)).1

/-- C2 (amended) at the scenario of the claim: capacity 3, pin and unpin 1, 2,
3, pin and unpin 2 again, then `pinPage 4`: the recency order is `[1, 3, 2]`,
page 1 is evicted and the frame contents become `[4, 2, 3]`. -/
theorem lru_evicts_least_recently_accessed_witness :
    initBufferPool exMem (some exStore) (some "pages.bin") 3 RS_LRU
      = (RC_OK, some (exInit 3 RS_LRU)) ∧
    (∀ c ∈ lruWitnessCalls, c.readsSucceed exStore = true) ∧
    hitsOnlyWhenFull (exInit 3 RS_LRU) lruWitnessCalls = true ∧
    runCallsRecency lruWitnessCalls (exInit 3 RS_LRU) []
      = some (exAfter 3 RS_LRU lruWitnessCalls, [1, 3, 2]) ∧
    (0 : Int) ≤ 4 ∧ ReadSucceeds exStore 4 ∧
    (runCalls lruWitnessCalls (exInit 3 RS_LRU) = some (exAfter 3 RS_LRU lruWitnessCalls) ∧
      ([1, 3, 2] : List Int).Nodup ∧
      (∀ q : Int, q ∈ ([1, 3, 2] : List Int) ↔
        (resident (exAfter 3 RS_LRU lruWitnessCalls) q = true ∧ q ≠ NO_PAGE)) ∧
      (isFull (exAfter 3 RS_LRU lruWitnessCalls) = true →
        (∀ f ∈ (exAfter 3 RS_LRU lruWitnessCalls).bm.mgmtData, f.pinCount = 0) →
        resident (exAfter 3 RS_LRU lruWitnessCalls) 4 = false →
        ∃ (victim : Int) (rest : List Int) (page1 : BM_PageHandle) (s1 : World),
          ([1, 3, 2] : List Int) = victim :: rest ∧
          pinPage (exAfter 3 RS_LRU lruWitnessCalls) (handleOf 2 1) 4
            = some (RC_OK, page1, s1) ∧
          resident s1 victim = false ∧ resident s1 4 = true ∧
          ∀ q ∈ rest, resident s1 q = true)) ∧
    (fun s => (getFrameContents s, getFixCounts s, s.bmi.arr, isFull s, resident s 4,
        (pinPage s (handleOf 2 1) 4).map (fun x => (x.1, getFrameContents x.2.2, x.2.2.bmi.arr))))
      (exAfter 3 RS_LRU lruWitnessCalls)
      = ([1, 2, 3], [0, 0, 0], [1, 3, 2], true, false,
          some (RC_OK, [4, 2, 3], [3, 2, 4])) :=
  ⟨rfl, by decide, by rfl, by rfl, by decide, by decide,
    lru_evicts_least_recently_accessed exMem exStore "pages.bin" 3 (exInit 3 RS_LRU)
      (exAfter 3 RS_LRU lruWitnessCalls) lruWitnessCalls [1, 3, 2] (handleOf 2 1) 4 rfl
      (by decide) (by rfl) (by rfl) (by decide) (by decide),
    by rfl⟩

end BufferMgr
